import Mathlib

/-!
# PCA9685 PWM expander driver: embedding of `src/drivers/pca9685/pca9685.cpp`

The driver object is embedded as the record `Dev` (one field per member of
`class PCA9685`), every member function as a pure function that takes the
device state and returns the C++ return value together with the new state.

Everything the driver talks to is explicit:

* the I2C bus is the record `Bus`; the transfers the driver makes, in order,
  are appended to `Dev.log`, and the bus answers the `k`-th transfer of the
  run with `Bus.ret k` (and `Bus.rx k` when the transfer reads a byte);
* uORB, `poll` and the mixer library are the records `Uorb`, `Period` and
  `MixerLib`;
* every other call that leaves the driver (`usleep`, `work_queue`, ...) is an
  event of `Dev.log`.

Unsigned machine integers are natural numbers reduced `% 2^w` wherever the
C++ code narrows a value. A `float` is a rational number, and every `float`
operation rounds its exact result to the nearest value of the binary32 format,
a tie going to the even significand (`f32`).
-/

namespace PCA9685

/-! ## Constants (lines 84-118 of pca9685.cpp) -/

/-- Value of `OK`. -/
def OK : Int := 0

/-- Value of `PX4_ERROR`. -/
def PX4_ERROR : Int := -1

/-- Value of `EINVAL` (errno.h). -/
def EINVAL : Int := 22

/-- Value of `ENOMEM` (errno.h). -/
def ENOMEM : Int := 12

def PCA9685_MODE1 : Nat := 0x0
def PCA9685_PRESCALE : Nat := 0xFE
def LED0_ON_L : Nat := 0x6
def LED0_ON_H : Nat := 0x7
def LED0_OFF_L : Nat := 0x8
def LED0_OFF_H : Nat := 0x9
def ALLLED_ON_L : Nat := 0xFA
def ALLLED_ON_H : Nat := 0xFB
def ALLLED_OFF_L : Nat := 0xFC

/-- The `#define PCA9685_PWMFREQ 60.0f`. -/
def PCA9685_PWMFREQ : ℚ := 60

def PCA9685_NCHANS : Nat := 16
def PCA9685_PWMMIN : Nat := 150
def PCA9685_PWMMAX : Nat := 600

/-- The `#define PCA9685_PWMCENTER ((PCA9685_PWMMAX + PCA9685_PWMMIN)/2)`,
an integer division. -/
def PCA9685_PWMCENTER : Nat := (PCA9685_PWMMAX + PCA9685_PWMMIN) / 2

/-- Number of control groups, `actuator_controls_s::NUM_ACTUATOR_CONTROL_GROUPS`
(uORB message header, not part of the sources). -/
def NUM_ACTUATOR_CONTROL_GROUPS : Nat := 4

/-- Number of controls per group, `actuator_controls_s::NUM_ACTUATOR_CONTROLS`
(uORB message header, not part of the sources). -/
def NUM_ACTUATOR_CONTROLS : Nat := 8

/-- Number of outputs, `actuator_outputs_s::NUM_ACTUATOR_OUTPUTS`
(uORB message header, not part of the sources). -/
def NUM_ACTUATOR_OUTPUTS : Nat := 16

/-- The `poll` event bit `POLLIN` (poll.h, not part of the sources). -/
def POLLIN : Nat := 0x01

/-- The enumerators of `enum IOX_MODE` (drv_io_expander.h, not part of the
sources), in declaration order. -/
def IOX_MODE_OFF : Nat := 0
def IOX_MODE_ON : Nat := 1
def IOX_MODE_TEST_OUT : Nat := 2

/-! ## Values -/

/-- A `float`: a finite value of the binary32 format, as a rational number;
`none` is a value that is not finite (an infinity or a NaN). -/
abbrev Flt := Option ℚ

/-- The `NAN_VALUE` of line 118. -/
def NAN_VALUE : Flt := none

/-- Rounding to the nearest integer, a tie going to the even neighbour. -/
def roundEven (q : ℚ) : Int :=
  if q - ⌊q⌋ < 1 / 2 then ⌊q⌋
  else if 1 / 2 < q - ⌊q⌋ then ⌊q⌋ + 1
  else if ⌊q⌋ % 2 = 0 then ⌊q⌋ else ⌊q⌋ + 1

/-- Exponent of the binade of `x` in the binary32 format: `⌊log₂ |x|⌋`, and
`-126`, the exponent of the subnormal values, below `2^-126`. -/
def f32exp (x : ℚ) : Int := max (Int.log 2 |x|) (-126)

/-- Distance between neighbouring binary32 values in the binade of `x`: the
significand has 24 bits. -/
def f32ulp (x : ℚ) : ℚ := (2 : ℚ) ^ (f32exp x - 23)

/-- The multiple of `f32ulp x` nearest to `x`, a tie going to the even
multiple: the binary32 value nearest to `x`, before the test for overflow. -/
def f32round (x : ℚ) : ℚ := roundEven (x / f32ulp x) * f32ulp x

/-- The `float` an operation delivers whose exact result is `x`: the nearest
binary32 value (round to nearest, ties to even, the default rounding), and an
infinity when that value is `2^128` or more in magnitude. -/
def f32 (x : ℚ) : Flt := if |f32round x| < 2 ^ 128 then some (f32round x) else none

/-- Sum of two floats. -/
def fadd (a b : Flt) : Flt :=
  match a, b with
  | some x, some y => f32 (x + y)
  | _, _ => none

/-- Difference of two floats. -/
def fsub (a b : Flt) : Flt :=
  match a, b with
  | some x, some y => f32 (x - y)
  | _, _ => none

/-- Product of two floats. -/
def fmul (a b : Flt) : Flt :=
  match a, b with
  | some x, some y => f32 (x * y)
  | _, _ => none

/-- Quotient of two finite floats; the quotient by zero is not finite. -/
def fdiv (a b : Flt) : Flt :=
  match a, b with
  | some x, some y => if y = 0 then none else f32 (x / y)
  | _, _ => none

/-- Conversion of an integer to `float`. -/
def ofInt (n : Int) : Flt := f32 n

/-- The literal `M_PI_F`, `3.14159265358979323846f` (px4_defines.h, not part
of the sources). -/
def M_PI_F : Flt := f32 (314159265358979323846 / 100000000000000000000)

/-- The literal `M_DEG_TO_RAD_F`, `0.01745329251994f` (px4_defines.h, not part
of the sources). -/
def M_DEG_TO_RAD_F : Flt := f32 (1745329251994 / 100000000000000)

/-- The `#define PCA9685_MAXSERVODEG 180.0f`. -/
def PCA9685_MAXSERVODEG : Flt := f32 180

/-- The `#define PCA9685_SCALE ((PCA9685_PWMMAX - PCA9685_PWMCENTER) /
(M_DEG_TO_RAD_F * PCA9685_MAXSERVODEG))`: an integer difference, converted to
`float`, over a `float` product. -/
def PCA9685_SCALE : Flt :=
  fdiv (ofInt ((PCA9685_PWMMAX : Int) - (PCA9685_PWMCENTER : Int)))
    (fmul M_DEG_TO_RAD_F PCA9685_MAXSERVODEG)

/-- Truncation toward zero, the rounding of a C++ conversion from a floating
value to an integer. -/
def truncQ (x : ℚ) : Int := if 0 ≤ x then ⌊x⌋ else ⌈x⌉

/-- Conversion `uint8_t(x)` of a float. C++ leaves the conversion undefined
when the truncated value does not fit; it is embedded the way every narrowing
in this development is: the truncated value reduced modulo `2^8`; a
non-finite value converts to 0. -/
def toUInt8 (x : Flt) : Nat :=
  match x with
  | none => 0
  | some q => (truncQ q % 256).toNat

/-- Conversion of a float to `uint16_t`: truncation, reduced modulo `2^16`;
a non-finite value converts to 0. -/
def toUInt16 (x : Flt) : Nat :=
  match x with
  | none => 0
  | some q => (truncQ q % 65536).toNat

/-- Conversion of a float to `unsigned`: truncation, reduced modulo `2^32`;
a non-finite value converts to 0. -/
def toUInt32 (x : Flt) : Nat :=
  match x with
  | none => 0
  | some q => (truncQ q % 4294967296).toNat

/-- The control vector of one group (`actuator_controls_s::control`). -/
abbrev actuator_controls_s := List Flt

/-- The three flags of `actuator_armed_s` the driver reads. -/
structure actuator_armed_s where
  armed : Bool
  prearmed : Bool
  lockdown : Bool
  deriving DecidableEq, Repr

/-- One entry of the `pollfd` array. -/
structure pollfd where
  fd : Int
  events : Nat
  revents : Nat
  deriving DecidableEq, Repr

/-- The six bytes of the message buffer `uint8_t _msg[6]`. -/
structure Msg where
  b0 : Nat
  b1 : Nat
  b2 : Nat
  b3 : Nat
  b4 : Nat
  b5 : Nat
  deriving DecidableEq, Repr

/-- A simple-mixer descriptor `mixer_simple_s`, by its raw bytes; the driver
never looks inside it. -/
abbrev mixer_simple_s := List Nat

/-- One mixer held by a mixer group: built from a simple descriptor by the
driver, or produced by the library from a text buffer. -/
inductive Mixer where
  | simple (info : mixer_simple_s)
  | loaded (text : List Nat)
  deriving DecidableEq, Repr

/-- The contents of a `MixerGroup` object: its mixers, in insertion order. -/
abbrev MixerGroup := List Mixer

/-- A call that leaves the driver, in the order the driver makes them. -/
inductive Ev where
  /-- The call `transfer(send, n, nullptr, 0)` with the `n` bytes sent. -/
  | send (bytes : List Nat)
  /-- The call `transfer(nullptr, 0, recv, n)`. -/
  | recv (n : Nat)
  | usleep (us : Nat)
  | pwm_limit_init
  /-- The call `orb_subscribe(ORB_ID(actuator_armed))`. -/
  | orb_subscribe_armed
  /-- The call `orb_subscribe(_control_topics[i])`. -/
  | orb_subscribe (i : Nat)
  /-- The call `::close(fd)`. -/
  | close (fd : Int)
  | orb_set_interval (fd : Int) (ms : Nat)
  /-- The call `::poll(_poll_fds, n, 0)` with the `n` descriptors polled. -/
  | poll (fds : List Int)
  /-- The call `orb_copy(_control_topics[i], _control_subs[i], &_controls[i])`. -/
  | orb_copy (i : Nat) (fd : Int)
  | orb_check_armed (fd : Int)
  | orb_copy_armed (fd : Int)
  /-- The call `_mixers->mix(_outputs, space, NULL)`. -/
  | mix (space : Nat)
  /-- The call `work_queue(LPWORK, &_work, i2cpwm_trampoline, this, delay)`. -/
  | work_queue (delay : Nat)
  deriving DecidableEq, Repr

/-- Whether an event is an I2C bus transaction. -/
def Ev.isTransfer : Ev → Bool
  | .send _ => true
  | .recv _ => true
  | _ => false

/-! ## The environment -/

/-- The I2C bus: what `transfer` returns and reads, by the position of the
transfer among all transfers of the run. -/
structure Bus where
  /-- Return code of the `k`-th transfer (`OK` or an error code). -/
  ret : Nat → Int
  /-- Byte the device delivers in the `k`-th transfer, when it reads. -/
  rx : Nat → Nat

/-- The uORB calls that return a handle, by the number of calls the driver
has logged before. -/
structure Uorb where
  subscribe_armed : Nat → Int
  subscribe : Nat → Nat → Int

/-- The mixer library (`systemlib/mixer`), consumed through its interface. -/
structure MixerLib where
  /-- Result of `SimpleMixer::check()`: 0 for a valid descriptor. -/
  check : mixer_simple_s → Int
  /-- Result of `MixerGroup::load_from_buf(buf, buflen)`: return code and the
  group afterwards. -/
  load_from_buf : MixerGroup → List Nat → Nat → Int × MixerGroup
  /-- Effect of `MixerGroup::groups_required(groups)` on its reference
  argument. -/
  groups_required : MixerGroup → Nat → Nat
  /-- Values `MixerGroup::mix` writes, given the control callback and the
  space offered; the number of values is the count it returns. -/
  mix : MixerGroup → (Nat → Nat → Flt) → Nat → List Flt
  /-- Result of `CDev::ioctl` for a command the driver does not handle. -/
  cdev_ioctl : Nat → Nat → Int

/-! ## The driver object -/

/-- The members of `class PCA9685` (lines 138-169), with the log of the calls
made so far. -/
structure Dev where
  mode : Nat
  running : Bool
  i2cpwm_interval : Nat
  should_run : Bool
  /-- Count of the performance counter `_comms_errors`. -/
  comms_errors : Nat
  msg : Msg
  control_subs : List Int
  controls : List actuator_controls_s
  outputs : List Flt
  rates : List Nat
  poll_fds : List pollfd
  poll_fds_num : Nat
  armed_sub : Int
  servo_armed : Bool
  mixers : Option MixerGroup
  groups_required : Nat
  groups_subscribed : Nat
  armed : actuator_armed_s
  mode_on_initialized : Bool
  /-- Calls made so far, oldest first. -/
  log : List Ev
  /-- Number of bus transfers made so far. -/
  nxfer : Nat

/-- The constructor (lines 225-253). The initialiser `_control_subs{-1}` sets
the first element to -1 and value-initialises the other three. `interval` is
the value of `SEC2TICK(1.0f / 60.0f)`. -/
def new (interval : Nat) : Dev where
  mode := IOX_MODE_OFF
  running := false
  i2cpwm_interval := interval
  should_run := false
  comms_errors := 0
  msg := ⟨0, 0, 0, 0, 0, 0⟩
  control_subs := [-1, 0, 0, 0]
  controls := List.replicate NUM_ACTUATOR_CONTROL_GROUPS
    (List.replicate NUM_ACTUATOR_CONTROLS (some 0))
  outputs := List.replicate NUM_ACTUATOR_OUTPUTS (some 0)
  rates := List.replicate NUM_ACTUATOR_OUTPUTS 0
  poll_fds := List.replicate NUM_ACTUATOR_CONTROL_GROUPS ⟨0, 0, 0⟩
  poll_fds_num := 0
  armed_sub := -1
  servo_armed := false
  mixers := none
  groups_required := 0
  groups_subscribed := 0
  armed := ⟨false, false, false⟩
  mode_on_initialized := false
  log := []
  nxfer := 0

/-- The bus transactions of a log, in order. -/
def transfers (log : List Ev) : List Ev := log.filter Ev.isTransfer

/-! ## Bus transport -/

/-- The call `transfer(send, n, nullptr, 0)`: one write transaction. -/
def transfer_send (bus : Bus) (d : Dev) (bytes : List Nat) : Int × Dev :=
  (bus.ret d.nxfer, { d with log := d.log ++ [Ev.send bytes], nxfer := d.nxfer + 1 })

/-- The call `transfer(nullptr, 0, &value, 1)`: one read transaction of one
byte. -/
def transfer_recv (bus : Bus) (d : Dev) : Int × Nat × Dev :=
  (bus.ret d.nxfer, bus.rx d.nxfer % 256,
    { d with log := d.log ++ [Ev.recv 1], nxfer := d.nxfer + 1 })

/-- The function `PCA9685::setPWM` (lines 606-626). `num` is a `uint8_t`, `on_`
and `off_` (the parameters `on` and `off`) are `uint16_t`; every store into `_msg` narrows to 8 bits. -/
def setPWM (bus : Bus) (d : Dev) (num on_ off_ : Nat) : Int × Dev :=
  let msg : Msg := { d.msg with
    b0 := (LED0_ON_L + 4 * num) % 256
    b1 := on_ % 256
    b2 := (on_ >>> 8) % 256
    b3 := off_ % 256
    b4 := (off_ >>> 8) % 256 }
  let d := { d with msg := msg }
  let (ret, d) := transfer_send bus d [msg.b0, msg.b1, msg.b2, msg.b3, msg.b4]
  if OK ≠ ret then
    (ret, { d with comms_errors := d.comms_errors + 1 })
  else
    (ret, d)

/-- The function `PCA9685::setPin` (lines 628-664). -/
def setPin (bus : Bus) (d : Dev) (num val : Nat) (invert : Bool) : Int × Dev :=
  let val := if val > 4095 then 4095 else val
  if invert then
    if val = 0 then
      setPWM bus d num 4096 0
    else if val = 4095 then
      setPWM bus d num 0 4096
    else
      setPWM bus d num 0 (4095 - val)
  else
    if val = 4095 then
      setPWM bus d num 4096 0
    else if val = 0 then
      setPWM bus d num 0 4096
    else
      setPWM bus d num 0 val

/-- The function `PCA9685::read8` (lines 716-742): returns the code and the
byte read (meaningful when the code is `OK`). -/
def read8 (bus : Bus) (d : Dev) (addr : Nat) : Int × Nat × Dev :=
  let (ret, d) := transfer_send bus d [addr]
  if ret ≠ OK then
    (ret, 0, { d with comms_errors := d.comms_errors + 1 })
  else
    let (ret, value, d) := transfer_recv bus d
    if ret ≠ OK then
      (ret, 0, { d with comms_errors := d.comms_errors + 1 })
    else
      (ret, value, d)

/-- The function `PCA9685::write8` (lines 751-766). -/
def write8 (bus : Bus) (d : Dev) (addr value : Nat) : Int × Dev :=
  let msg : Msg := { d.msg with b0 := addr % 256, b1 := value % 256 }
  let d := { d with msg := msg }
  let (ret, d) := transfer_send bus d [msg.b0, msg.b1]
  if ret ≠ OK then
    (ret, { d with comms_errors := d.comms_errors + 1 })
  else
    (ret, d)

/-- The function `PCA9685::reset` (lines 744-748). -/
def reset (bus : Bus) (d : Dev) : Int × Dev :=
  write8 bus d PCA9685_MODE1 0x0

/-! ## Frequency calibration -/

/-- The frequency after `freq *= 0.9f` (line 670), for a finite `freq`. -/
def correctedFreq (freq : ℚ) : Flt := fmul (some freq) (f32 (9 / 10))

/-- The float `prescaleval` after lines 672-675. When the product of line 670
has overflowed, `freq` is an infinity there and the quotient of line 674 is
zero. -/
def prescaleval (freq : ℚ) : Flt :=
  let freq := correctedFreq freq
  let prescaleval : Flt := ofInt 25000000
  let prescaleval := fdiv prescaleval (ofInt 4096)
  let prescaleval :=
    match freq with
    | none => some 0
    | some _ => fdiv prescaleval freq
  let prescaleval := fsub prescaleval (ofInt 1)
  prescaleval

/-- The byte `prescale` of line 676, `uint8_t(prescaleval + 0.5f)`. -/
def prescale (freq : ℚ) : Nat := toUInt8 (fadd (prescaleval freq) (f32 (1 / 2)))

/-- The function `PCA9685::setPWMFreq` (lines 666-713). -/
def setPWMFreq (bus : Bus) (d : Dev) (freq : ℚ) : Int × Dev :=
  let prescale := prescale freq
  let (ret, oldmode, d) := read8 bus d PCA9685_MODE1
  if ret ≠ OK then (ret, d) else
  let newmode := (oldmode &&& 0x7F) ||| 0x10
  let (ret, d) := write8 bus d PCA9685_MODE1 newmode
  if ret ≠ OK then (ret, d) else
  let (ret, d) := write8 bus d PCA9685_PRESCALE prescale
  if ret ≠ OK then (ret, d) else
  let (ret, d) := write8 bus d PCA9685_MODE1 oldmode
  if ret ≠ OK then (ret, d) else
  let d := { d with log := d.log ++ [Ev.usleep 5000] }
  let (ret, d) := write8 bus d PCA9685_MODE1 (oldmode ||| 0xa1)
  if ret ≠ OK then (ret, d) else
  (ret, d)

/-- The function `PCA9685::init` (lines 259-278), after `I2C::init()` has
returned `i2c_init`. -/
def init (bus : Bus) (i2c_init : Int) (d : Dev) : Int × Dev :=
  let ret := i2c_init
  if ret ≠ OK then (ret, d) else
  let (ret, d) := reset bus d
  if ret ≠ OK then (ret, d) else
  setPWMFreq bus d PCA9685_PWMFREQ

/-! ## Control-group subscriptions -/

/-- Bitwise complement of a `uint32_t`. -/
def not32 (x : Nat) : Nat := 0xFFFFFFFF ^^^ (x % 2 ^ 32)

/-- One iteration, for group `i`, of the loop of `subscribe` (lines 307-324). -/
def subscribe_step (orb : Uorb) (sub_groups unsub_groups : Nat) (d : Dev) (i : Nat) : Dev :=
  let d :=
    if sub_groups &&& (1 <<< i) ≠ 0 then
      { d with
        control_subs := d.control_subs.set i (orb.subscribe d.log.length i)
        log := d.log ++ [Ev.orb_subscribe i] }
    else d
  let d :=
    if unsub_groups &&& (1 <<< i) ≠ 0 then
      { d with
        control_subs := d.control_subs.set i (-1)
        log := d.log ++ [Ev.close (d.control_subs.getD i 0)] }
    else d
  if d.control_subs.getD i 0 > 0 then
    let e := d.poll_fds.getD d.poll_fds_num ⟨0, 0, 0⟩
    { d with
      poll_fds := d.poll_fds.set d.poll_fds_num { e with fd := d.control_subs.getD i 0, events := POLLIN }
      poll_fds_num := d.poll_fds_num + 1 }
  else d

/-- The function `PCA9685::subscribe` (lines 299-325). -/
def subscribe (orb : Uorb) (d : Dev) : Dev :=
  let sub_groups := d.groups_required &&& not32 d.groups_subscribed
  let unsub_groups := d.groups_subscribed &&& not32 d.groups_required
  let d := { d with poll_fds_num := 0 }
  (List.range NUM_ACTUATOR_CONTROL_GROUPS).foldl (subscribe_step orb sub_groups unsub_groups) d

/-- The function `PCA9685::control_callback` (lines 327-346): the value left
in `input`. A comparison with a non-finite value is false. -/
def control_callback (controls : List actuator_controls_s)
    (control_group control_index : Nat) : Flt :=
  match (controls.getD control_group []).getD control_index none with
  | none => none
  | some input =>
    if input > 1 then some 1
    else if input < -1 then some (-1)
    else some input

/-! ## The command surface -/

/-- The commands `ioctl` distinguishes, with their argument. -/
inductive Cmd where
  | MIXERIOCRESET
  | MIXERIOCADDSIMPLE (mixinfo : mixer_simple_s)
  /-- The argument is the text of the buffer, up to its terminating NUL. -/
  | MIXERIOCLOADBUF (buf : List Nat)
  | IOX_SET_MODE (arg : Nat)
  | other (cmd arg : Nat)

/-- The function `PCA9685::ioctl` (lines 348-457). `heap_ok` tells whether
`new MixerGroup` of line 392 yields an object. -/
def ioctl (lib : MixerLib) (heap_ok : Bool) (d : Dev) (cmd : Cmd) : Int × Dev :=
  match cmd with
  | .MIXERIOCRESET =>
    let d :=
      if d.mixers.isSome then { d with mixers := none, groups_required := 0 }
      else d
    (OK, d)
  | .MIXERIOCADDSIMPLE mixinfo =>
    if lib.check mixinfo ≠ 0 then
      (-EINVAL, { d with groups_required := 0 })
    else
      let g : MixerGroup := match d.mixers with
        | none => []
        | some g => g
      let g := g ++ [Mixer.simple mixinfo]
      (OK, { d with mixers := some g, groups_required := lib.groups_required g d.groups_required })
  | .MIXERIOCLOADBUF buf =>
    let buflen := min buf.length 1024
    let mixers : Option MixerGroup := match d.mixers with
      | none => if heap_ok then some [] else none
      | some g => some g
    match mixers with
    | none => (-ENOMEM, { d with mixers := none, groups_required := 0 })
    | some g =>
      let (ret, g) := lib.load_from_buf g buf buflen
      if ret ≠ 0 then
        (-EINVAL, { d with mixers := none, groups_required := 0 })
      else
        (OK, { d with mixers := some g, groups_required := lib.groups_required g d.groups_required })
  | .IOX_SET_MODE arg =>
    if d.mode ≠ arg ∧ ¬(arg = IOX_MODE_OFF ∨ arg = IOX_MODE_ON ∨ arg = IOX_MODE_TEST_OUT) then
      (-1, d)
    else
      let d := if d.mode ≠ arg then { d with mode := arg } else d
      let d :=
        if !d.running then
          { d with running := true, log := d.log ++ [Ev.work_queue 1] }
        else d
      (OK, d)
  | .other cmd arg => (lib.cdev_ioctl cmd arg, d)

/-! ## The control loop -/

/-- What one run of the loop receives from outside. -/
structure Period where
  /-- Return value of `::poll`. -/
  poll_ret : Int
  /-- The `revents` that `poll` reports, one per polled descriptor. -/
  revents : List Nat
  /-- The control vector `orb_copy` delivers for group `i`. -/
  fresh : Nat → actuator_controls_s
  /-- The flag `orb_check` reports for the arming topic. -/
  armed_updated : Bool
  /-- The arming sample `orb_copy` delivers. -/
  armed : actuator_armed_s

/-- One iteration, for group `i`, of the loop of lines 507-509: the call
`orb_set_interval(_control_subs[i], 1000.0f / PCA9685_PWMFREQ - 5)`, whose
interval argument is converted to `unsigned`. -/
def set_interval_step (d : Dev) (i : Nat) : Dev :=
  { d with log := d.log ++
    [Ev.orb_set_interval (d.control_subs.getD i 0)
      (toUInt32 (fsub (fdiv (f32 1000) (f32 PCA9685_PWMFREQ)) (ofInt 5)))] }

/-- The one-time initialisation of mode ON (lines 497-511). -/
def mode_on_init (orb : Uorb) (d : Dev) : Dev :=
  let d := { d with log := d.log ++ [Ev.pwm_limit_init] }
  let d := { d with
    armed_sub := orb.subscribe_armed d.log.length
    log := d.log ++ [Ev.orb_subscribe_armed] }
  let d := subscribe orb d
  let d := (List.range NUM_ACTUATOR_CONTROL_GROUPS).foldl set_interval_step d
  { d with mode_on_initialized := true }

/-- The call `::poll(_poll_fds, _poll_fds_num, 0)` of line 515: the first
`_poll_fds_num` entries get their `revents`. -/
def do_poll (p : Period) (d : Dev) : Int × Dev :=
  let fds := (d.poll_fds.take d.poll_fds_num).map pollfd.fd
  let poll_fds := (List.range d.poll_fds.length).map fun j =>
    let e := d.poll_fds.getD j ⟨0, 0, 0⟩
    if j < d.poll_fds_num then { e with revents := p.revents.getD j 0 } else e
  (p.poll_ret, { d with poll_fds := poll_fds, log := d.log ++ [Ev.poll fds] })

/-- One iteration, for group `i`, of the loop of lines 526-533; `poll_id` is
incremented once per iteration, so it equals `i`. -/
def get_controls_step (p : Period) (d : Dev) (i : Nat) : Dev :=
  let poll_id := i
  if d.control_subs.getD i 0 > 0 then
    if (d.poll_fds.getD poll_id ⟨0, 0, 0⟩).revents &&& POLLIN ≠ 0 then
      { d with
        controls := d.controls.set i (p.fresh i)
        log := d.log ++ [Ev.orb_copy i (d.control_subs.getD i 0)] }
    else d
  else d

/-- One iteration, for output `i`, of the loop of lines 549-562. The test
`isfinite(new_value)` is applied to the converted integer and always holds. -/
def write_output (bus : Bus) (d : Dev) (i : Nat) : Dev :=
  let new_value := toUInt16
    (fadd (ofInt PCA9685_PWMCENTER) (fmul (fmul (d.outputs.getD i none) M_PI_F) PCA9685_SCALE))
  if new_value ≥ PCA9685_PWMMIN ∧ new_value ≤ PCA9685_PWMMAX then
    let d := (setPin bus d (i % 256) new_value false).2
    { d with rates := d.rates.set i new_value }
  else d

/-- The mixing block of lines 535-563, for the installed mixer group `g`. -/
def do_mix (lib : MixerLib) (bus : Bus) (g : MixerGroup) (d : Dev) : Dev :=
  let num_outputs := NUM_ACTUATOR_OUTPUTS
  let mixed := (lib.mix g (control_callback d.controls) num_outputs).take num_outputs
  let num_outputs := mixed.length
  let d := { d with
    outputs := mixed ++ d.outputs.drop num_outputs
    log := d.log ++ [Ev.mix NUM_ACTUATOR_OUTPUTS] }
  let d := (List.range NUM_ACTUATOR_OUTPUTS).foldl
    (fun d i => if i ≥ num_outputs then { d with outputs := d.outputs.set i NAN_VALUE } else d) d
  (List.range num_outputs).foldl (write_output bus) d

/-- The arming update of lines 566-578. -/
def update_armed (p : Period) (d : Dev) : Dev :=
  let d := { d with log := d.log ++ [Ev.orb_check_armed d.armed_sub] }
  if p.armed_updated then
    let d := { d with armed := p.armed, log := d.log ++ [Ev.orb_copy_armed d.armed_sub] }
    let set_armed := (d.armed.armed || d.armed.prearmed) && !d.armed.lockdown
    if d.servo_armed ≠ set_armed then { d with servo_armed := set_armed } else d
  else d

/-- The block of lines 523-563, run when `poll` reports at least one ready
descriptor: fetch the fresh control vectors, then mix and write the outputs
if a mixer group is installed. -/
def on_updated (lib : MixerLib) (bus : Bus) (p : Period) (d : Dev) : Dev :=
  let d := (List.range NUM_ACTUATOR_CONTROL_GROUPS).foldl (get_controls_step p) d
  match d.mixers with
  | some g => do_mix lib bus g d
  | none => d

/-- The part of the mode-ON branch after the one-time initialisation (lines
514-592): poll, process fresh data, update the arming state. -/
def on_body (lib : MixerLib) (bus : Bus) (p : Period) (d : Dev) : Dev :=
  let (ret, d) := do_poll p d
  let d :=
    if ret < 0 then d
    else if ret = 0 then d
    else on_updated lib bus p d
  let d := update_armed p d
  { d with should_run := true }

/-- The function `PCA9685::i2cpwm` (lines 485-604): one run of the loop. The
last branch is taken for every mode other than TEST_OUT and OFF. -/
def i2cpwm (lib : MixerLib) (orb : Uorb) (bus : Bus) (p : Period) (d : Dev) : Dev :=
  let d :=
    if d.mode = IOX_MODE_TEST_OUT then
      let d := (setPin bus d 0 PCA9685_PWMCENTER false).2
      { d with should_run := true }
    else if d.mode = IOX_MODE_OFF then
      { d with should_run := false }
    else
      let d := if !d.mode_on_initialized then mode_on_init orb d else d
      on_body lib bus p d
  if !d.should_run then
    { d with running := false }
  else
    { d with running := true, log := d.log ++ [Ev.work_queue d.i2cpwm_interval] }

/-! ## Runs of one driver instance -/

/-- What happens to a driver instance: a mode-set request arrives, or the
work queue runs the loop once. -/
inductive Step where
  | set_mode (arg : Nat)
  | period (p : Period)

/-- One step of a run. The work queue runs the loop only while a run is
queued, which is exactly while `_running` is set. -/
def step (lib : MixerLib) (orb : Uorb) (bus : Bus) (d : Dev) : Step → Dev
  | .set_mode arg => (ioctl lib true d (Cmd.IOX_SET_MODE arg)).2
  | .period p => if d.running then i2cpwm lib orb bus p d else d

/-- A run: the steps applied in order. -/
def run (lib : MixerLib) (orb : Uorb) (bus : Bus) (d : Dev) (steps : List Step) : Dev :=
  steps.foldl (step lib orb bus) d

/-- Number of times the one-time initialisation of mode ON has run: each run
of it calls `pwm_limit_init` once. -/
def initCount (d : Dev) : Nat := d.log.count Ev.pwm_limit_init

/-! ## Reference definitions, written from the specification -/

/-- The prescale byte as the specification words it: `round(25_000_000 / 4096 /
corrected_hz) - 1` with `corrected_hz = 0.9 * hz`, clamped to the 8-bit
unsigned range `[0, 255]`. -/
def specPrescale (hz : ℚ) : Int :=
  max 0 (min 255 (round ((25000000 : ℚ) / 4096 / (9 / 10 * hz)) - 1))

/-- The six bus transactions of the calibration sequence, in the order the
specification lists them, for the MODE1 value `old` read back and the prescale
byte `p`: address write and read of MODE1, sleep write, PRESCALE write,
restore of MODE1, and the final MODE1 write. -/
def calibration (old p : Nat) : List Ev :=
  [Ev.send [PCA9685_MODE1], Ev.recv 1,
   Ev.send [PCA9685_MODE1, (old &&& 0x7F) ||| 0x10],
   Ev.send [PCA9685_PRESCALE, p],
   Ev.send [PCA9685_MODE1, old],
   Ev.send [PCA9685_MODE1, old ||| 0xa1]]

/-! ## Concrete environments -/

/-- A bus on which every transfer succeeds and every read delivers 0. -/
def busOK : Bus := ⟨fun _ => OK, fun _ => 0⟩

/-- A bus on which every transfer succeeds except the `k`-th, which returns
the code `-5`; every read delivers `0x91`. -/
def busFailAt (k : Nat) : Bus := ⟨fun j => if j = k then -5 else OK, fun _ => 0x91⟩

/-- A uORB that hands out the handle `10 + i` for control group `i` and the
handle 3 for the arming topic. -/
def orbFixed : Uorb := ⟨fun _ => 3, fun _ i => 10 + (i : Int)⟩

/-- A mixer library without mixers: every descriptor is rejected, nothing is
mixed. -/
def libNone : MixerLib :=
  ⟨fun _ => 1, fun g _ _ => (1, g), fun _ m => m, fun _ _ _ => [], fun _ _ => -1⟩

/-- A loop input with nothing to report. -/
def quiet : Period := ⟨0, [], fun _ => [], false, ⟨false, false, false⟩⟩

/-- A mixer library that accepts every descriptor and buffer, whose mixers
need control groups 0 and 1, and whose `mix` writes the values `outs`. -/
def libOuts (outs : List Flt) : MixerLib :=
  ⟨fun _ => 0, fun g buf _ => (0, g ++ [Mixer.loaded buf]), fun _ m => m ||| 0b0011,
    fun _ _ _ => outs, fun _ _ => -1⟩

/-- A running driver in mode ON with a mixer installed that needs groups 0
and 1. -/
def mixing : Dev :=
  { new 1 with
    mode := IOX_MODE_ON, running := true,
    mixers := some [Mixer.loaded []], groups_required := 0b0011 }

/-- A loop input in which `poll` reports one ready descriptor (the first) and
the arming topic delivers the sample prearmed, not armed, no lockdown. -/
def ready : Period :=
  ⟨1, [POLLIN], fun _ => List.replicate NUM_ACTUATOR_CONTROLS (some 1), true, ⟨false, true, false⟩⟩

/-- A fresh driver whose installed mixer requires control groups 0 and 1:
required mask `0b0011`, subscribed mask `0b0000`. -/
def needs01 : Dev := { new 1 with groups_required := 0b0011 }

/-- A driver with required mask `0b0011` and subscribed mask `0b0001`, group 0
holding the handle 10. -/
def needs01_has0 : Dev :=
  { new 1 with groups_required := 0b0011, groups_subscribed := 0b0001, control_subs := [10, 0, 0, 0] }

/-- A driver with required mask `0b0001` and subscribed mask `0b0011`, groups
0 and 1 holding the handles 10 and 11. -/
def needs0_has01 : Dev :=
  { new 1 with groups_required := 0b0001, groups_subscribed := 0b0011, control_subs := [10, 11, 0, 0] }

/-- A run that switches the mode ON, OFF and ON again, with one loop period
after each request. -/
def stepsOnOffOn : List Step :=
  [.set_mode IOX_MODE_ON, .period quiet, .set_mode IOX_MODE_OFF, .period quiet,
   .set_mode IOX_MODE_ON, .period quiet]

/-! ## Predicates used in the proofs -/

/-- Number of steps of a run that take the mode from OFF to ON. -/
def offOnTransitions (lib : MixerLib) (orb : Uorb) (bus : Bus) : Dev → List Step → Nat
  | _, [] => 0
  | d, s :: rest =>
    (if d.mode = IOX_MODE_OFF ∧ (step lib orb bus d s).mode = IOX_MODE_ON then 1 else 0)
      + offOnTransitions lib orb bus (step lib orb bus d s) rest

/-- The state `d2` agrees with `d` on what the one-time initialisation is
about: the number of its runs, the flag `_mode_on_initialized` and the mode. -/
def SameInit (d d2 : Dev) : Prop :=
  initCount d2 = initCount d ∧ d2.mode_on_initialized = d.mode_on_initialized ∧ d2.mode = d.mode

/-- Invariant of every run: the mode is one of the three enumerators, and the
initialisation has run once if the flag `_mode_on_initialized` is set and
never otherwise. -/
def InitInv (d : Dev) : Prop :=
  (d.mode = IOX_MODE_OFF ∨ d.mode = IOX_MODE_ON ∨ d.mode = IOX_MODE_TEST_OUT)
    ∧ initCount d = if d.mode_on_initialized then 1 else 0

/-! ## Views of the state and of the log -/

/-- The tick the loop maps the mixer output `v` to: the `new_value` of lines
550-551, `PCA9685_PWMCENTER + v * M_PI_F * PCA9685_SCALE` converted to
`uint16_t`. -/
def mappedTick (v : Flt) : Nat :=
  toUInt16 (fadd (ofInt PCA9685_PWMCENTER) (fmul (fmul v M_PI_F) PCA9685_SCALE))

/-- Whether an event is a write to the registers of channel `c`: a send whose
address byte is `LED0_ON_L + 4 * c`. -/
def Ev.isChannelWrite (c : Nat) : Ev → Bool
  | .send (a :: _) => a == LED0_ON_L + 4 * c
  | _ => false

/-- The writes to the registers of channel `c` in a log, in order. -/
def channelWrites (c : Nat) (log : List Ev) : List Ev := log.filter (Ev.isChannelWrite c)

/-- The five bytes that carry the pair `(on, off) = (0, t)` to channel `c`. -/
def channelMsg (c t : Nat) : Ev := Ev.send [LED0_ON_L + 4 * c, 0, 0, t % 256, t / 256]

/-- Whether an event is a `work_queue` call. -/
def Ev.isWorkQueue : Ev → Bool
  | .work_queue _ => true
  | _ => false

/-- Number of times the loop has been queued in a log. -/
def queued (log : List Ev) : Nat := (log.filter Ev.isWorkQueue).length

/-- What the bus and the output stage see of a state. -/
def busView (d : Dev) : List Ev × List Nat × List Flt × Nat × Nat :=
  (transfers d.log, d.rates, d.outputs, d.nxfer, d.comms_errors)

/-- The arming part of a state. -/
def armView (d : Dev) : Bool × actuator_armed_s := (d.servo_armed, d.armed)

/-- The scheduling and configuration part of a state. -/
def schedView (d : Dev) : Nat × Option MixerGroup × Nat × Bool × Nat :=
  (queued d.log, d.mixers, d.mode, d.running, d.i2cpwm_interval)

/-- The state `d2` differs from `d` only in what uORB and `poll` touch. -/
def Quiet (d d2 : Dev) : Prop :=
  busView d2 = busView d ∧ armView d2 = armView d ∧ schedView d2 = schedView d

/-- The state of an ON period when the mixing block is reached: after the
one-time initialisation (if due), the poll and the fetch of fresh control
vectors. -/
def pre_mix (orb : Uorb) (p : Period) (d : Dev) : Dev :=
  let d := if !d.mode_on_initialized then mode_on_init orb d else d
  let d := (do_poll p d).2
  (List.range NUM_ACTUATOR_CONTROL_GROUPS).foldl (get_controls_step p) d

/-- The values the mixer group `g` writes in an ON period that starts in
state `d`; their number is the count `mix` returns. -/
def mixedOutputs (lib : MixerLib) (orb : Uorb) (p : Period) (d : Dev) (g : MixerGroup) : List Flt :=
  (lib.mix g (control_callback (pre_mix orb p d).controls) NUM_ACTUATOR_OUTPUTS).take
    NUM_ACTUATOR_OUTPUTS

/-- The last step of `i2cpwm` (lines 595-603): stop, or queue the next run. -/
def requeue (d : Dev) : Dev :=
  if !d.should_run then
    { d with running := false }
  else
    { d with running := true, log := d.log ++ [Ev.work_queue d.i2cpwm_interval] }

/-- The three-way branch on the return value of `poll` (lines 517-564). -/
def poll_branch (lib : MixerLib) (bus : Bus) (p : Period) (ret : Int) (d : Dev) : Dev :=
  if ret < 0 then d
  else if ret = 0 then d
  else on_updated lib bus p d

/-- What the iteration of the write loop for output `i` sends when the output
vector is `o`: the channel write `(0, tick)` if the mapped tick lies in
`[PCA9685_PWMMIN, PCA9685_PWMMAX]`, nothing otherwise. -/
def outputWrite (o : List Flt) (i : Nat) : List Ev :=
  if PCA9685_PWMMIN ≤ mappedTick (o.getD i none) ∧ mappedTick (o.getD i none) ≤ PCA9685_PWMMAX then
    [channelMsg i (mappedTick (o.getD i none))]
  else []

/-- The first step of the mixing block (lines 539): the mixer has written
the values `mixed` to the front of `_outputs`. -/
def store_mixed (mixed : List Flt) (d : Dev) : Dev :=
  { d with
    outputs := mixed ++ d.outputs.drop mixed.length
    log := d.log ++ [Ev.mix NUM_ACTUATOR_OUTPUTS] }

/-- The loop of lines 542-546 run over the indices below `m`: every output at
an index from `n` on is set to `NAN_VALUE`. -/
def nan_fill (n m : Nat) (d : Dev) : Dev :=
  (List.range m).foldl
    (fun d i => if i ≥ n then { d with outputs := d.outputs.set i NAN_VALUE } else d) d

/-! ## Further concrete states -/

/-- A mixer library that accepts every buffer and whose mixers need control
group 1 only. -/
def libGroup1 : MixerLib :=
  ⟨fun _ => 0, fun g buf _ => (0, g ++ [Mixer.loaded buf]), fun _ m => m ||| 0b0010,
    fun _ _ _ => [], fun _ _ => -1⟩

/-- A driver on which a mixer that needs control group 1 only was loaded
before the first mode-set request, then switched ON and run for one period in
which `poll` reports the only polled descriptor ready. -/
def group1_ready : Dev :=
  run libGroup1 orbFixed busOK (ioctl libGroup1 true (new 1) (Cmd.MIXERIOCLOADBUF [])).2
    [.set_mode IOX_MODE_ON, .period ready]

/-- A driver that was started (mode ON, one loop period) before its mixer,
which needs control groups 0 and 1, was loaded. -/
def late_mixer : Dev :=
  (ioctl (libOuts []) true
    (run (libOuts []) orbFixed busOK (new 1) [.set_mode IOX_MODE_ON, .period quiet])
    (Cmd.MIXERIOCLOADBUF [])).2

/-- Whether an event is an `orb_copy` of a control group. -/
def Ev.isOrbCopy : Ev → Bool
  | .orb_copy _ _ => true
  | _ => false

/-- Whether an event subscribes or unsubscribes a control group. -/
def Ev.isSubscription : Ev → Bool
  | .orb_subscribe _ => true
  | .close _ => true
  | _ => false

/-! ## Status accessors -/

/-- The function `PCA9685::getActuation` (lines 280-285): the contents of
`*act` afterwards. The `memcpy` reads `_controls[offset]`; `none` is a read
outside the array `_controls`, whose result C++ leaves undefined. -/
def getActuation (d : Dev) (act : actuator_controls_s) (offset : Nat) :
    Option actuator_controls_s :=
  if offset < NUM_ACTUATOR_CONTROLS then
    d.controls[offset]?
  else
    some act

/-- A driver in mode TEST_OUT whose loop is queued. -/
def testing : Dev := { new 1 with mode := IOX_MODE_TEST_OUT, running := true }

/-! ## Arming state as an input -/

/-- The state `d` with its arming flags and its stored safety flag replaced:
the states that differ from `d` only in the arming state are the states
`setArm a s d`. -/
def setArm (a : actuator_armed_s) (s : Bool) (d : Dev) : Dev :=
  { d with armed := a, servo_armed := s }

/-- The loop input `p` with another arming sample: the same poll result, the
same control vectors. -/
def setSample (u : Bool) (a : actuator_armed_s) (p : Period) : Period :=
  { p with armed_updated := u, armed := a }

/-- The part of an ON period before the arming update (lines 496-564): the
one-time initialisation if due, the poll and the branch on its result. -/
def on_outputs (lib : MixerLib) (orb : Uorb) (bus : Bus) (p : Period) (d : Dev) : Dev :=
  poll_branch lib bus p
    (do_poll p (if !d.mode_on_initialized then mode_on_init orb d else d)).1
    (do_poll p (if !d.mode_on_initialized then mode_on_init orb d else d)).2

/-- Whether a rational is one of the binary32 values: a significand of at most
24 bits times a power of two not below `2^-149`. -/
def isF32 (r : ℚ) : Prop := ∃ m k : Int, |m| < 2 ^ 24 ∧ -149 ≤ k ∧ r = m * (2 : ℚ) ^ k

/-! ## Theorems -/

/-! ### Single-precision arithmetic -/

theorem roundEven_le (q : ℚ) (k : Int) (h : q ≤ k) : roundEven q ≤ k := by
  have hf : ⌊q⌋ ≤ k := by
    have h2 : ((⌊q⌋ : Int) : ℚ) ≤ (k : ℚ) := (Int.floor_le q).trans h
    exact_mod_cast h2
  have hfl := Int.floor_le q
  unfold roundEven
  split_ifs with h1 h2 h3
  · exact hf
  · -- fractional part > 1/2, so q is not an integer and floor < k
    have : (⌊q⌋ : ℚ) < k := by linarith
    have : ⌊q⌋ < k := by exact_mod_cast this
    omega
  · exact hf
  · have : (⌊q⌋ : ℚ) < k := by linarith
    have : ⌊q⌋ < k := by exact_mod_cast this
    omega

theorem le_roundEven (q : ℚ) (k : Int) (h : (k : ℚ) ≤ q) : k ≤ roundEven q := by
  have hf : k ≤ ⌊q⌋ := Int.le_floor.mpr h
  unfold roundEven
  split_ifs <;> omega

theorem roundEven_near (q : ℚ) (k : Int) (h : |q - k| < 1 / 2) : roundEven q = k := by
  rw [abs_lt] at h
  have hfl := Int.floor_le q
  have hlt := Int.lt_floor_add_one q
  unfold roundEven
  by_cases hk : (k : ℚ) ≤ q
  · have hf : ⌊q⌋ = k := by
      rw [Int.floor_eq_iff]; constructor <;> linarith
    rw [hf]
    rw [if_pos (by linarith)]
  · push_neg at hk
    have hf : ⌊q⌋ = k - 1 := by
      rw [Int.floor_eq_iff]; push_cast; constructor <;> linarith
    rw [hf]
    push_cast
    rw [if_neg (by linarith), if_pos (by linarith)]
    ring

theorem roundEven_intCast (k : Int) : roundEven (k : ℚ) = k :=
  roundEven_near _ k (by simp)

theorem abs_roundEven_sub (q : ℚ) : |(roundEven q : ℚ) - q| ≤ 1 / 2 := by
  have hfl := Int.floor_le q
  have hlt := Int.lt_floor_add_one q
  rw [abs_le]
  unfold roundEven
  split_ifs with h1 h2 h3 <;> push_cast <;> constructor <;> linarith


theorem f32exp_eq (x : ℚ) (e : Int) (h1 : (2 : ℚ) ^ e ≤ |x|) (h2 : |x| < (2 : ℚ) ^ (e + 1))
    (he : -126 ≤ e) : f32exp x = e := by
  have hpos : 0 < |x| := lt_of_lt_of_le (by positivity) h1
  have hb : 1 < 2 := by norm_num
  have a1 : e ≤ Int.log 2 |x| := by
    rw [← Int.zpow_le_iff_le_log hb hpos]; exact_mod_cast h1
  have a2 : Int.log 2 |x| < e + 1 := by
    rw [← Int.lt_zpow_iff_log_lt hb hpos]; exact_mod_cast h2
  unfold f32exp
  omega

theorem f32ulp_pos (x : ℚ) : 0 < f32ulp x := by
  unfold f32ulp; positivity

theorem f32round_eq (x r : ℚ) (e k : Int) (h1 : (2 : ℚ) ^ e ≤ |x|)
    (h2 : |x| < (2 : ℚ) ^ (e + 1)) (he : -126 ≤ e)
    (hr : r = k * (2 : ℚ) ^ (e - 23)) (hn : |x / (2 : ℚ) ^ (e - 23) - k| < 1 / 2) :
    f32round x = r := by
  unfold f32round f32ulp
  rw [f32exp_eq x e h1 h2 he, roundEven_near _ k hn, hr]

theorem f32_eq (x r : ℚ) (e k : Int) (h1 : (2 : ℚ) ^ e ≤ |x|)
    (h2 : |x| < (2 : ℚ) ^ (e + 1)) (he : -126 ≤ e) (he2 : e ≤ 126)
    (hr : r = k * (2 : ℚ) ^ (e - 23)) (hn : |x / (2 : ℚ) ^ (e - 23) - k| < 1 / 2) :
    f32 x = some r := by
  have hx := f32round_eq x r e k h1 h2 he hr hn
  unfold f32
  rw [hx, if_pos]
  -- |r| ≤ |x| + ulp/2 < 2^(e+1) + 2^(e-24) < 2^128
  have hu : (0 : ℚ) < 2 ^ (e - 23) := by positivity
  have h3 : |r - x| < 2 ^ (e - 23) := by
    have : r - x = -((x / 2 ^ (e - 23) - k) * 2 ^ (e - 23)) := by
      rw [hr]; field_simp; ring
    rw [this, abs_neg, abs_mul, abs_of_pos hu]
    calc |x / 2 ^ (e - 23) - ↑k| * 2 ^ (e - 23) < 1 / 2 * 2 ^ (e - 23) :=
          mul_lt_mul_of_pos_right hn hu
      _ ≤ 2 ^ (e - 23) := by linarith
  have h4 : |r| < 2 ^ (e + 1) + 2 ^ (e - 23) := by
    have : |r| ≤ |r - x| + |x| := by
      have := abs_add (r - x) x
      simpa using this
    linarith
  have h5 : (2 : ℚ) ^ (e + 1) ≤ 2 ^ (127 : Int) :=
    zpow_le_zpow_right₀ (by norm_num) (by omega)
  have h6 : (2 : ℚ) ^ (e - 23) ≤ 2 ^ (127 : Int) :=
    zpow_le_zpow_right₀ (by norm_num) (by omega)
  have h7 : (2 : ℚ) ^ (127 : Int) + 2 ^ (127 : Int) = 2 ^ 128 := by norm_num
  linarith

theorem f32exp_ge (x : ℚ) : -126 ≤ f32exp x := by
  unfold f32exp; omega

theorem f32round_zero : f32round 0 = 0 := by
  unfold f32round
  rw [zero_div, show roundEven 0 = 0 from roundEven_intCast 0]
  simp

theorem zpow_f32exp_le (x : ℚ) (hx : x ≠ 0) (h : -126 < f32exp x) :
    (2 : ℚ) ^ f32exp x ≤ |x| := by
  have he : f32exp x = Int.log 2 |x| := by
    unfold f32exp at h ⊢; omega
  rw [he]
  have hpos : 0 < |x| := abs_pos.mpr hx
  exact_mod_cast Int.zpow_log_le_self (by norm_num) hpos

/-- A binary32 value of magnitude at least `2^e`, or any one when `e = -126`,
is a multiple of `2^(e - 23)`. -/
theorem isF32_multiple (r : ℚ) (hr : isF32 r) (e : Int)
    (h : e = -126 ∨ (2 : ℚ) ^ e ≤ |r|) : ∃ j : Int, r = j * (2 : ℚ) ^ (e - 23) := by
  obtain ⟨m, k, hm, hk, rfl⟩ := hr
  have hkk : e - 23 ≤ k := by
    rcases h with h | h
    · omega
    · by_contra hc
      push_neg at hc
      have h1 : k + 24 ≤ e := by omega
      have h2 : |(m : ℚ) * (2 : ℚ) ^ k| < 2 ^ e := by
        rw [abs_mul, abs_of_pos (by positivity : (0 : ℚ) < 2 ^ k)]
        have hm2 : |(m : ℚ)| < 2 ^ (24 : Int) := by
          have h3 : ((|m| : Int) : ℚ) < ((2 ^ 24 : Int) : ℚ) := by exact_mod_cast hm
          rw [Int.cast_abs] at h3
          norm_num at h3 ⊢
          exact h3
        calc |(m : ℚ)| * 2 ^ k < 2 ^ (24 : Int) * 2 ^ k :=
              mul_lt_mul_of_pos_right hm2 (by positivity)
          _ = 2 ^ (k + 24) := by rw [← zpow_add₀ (by norm_num)]; ring_nf
          _ ≤ 2 ^ e := zpow_le_zpow_right₀ (by norm_num) h1
      linarith
  obtain ⟨n, hn⟩ := Int.eq_ofNat_of_zero_le (show 0 ≤ k - (e - 23) by omega)
  refine ⟨m * 2 ^ n, ?_⟩
  have : k = (n : Int) + (e - 23) := by omega
  rw [this, zpow_add₀ (by norm_num)]
  push_cast
  rw [zpow_natCast]
  ring

theorem f32round_le (x r : ℚ) (hr : isF32 r) (h : x ≤ r) : f32round x ≤ r := by
  by_cases hx0 : x = 0
  · rw [hx0, f32round_zero]; rw [hx0] at h; exact h
  have hu := f32ulp_pos x
  have hge := f32exp_ge x
  by_cases hm : f32exp x = -126 ∨ (2 : ℚ) ^ f32exp x ≤ |r|
  · obtain ⟨j, hj⟩ := isF32_multiple r hr (f32exp x) hm
    have hxu : x / f32ulp x ≤ j := by
      rw [div_le_iff₀ hu]; unfold f32ulp; rw [← hj]; exact h
    have := roundEven_le _ j hxu
    unfold f32round
    rw [hj]
    have h2 : ((roundEven (x / f32ulp x) : Int) : ℚ) ≤ (j : ℚ) := by exact_mod_cast this
    exact mul_le_mul_of_nonneg_right h2 hu.le
  · push_neg at hm
    have he : -126 < f32exp x := lt_of_le_of_ne hge (Ne.symm hm.1)
    have hx := zpow_f32exp_le x hx0 he
    have hrx : |r| < |x| := lt_of_lt_of_le hm.2 hx
    have hxneg : x < 0 := by
      by_contra hc
      push_neg at hc
      have : |x| = x := abs_of_nonneg hc
      have : r ≤ |r| := le_abs_self r
      linarith
    have hx2 : x ≤ -(2 : ℚ) ^ f32exp x := by
      rw [abs_of_neg hxneg] at hx; linarith
    have hxu : x / f32ulp x ≤ ((-(2 ^ 23) : Int) : ℚ) := by
      rw [div_le_iff₀ hu]; unfold f32ulp
      have : (((-(2 ^ 23) : Int) : ℚ)) * (2 : ℚ) ^ (f32exp x - 23) = -(2 : ℚ) ^ f32exp x := by
        rw [zpow_sub₀ (by norm_num)]; push_cast; field_simp; ring
      rw [this]; exact hx2
    have := roundEven_le _ _ hxu
    have h2 : ((roundEven (x / f32ulp x) : Int) : ℚ) ≤ ((-(2 ^ 23) : Int) : ℚ) := by
      exact_mod_cast this
    have h3 : f32round x ≤ -(2 : ℚ) ^ f32exp x := by
      unfold f32round
      have h4 := mul_le_mul_of_nonneg_right h2 hu.le
      have : (((-(2 ^ 23) : Int) : ℚ)) * f32ulp x = -(2 : ℚ) ^ f32exp x := by
        unfold f32ulp
        rw [zpow_sub₀ (by norm_num)]; push_cast; field_simp; ring
      rw [this] at h4; exact h4
    have h5 : -|r| ≤ r := neg_abs_le r
    linarith

theorem le_f32round (x r : ℚ) (hr : isF32 r) (h : r ≤ x) : r ≤ f32round x := by
  by_cases hx0 : x = 0
  · rw [hx0, f32round_zero]; rw [hx0] at h; exact h
  have hu := f32ulp_pos x
  have hge := f32exp_ge x
  by_cases hm : f32exp x = -126 ∨ (2 : ℚ) ^ f32exp x ≤ |r|
  · obtain ⟨j, hj⟩ := isF32_multiple r hr (f32exp x) hm
    have hxu : (j : ℚ) ≤ x / f32ulp x := by
      rw [le_div_iff₀ hu]; unfold f32ulp; rw [← hj]; exact h
    have := le_roundEven _ j hxu
    unfold f32round
    rw [hj]
    have h2 : (j : ℚ) ≤ ((roundEven (x / f32ulp x) : Int) : ℚ) := by exact_mod_cast this
    exact mul_le_mul_of_nonneg_right h2 hu.le
  · push_neg at hm
    have he : -126 < f32exp x := lt_of_le_of_ne hge (Ne.symm hm.1)
    have hx := zpow_f32exp_le x hx0 he
    have hrx : |r| < |x| := lt_of_lt_of_le hm.2 hx
    have hxpos : 0 < x := by
      by_contra hc
      push_neg at hc
      have : |x| = -x := abs_of_nonpos hc
      have : -|r| ≤ r := neg_abs_le r
      linarith
    have hx2 : (2 : ℚ) ^ f32exp x ≤ x := by
      rw [abs_of_pos hxpos] at hx; exact hx
    have hxu : (((2 ^ 23 : Int)) : ℚ) ≤ x / f32ulp x := by
      rw [le_div_iff₀ hu]; unfold f32ulp
      have : ((((2 ^ 23) : Int) : ℚ)) * (2 : ℚ) ^ (f32exp x - 23) = (2 : ℚ) ^ f32exp x := by
        rw [zpow_sub₀ (by norm_num)]; push_cast; field_simp; ring
      rw [this]; exact hx2
    have := le_roundEven _ _ hxu
    have h2 : ((((2 ^ 23) : Int)) : ℚ) ≤ ((roundEven (x / f32ulp x) : Int) : ℚ) := by
      exact_mod_cast this
    have h3 : (2 : ℚ) ^ f32exp x ≤ f32round x := by
      unfold f32round
      have h4 := mul_le_mul_of_nonneg_right h2 hu.le
      have : ((((2 ^ 23) : Int) : ℚ)) * f32ulp x = (2 : ℚ) ^ f32exp x := by
        unfold f32ulp
        rw [zpow_sub₀ (by norm_num)]; push_cast; field_simp; ring
      rw [this] at h4; exact h4
    have h5 : r ≤ |r| := le_abs_self r
    linarith

theorem isF32_intCast (n : Int) (h : |n| < 2 ^ 24) : isF32 (n : ℚ) :=
  ⟨n, 0, h, by norm_num, by simp⟩

/-- Rounding keeps a value between two binary32 values that enclose it. -/
theorem f32_between (x lo hi : ℚ) (hlo : isF32 lo) (hhi : isF32 hi) (h1 : lo ≤ x) (h2 : x ≤ hi)
    (b1 : -(2 : ℚ) ^ 128 < lo) (b2 : hi < (2 : ℚ) ^ 128) :
    f32 x = some (f32round x) ∧ lo ≤ f32round x ∧ f32round x ≤ hi := by
  have a1 := le_f32round x lo hlo h1
  have a2 := f32round_le x hi hhi h2
  refine ⟨?_, a1, a2⟩
  unfold f32
  rw [if_pos]
  rw [abs_lt]
  constructor <;> linarith

theorem roundEven_tie (q : ℚ) (k : Int) (hk : k % 2 = 0)
    (h : q = k - 1 / 2 ∨ q = k + 1 / 2) : roundEven q = k := by
  rcases h with h | h
  · have hf : ⌊q⌋ = k - 1 := by
      rw [Int.floor_eq_iff, h]; push_cast; constructor <;> linarith
    unfold roundEven
    rw [hf, h]
    push_cast
    rw [if_neg (by linarith), if_neg (by linarith), if_neg (by omega)]
    ring
  · have hf : ⌊q⌋ = k := by
      rw [Int.floor_eq_iff, h]; constructor <;> linarith
    unfold roundEven
    rw [hf, h]
    rw [if_neg (by linarith), if_neg (by linarith), if_pos hk]

theorem f32_eq_tie (x r : ℚ) (e k : Int) (h1 : (2 : ℚ) ^ e ≤ |x|)
    (h2 : |x| < (2 : ℚ) ^ (e + 1)) (he : -126 ≤ e) (hk : k % 2 = 0)
    (hr : r = k * (2 : ℚ) ^ (e - 23)) (hb : |r| < 2 ^ 128)
    (hn : x / (2 : ℚ) ^ (e - 23) = k - 1 / 2 ∨ x / (2 : ℚ) ^ (e - 23) = k + 1 / 2) :
    f32 x = some r := by
  have hx : f32round x = r := by
    unfold f32round f32ulp
    rw [f32exp_eq x e h1 h2 he, roundEven_tie _ k hk hn, hr]
  unfold f32
  rw [hx, if_pos hb]

/-- Rounding moves a value by at most half the spacing of its binade. -/
theorem f32round_half_ulp (y : ℚ) : |f32round y - y| ≤ f32ulp y / 2 := by
  have hu := f32ulp_pos y
  have h := abs_roundEven_sub (y / f32ulp y)
  have e : f32round y - y = ((roundEven (y / f32ulp y) : ℚ) - y / f32ulp y) * f32ulp y := by
    unfold f32round; field_simp
  rw [e, abs_mul, abs_of_pos hu]
  calc |(roundEven (y / f32ulp y) : ℚ) - y / f32ulp y| * f32ulp y ≤ 1 / 2 * f32ulp y :=
        mul_le_mul_of_nonneg_right h hu.le
    _ = f32ulp y / 2 := by ring

/-- The rounding error of a binary32 operation: relative error at most `2^-24`
for a normal result, absolute error at most `2^-150` for a subnormal one. -/
theorem f32round_error (y : ℚ) :
    |f32round y - y| ≤ |y| / 16777216 + 1 / 2 ^ 150 := by
  have h := f32round_half_ulp y
  have hge := f32exp_ge y
  have hy := abs_nonneg y
  by_cases hy0 : y = 0
  · rw [hy0, f32round_zero]; norm_num
  by_cases he : f32exp y = -126
  · have hu : f32ulp y / 2 = 1 / 2 ^ 150 := by
      unfold f32ulp; rw [he]; norm_num
    rw [hu] at h
    have h2 : 0 ≤ |y| / 16777216 := div_nonneg hy (by norm_num)
    linarith
  · have hlt : -126 < f32exp y := lt_of_le_of_ne hge (Ne.symm he)
    have hz := zpow_f32exp_le y hy0 hlt
    have hu : f32ulp y / 2 = (2 : ℚ) ^ f32exp y / 16777216 := by
      unfold f32ulp
      rw [zpow_sub₀ (by norm_num)]
      norm_num
      ring
    rw [hu] at h
    have h2 : (2 : ℚ) ^ f32exp y / 16777216 ≤ |y| / 16777216 :=
      div_le_div_of_nonneg_right hz (by norm_num)
    have h3 : (0 : ℚ) ≤ 1 / 2 ^ 150 := by positivity
    linarith

theorem f32_of_lt (x : ℚ) (h : |f32round x| < 2 ^ 128) : f32 x = some (f32round x) := by
  unfold f32; rw [if_pos h]

theorem ofInt_clock : ofInt 25000000 = some 25000000 := by
  unfold ofInt
  apply f32_eq _ _ 24 12500000 <;> norm_num [abs_lt, le_abs]

theorem ofInt_4096 : ofInt 4096 = some 4096 := by
  unfold ofInt
  apply f32_eq _ _ 12 8388608 <;> norm_num [abs_lt, le_abs]

theorem ofInt_one : ofInt 1 = some 1 := by
  unfold ofInt
  apply f32_eq _ _ 0 8388608 <;> norm_num [abs_lt, le_abs]

theorem f32_clock_quotient : f32 (25000000 / 4096) = some (390625 / 64) := by
  apply f32_eq _ _ 12 12500000 <;> norm_num [abs_lt, le_abs]

/-- One rounding step: no overflow and an absolute error bound, for a value of
magnitude at most `B`. -/
theorem f32_step (y B : ℚ) (hB : |y| ≤ B) (hBig : B ≤ 330000000000000000000000000000000000000) :
    f32 y = some (f32round y)
      ∧ |f32round y - y| ≤ B / 16777216 + 1 / 100000000000000000000 := by
  have h := f32round_error y
  have hη : (1 : ℚ) / 2 ^ 150 ≤ 1 / 100000000000000000000 := by norm_num
  have h0 := abs_nonneg y
  have h1 : |y| / 16777216 ≤ B / 16777216 := div_le_div_of_nonneg_right hB (by norm_num)
  have h2 : |f32round y - y| ≤ B / 16777216 + 1 / 100000000000000000000 := by linarith
  refine ⟨f32_of_lt y ?_, h2⟩
  have h3 : |f32round y| ≤ |f32round y - y| + |y| := by
    have := abs_add (f32round y - y) y
    simpa using this
  have h4 : (340282366920938463463374607431768211456 : ℚ) = 2 ^ 128 := by norm_num
  rw [← h4]
  linarith

/-! ### The float constants -/

theorem f32_nine_tenths : f32 (9 / 10) = some (7549747 / 8388608) := by
  apply f32_eq _ _ (-1) 15099494 <;> norm_num [abs_lt, le_abs]

theorem f32_half : f32 (1 / 2) = some (1 / 2) := by
  apply f32_eq _ _ (-1) 8388608 <;> norm_num [abs_lt, le_abs]

theorem M_PI_F_eq : M_PI_F = some (13176795 / 4194304) := by
  unfold M_PI_F
  apply f32_eq _ _ 1 13176795 <;> norm_num [abs_lt, le_abs]

theorem M_DEG_TO_RAD_F_eq : M_DEG_TO_RAD_F = some (9370165 / 536870912) := by
  unfold M_DEG_TO_RAD_F
  apply f32_eq _ _ (-6) 9370165 <;> norm_num [abs_lt, le_abs]

theorem PCA9685_MAXSERVODEG_eq : PCA9685_MAXSERVODEG = some 180 := by
  unfold PCA9685_MAXSERVODEG
  apply f32_eq _ _ 7 11796480 <;> norm_num [abs_lt, le_abs]

theorem ofInt_center : ofInt PCA9685_PWMCENTER = some 375 := by
  unfold ofInt PCA9685_PWMCENTER PCA9685_PWMMAX PCA9685_PWMMIN
  apply f32_eq _ _ 8 12288000 <;> norm_num [abs_lt, le_abs]

theorem PCA9685_SCALE_eq : PCA9685_SCALE = some (2346835 / 32768) := by
  have h1 : ofInt ((PCA9685_PWMMAX : Int) - (PCA9685_PWMCENTER : Int)) = some 225 := by
    unfold ofInt PCA9685_PWMCENTER PCA9685_PWMMAX PCA9685_PWMMIN
    apply f32_eq _ _ 7 14745600 <;> norm_num [abs_lt, le_abs]
  have h2 : f32 (9370165 / 536870912 * 180) = some (13176795 / 4194304) := by
    apply f32_eq _ _ 1 13176795 <;> norm_num [abs_lt, le_abs]
  have h3 : f32 (225 / (13176795 / 4194304)) = some (2346835 / 32768) := by
    apply f32_eq _ _ 6 9387340 <;> norm_num [abs_lt, le_abs]
  unfold PCA9685_SCALE
  rw [h1, M_DEG_TO_RAD_F_eq, PCA9685_MAXSERVODEG_eq]
  simp only [fmul, h2, fdiv]
  rw [if_neg (by norm_num), h3]

/-! ### Bytes and bits -/

set_option maxRecDepth 100000 in
/-- Facts about the MODE1 values the calibration writes, for every byte read
back: the final value has the auto-increment bit and the restart bit set, and
both written values fit in a byte. -/
theorem mode1_bits : ∀ x < 256,
    (x ||| 0xa1) &&& 0x20 = 0x20 ∧ (x ||| 0xa1) &&& 0x80 = 0x80
      ∧ (x ||| 0xa1) % 256 = (x ||| 0xa1)
      ∧ ((x &&& 0x7F) ||| 0x10) % 256 = ((x &&& 0x7F) ||| 0x10) := by
  decide

/-- The prescale byte is a byte. -/
theorem prescale_lt (freq : ℚ) : prescale freq < 256 := by
  unfold prescale toUInt8
  cases fadd (prescaleval freq) (f32 (1 / 2)) with
  | none => decide
  | some q =>
    have h1 := Int.emod_lt_of_pos (truncQ q) (show (0 : Int) < 256 by norm_num)
    have h2 := Int.emod_nonneg (truncQ q) (show (256 : Int) ≠ 0 by norm_num)
    simp only
    omega

/-! ### Pulse encoder -/

/-- C1: for every channel and every value `v` with `0 ≤ v ≤ 4095`, the call
`setPin(channel, v, false)` is the channel write `setPWM(channel, on, off)`
with `(on, off) = (0, 4096)` when `v = 0`, `(4096, 0)` when `v = 4095` and
`(0, v)` otherwise. -/
theorem setPin_not_inverted (bus : Bus) (d : Dev) (num v : Nat) (hv : v ≤ 4095) :
    setPin bus d num v false =
      if v = 0 then setPWM bus d num 0 4096
      else if v = 4095 then setPWM bus d num 4096 0
      else setPWM bus d num 0 v := by
  unfold setPin
  have h : ¬ v > 4095 := by omega
  simp only [h, if_false, Bool.false_eq_true]
  split_ifs <;> first | rfl | omega

/-- Instance of C1 at channel 3 and value 2000. -/
theorem setPin_not_inverted_witness :
    (2000 : Nat) ≤ 4095
      ∧ setPin busOK (new 1) 3 2000 false = setPWM busOK (new 1) 3 0 2000 :=
  ⟨by decide, by simpa using setPin_not_inverted busOK (new 1) 3 2000 (by decide)⟩

/-- C2: for every channel and every value `v` (in particular every 16-bit
value), the call `setPin(channel, v, true)` is the channel write with
`(on, off) = (4096, 0)` when `v = 0`, `(0, 4096)` when `v` clamped to 4095 is
4095, and `(0, 4095 - v)` otherwise. -/
theorem setPin_inverted (bus : Bus) (d : Dev) (num v : Nat) :
    setPin bus d num v true =
      if v = 0 then setPWM bus d num 4096 0
      else if min v 4095 = 4095 then setPWM bus d num 0 4096
      else setPWM bus d num 0 (4095 - v) := by
  unfold setPin
  by_cases h : v > 4095
  · have h0 : v ≠ 0 := by omega
    have h1 : min v 4095 = 4095 := by omega
    rw [if_neg h0, if_pos h1]
    simp [h]
  · by_cases h0 : v = 0
    · simp [h0]
    · by_cases h1 : v = 4095
      · simp [h1]
      · have h2 : ¬ min v 4095 = 4095 := by omega
        rw [if_neg h0, if_neg h2]
        simp [h, h0, h1]

/-- C3: for every channel, polarity and value `v > 4095`, the call
`setPin(channel, v, invert)` returns the same code and leaves the same state
(hence issues the same channel write) as `setPin(channel, 4095, invert)`. -/
theorem setPin_clamps (bus : Bus) (d : Dev) (num v : Nat) (invert : Bool) (hv : v > 4095) :
    setPin bus d num v invert = setPin bus d num 4095 invert := by
  unfold setPin
  simp [hv]

/-- Instance of C3: value 5000, not inverted, behaves as value 4095. -/
theorem setPin_clamps_witness :
    (5000 : Nat) > 4095
      ∧ setPin busOK (new 1) 7 5000 false = setPin busOK (new 1) 7 4095 false :=
  ⟨by decide, setPin_clamps busOK (new 1) 7 5000 false (by decide)⟩

/-! ### Bus transport -/

/-- C4: for every channel `c ≤ 15` and all `on, off ≤ 4096`, the call
`setPWM(c, on, off)` appends exactly one transaction to the log, the five
bytes `[0x06 + 4c, on mod 256, on div 256, off mod 256, off div 256]`, and
returns the code of that transfer; the two tick values are recovered from the
bytes as `byte1 + 256 * byte2` and `byte3 + 256 * byte4`, and all five values
are below 256, so no byte (the address included) wraps. -/
theorem setPWM_five_byte_message (bus : Bus) (d : Dev) (c on_ off_ : Nat)
    (hc : c ≤ 15) (hon : on_ ≤ 4096) (hoff : off_ ≤ 4096) :
    (setPWM bus d c on_ off_).2.log
        = d.log ++ [Ev.send [0x06 + 4 * c, on_ % 256, on_ / 256, off_ % 256, off_ / 256]]
      ∧ (setPWM bus d c on_ off_).1 = bus.ret d.nxfer
      ∧ on_ % 256 + 256 * (on_ / 256) = on_
      ∧ off_ % 256 + 256 * (off_ / 256) = off_
      ∧ 0x06 + 4 * c < 256 ∧ on_ % 256 < 256 ∧ on_ / 256 < 256
      ∧ off_ % 256 < 256 ∧ off_ / 256 < 256 := by
  have e1 : (LED0_ON_L + 4 * c) % 256 = 6 + 4 * c := by
    unfold LED0_ON_L; omega
  have e2 : (on_ >>> 8) % 256 = on_ / 256 := by
    rw [Nat.shiftRight_eq_div_pow]; omega
  have e3 : (off_ >>> 8) % 256 = off_ / 256 := by
    rw [Nat.shiftRight_eq_div_pow]; omega
  refine ⟨?_, ?_, by omega, by omega, by omega, by omega, by omega, by omega, by omega⟩
  · unfold setPWM transfer_send
    simp only [e1, e2, e3]
    split_ifs <;> rfl
  · unfold setPWM transfer_send
    simp only
    split_ifs <;> rfl

/-- Instance of C4 at channel 15 with the fully-on pair `(4096, 0)`: the
message is `[0x42, 0x00, 0x10, 0x00, 0x00]`. -/
theorem setPWM_five_byte_message_witness :
    (15 : Nat) ≤ 15 ∧ (4096 : Nat) ≤ 4096 ∧ (0 : Nat) ≤ 4096
      ∧ (setPWM busOK (new 1) 15 4096 0).2.log = [Ev.send [0x42, 0x00, 0x10, 0x00, 0x00]] :=
  ⟨by decide, by decide, by decide,
    (setPWM_five_byte_message busOK (new 1) 15 4096 0 (by decide) (by decide) (by decide)).1⟩

/-! ### Frequency calibration -/

theorem prescaleval_unfold (hz : ℚ) :
    prescaleval hz =
      fsub (match fmul (some hz) (f32 (9 / 10)) with
        | none => some 0
        | some _ => fdiv (fdiv (ofInt 25000000) (ofInt 4096)) (fmul (some hz) (f32 (9 / 10))))
        (ofInt 1) := rfl

theorem clock_quotient : fdiv (ofInt 25000000) (ofInt 4096) = some (390625 / 64) := by
  rw [ofInt_clock, ofInt_4096]
  unfold fdiv
  simp only
  rw [if_neg (by norm_num), f32_clock_quotient]

/-- The value converted to the prescale byte, for roundings that stay finite. -/
theorem prescale_steps (hz f q r p : ℚ) (h1 : f32 (hz * (7549747 / 8388608)) = some f)
    (hf : f ≠ 0) (h2 : f32 (390625 / 64 / f) = some q) (h3 : f32 (q - 1) = some r)
    (h4 : f32 (r + 1 / 2) = some p) :
    fadd (prescaleval hz) (f32 (1 / 2)) = some p := by
  have e1 : fmul (some hz) (f32 (9 / 10)) = some f := by
    rw [f32_nine_tenths]; exact h1
  have e2 : fdiv (some (390625 / 64)) (some f) = some q := by
    unfold fdiv
    simp only
    rw [if_neg hf, h2]
  have e3 : fsub (some q) (some 1) = some r := h3
  have e4 : fadd (some r) (some (1 / 2)) = some p := h4
  rw [prescaleval_unfold, e1, clock_quotient, ofInt_one, f32_half]
  simp only
  rw [e2, e3, e4]

theorem correctedFreq_60 : correctedFreq PCA9685_PWMFREQ = some 54 := by
  unfold correctedFreq PCA9685_PWMFREQ
  rw [f32_nine_tenths]
  show f32 (60 * (7549747 / 8388608)) = some 54
  apply f32_eq _ _ 5 14155776 <;> norm_num [abs_lt, le_abs]

theorem prescale_60 : prescale PCA9685_PWMFREQ = 112 := by
  have h : fadd (prescaleval PCA9685_PWMFREQ) (f32 (1 / 2)) = some (14749279 / 131072) := by
    unfold PCA9685_PWMFREQ
    apply prescale_steps 60 54 (14814815 / 131072) (14683743 / 131072)
    · apply f32_eq _ _ 5 14155776 <;> norm_num [abs_lt, le_abs]
    · norm_num
    · apply f32_eq _ _ 6 14814815 <;> norm_num [abs_lt, le_abs]
    · apply f32_eq _ _ 6 14683743 <;> norm_num [abs_lt, le_abs]
    · apply f32_eq _ _ 6 14749279 <;> norm_num [abs_lt, le_abs]
  unfold prescale
  rw [h]
  unfold toUInt8 truncQ
  norm_num
  rfl

theorem prescale_near_tie : prescale (3881611 / 65536) = 114 := by
  have h : fadd (prescaleval (3881611 / 65536)) (f32 (1 / 2)) = some 114 := by
    apply prescale_steps _ (13973799 / 262144) (229 / 2) (227 / 2)
    · apply f32_eq _ _ 5 13973799 <;> norm_num [abs_lt, le_abs]
    · norm_num
    · apply f32_eq _ _ 6 15007744 <;> norm_num [abs_lt, le_abs]
    · apply f32_eq _ _ 6 14876672 <;> norm_num [abs_lt, le_abs]
    · apply f32_eq _ _ 6 14942208 <;> norm_num [abs_lt, le_abs]
  unfold prescale
  rw [h]
  unfold toUInt8 truncQ
  norm_num
  rfl

/-- The float the driver converts to the prescale byte lies within `1/2000` of
the exact value `25000000 / 4096 / (0.9 hz) - 1 + 1/2`, as long as the exact
quotient stays below 257. -/
theorem prescale_error (hz : ℚ) (hpos : 0 < hz) (hfin : hz < 2 ^ 128)
    (hx : (25000000 : ℚ) / 4096 / (9 / 10 * hz) < 257) :
    ∃ p : ℚ, fadd (prescaleval hz) (f32 (1 / 2)) = some p
      ∧ |p - ((25000000 : ℚ) / 4096 / (9 / 10 * hz) - 1 / 2)| ≤ 1 / 2000 := by
  have hxA : (25000000 : ℚ) / 4096 / (9 / 10 * hz) * (9 / 10 * hz) = 390625 / 64 := by
    field_simp; ring
  have hxpos : (0 : ℚ) < (25000000 : ℚ) / 4096 / (9 / 10 * hz) := by positivity
  generalize (25000000 : ℚ) / 4096 / (9 / 10 * hz) = x at hx hxA hxpos ⊢
  have hA : (23 : ℚ) < 9 / 10 * hz := by
    have := mul_lt_mul_of_pos_right hx (show (0 : ℚ) < 9 / 10 * hz by positivity)
    linarith
  have hfin2 : hz < 340282366920938463463374607431768211456 :=
    lt_of_lt_of_le hfin (by norm_num)
  -- the corrected frequency
  have hapos : (0 : ℚ) < hz * (7549747 / 8388608) := by positivity
  obtain ⟨e1, ea⟩ := f32_step (hz * (7549747 / 8388608)) (hz * (7549747 / 8388608))
    (by rw [abs_of_pos hapos]) (by linarith)
  rw [abs_le] at ea
  generalize f32round (hz * (7549747 / 8388608)) = f at e1 ea
  have hf_lo : 9 / 10 * hz * (1 - 1 / 10000000) ≤ f := by linarith
  have hf_hi : f ≤ 9 / 10 * hz * (1 + 1 / 10000000) := by linarith
  have hfpos : 0 < f := by linarith
  -- the quotient
  have k1 := mul_le_mul_of_nonneg_left hf_lo hxpos.le
  have k2 := mul_le_mul_of_nonneg_left hf_hi hxpos.le
  have hb_hi : 390625 / 64 / f ≤ x * (1 + 2 / 10000000) := by
    rw [div_le_iff₀ hfpos]; linarith
  have hb_lo : x * (1 - 1 / 10000000) ≤ 390625 / 64 / f := by
    rw [le_div_iff₀ hfpos]; linarith
  have hbpos : (0 : ℚ) < 390625 / 64 / f := div_pos (by norm_num) hfpos
  obtain ⟨e2, eb⟩ := f32_step (390625 / 64 / f) 258
    (by rw [abs_of_pos hbpos]; linarith) (by norm_num)
  rw [abs_le] at eb
  generalize f32round (390625 / 64 / f) = q at e2 eb
  have hq_hi : q ≤ x + 1 / 10000 := by linarith
  have hq_lo : x - 1 / 10000 ≤ q := by linarith
  -- minus one
  obtain ⟨e3, er⟩ := f32_step (q - 1) 258
    (by rw [abs_le]; constructor <;> linarith) (by norm_num)
  rw [abs_le] at er
  generalize f32round (q - 1) = r at e3 er
  -- plus one half
  obtain ⟨e4, ep⟩ := f32_step (r + 1 / 2) 259
    (by rw [abs_le]; constructor <;> linarith) (by norm_num)
  rw [abs_le] at ep
  generalize f32round (r + 1 / 2) = p at e4 ep
  refine ⟨p, prescale_steps hz f q r p e1 (ne_of_gt hfpos) e2 e3 e4, ?_⟩
  rw [abs_le]; constructor <;> linarith

/-- C5: `setPWMFreq(60)` computes the corrected frequency 54 (the float
product `60.0f * 0.9f` is exactly 54) and the prescale byte 112, which is
`round(25000000 / 4096 / 54) - 1` in exact arithmetic, and
(when the three transfers before it succeed) its fourth bus transaction is the
write of 112 to the PRESCALE register. -/
theorem setPWMFreq_60_prescale_112 (bus : Bus) (d : Dev)
    (hok : ∀ k < 3, bus.ret (d.nxfer + k) = OK) :
    correctedFreq PCA9685_PWMFREQ = some 54
    ∧ prescale PCA9685_PWMFREQ = 112
    ∧ round ((25000000 : ℚ) / 4096 / 54) - 1 = 112
    ∧ ((setPWMFreq bus d PCA9685_PWMFREQ).2.log.drop d.log.length).take 4 =
        [Ev.send [PCA9685_MODE1], Ev.recv 1,
         Ev.send [PCA9685_MODE1, ((bus.rx (d.nxfer + 1) % 256) &&& 0x7F) ||| 0x10],
         Ev.send [PCA9685_PRESCALE, 112]] := by
  have hp : prescale PCA9685_PWMFREQ = 112 := prescale_60
  have hb := mode1_bits (bus.rx (d.nxfer + 1) % 256) (Nat.mod_lt _ (by norm_num))
  have e0 := hok 0 (by omega)
  have e1 := hok 1 (by omega)
  have e2 := hok 2 (by omega)
  simp only [Nat.add_zero] at e0
  refine ⟨correctedFreq_60, hp, ?_, ?_⟩
  · rw [round_eq]; norm_num
  · unfold setPWMFreq read8 write8 transfer_send transfer_recv
    rw [hp]
    by_cases e3 : bus.ret (d.nxfer + 3) = OK <;>
    by_cases e4 : bus.ret (d.nxfer + 4) = OK <;>
    by_cases e5 : bus.ret (d.nxfer + 5) = OK <;>
    simp [e0, e1, e2, e3, e4, e5, Nat.add_assoc, hb.2.2.2, PCA9685_MODE1, PCA9685_PRESCALE]

/-- Instance of C5 on a fresh driver and a bus without failures: the fourth
transaction is `[0xFE, 112]`. -/
theorem setPWMFreq_60_prescale_112_witness :
    (∀ k < 3, busOK.ret ((new 1).nxfer + k) = OK)
      ∧ prescale PCA9685_PWMFREQ = 112
      ∧ ((setPWMFreq busOK (new 1) PCA9685_PWMFREQ).2.log.drop (new 1).log.length).take 4 =
          [Ev.send [0x00], Ev.recv 1, Ev.send [0x00, 0x10], Ev.send [0xFE, 112]] :=
  ⟨fun _ _ => rfl,
    (setPWMFreq_60_prescale_112 busOK (new 1) (fun _ _ => rfl)).2.1,
    (setPWMFreq_60_prescale_112 busOK (new 1) (fun _ _ => rfl)).2.2.2⟩

/-- C6, as stated, fails at the float `59.2286835f`: the exact quotient
`25000000 / 4096 / (0.9 hz)` is `114.499996...`, so the stated value is
`round(...) - 1 = 113`, while the driver, rounding every operation to a float,
obtains the quotient `114.5`, then `113.5`, then `114.0`, and programs 114. -/
theorem prescale_rounds_across_half :
    (0 : ℚ) < 3881611 / 65536 ∧ isF32 (3881611 / 65536)
      ∧ prescale (3881611 / 65536) = 114
      ∧ round ((25000000 : ℚ) / 4096 / (9 / 10 * (3881611 / 65536))) - 1 = 113
      ∧ specPrescale (3881611 / 65536) = 113
      ∧ (prescale (3881611 / 65536) : Int) ≠ specPrescale (3881611 / 65536) := by
  have h1 : round ((25000000 : ℚ) / 4096 / (9 / 10 * (3881611 / 65536))) - 1 = 113 := by
    rw [round_eq]; norm_num
  have h2 : specPrescale (3881611 / 65536) = 113 := by
    unfold specPrescale; rw [h1]; decide
  refine ⟨by norm_num, ⟨3881611, -16, by norm_num, by norm_num, by norm_num⟩,
    prescale_near_tie, h1, h2, ?_⟩
  rw [prescale_near_tie, h2]; decide

/-- C6 amended: for every positive frequency `hz` (below `2^128`, as every
finite float is) whose value `round(25000000 / 4096 / (0.9 hz)) - 1` is at
most 255 and whose exact quotient `25000000 / 4096 / (0.9 hz)` is no closer
than `1/1000` to a half-integer, where `round` changes its value, the prescale
byte the driver computes in float arithmetic equals that value clamped to
`[0, 255]` (so a value below 0 gives 0). -/
theorem prescale_away_from_half (hz : ℚ) (hpos : 0 < hz) (hfin : hz < 2 ^ 128)
    (hle : round ((25000000 : ℚ) / 4096 / (9 / 10 * hz)) - 1 ≤ 255)
    (hfar : |(25000000 : ℚ) / 4096 / (9 / 10 * hz)
        - round ((25000000 : ℚ) / 4096 / (9 / 10 * hz))| ≤ 499 / 1000) :
    (prescale hz : Int) = specPrescale hz := by
  have hxpos : (0 : ℚ) < (25000000 : ℚ) / 4096 / (9 / 10 * hz) := by positivity
  have hx257 : (25000000 : ℚ) / 4096 / (9 / 10 * hz) < 257 := by
    rw [abs_le] at hfar
    have : ((round ((25000000 : ℚ) / 4096 / (9 / 10 * hz)) : Int) : ℚ) ≤ 256 := by
      have h : round ((25000000 : ℚ) / 4096 / (9 / 10 * hz)) ≤ 256 := by omega
      exact_mod_cast h
    linarith
  obtain ⟨p, hp, hpe⟩ := prescale_error hz hpos hfin hx257
  unfold prescale specPrescale
  rw [hp]
  unfold toUInt8
  simp only
  generalize (25000000 : ℚ) / 4096 / (9 / 10 * hz) = x at hle hfar hxpos hpe
  generalize hn : round x = n at hle hfar
  rw [abs_le] at hfar hpe
  have hn0 : 0 ≤ n := by
    rw [← hn, round_eq]
    exact Int.floor_nonneg.mpr (by linarith)
  by_cases h1 : 1 ≤ n
  · have hp0 : (0 : ℚ) ≤ p := by
      have : (1 : ℚ) ≤ n := by exact_mod_cast h1
      linarith
    have hfl : ⌊p⌋ = n - 1 := by
      rw [Int.floor_eq_iff]; push_cast; constructor <;> linarith
    unfold truncQ
    rw [if_pos hp0, hfl]
    omega
  · have hn1 : n = 0 := by omega
    subst hn1
    have hlt : ¬ (0 : ℚ) ≤ p := by
      push_neg
      have : ((0 : Int) : ℚ) = 0 := by norm_num
      linarith
    have hc : ⌈p⌉ = 0 := by
      rw [Int.ceil_eq_iff]; push_cast; constructor <;> linarith
    unfold truncQ
    rw [if_neg hlt, hc]
    decide

/-- Instance of the amended C6 at 60 Hz, where both sides are 112. -/
theorem prescale_away_from_half_witness :
    (0 : ℚ) < 60 ∧ (60 : ℚ) < 2 ^ 128
      ∧ round ((25000000 : ℚ) / 4096 / (9 / 10 * 60)) - 1 ≤ 255
      ∧ (prescale 60 : Int) = specPrescale 60 ∧ specPrescale 60 = 112 := by
  have hr : round ((25000000 : ℚ) / 4096 / (9 / 10 * 60)) = 113 := by
    rw [round_eq, Int.floor_eq_iff]; norm_num
  refine ⟨by norm_num, by norm_num, by rw [hr]; decide,
    prescale_away_from_half 60 (by norm_num) (by norm_num) (by rw [hr]; decide) (by rw [hr, abs_le]; norm_num), ?_⟩
  unfold specPrescale; rw [hr]; decide

/-- C7: when all six bus transactions of `setPWMFreq` succeed it returns `OK`
and has made exactly these calls, in this order: address write and read of
MODE1 (yielding `old`), write of the sleep value to MODE1, write of the
prescale byte to PRESCALE, write of `old` to MODE1, the 5 ms wait, and a write
to MODE1 of a value with the auto-increment bit `0x20` and the restart bit
`0x80` set. Only the registers MODE1 and PRESCALE are written. -/
theorem setPWMFreq_sequence (bus : Bus) (d : Dev) (freq : ℚ)
    (hok : ∀ k < 6, bus.ret (d.nxfer + k) = OK) :
    (setPWMFreq bus d freq).1 = OK
    ∧ (setPWMFreq bus d freq).2.log = d.log ++
        [Ev.send [PCA9685_MODE1], Ev.recv 1,
         Ev.send [PCA9685_MODE1, ((bus.rx (d.nxfer + 1) % 256) &&& 0x7F) ||| 0x10],
         Ev.send [PCA9685_PRESCALE, prescale freq],
         Ev.send [PCA9685_MODE1, bus.rx (d.nxfer + 1) % 256],
         Ev.usleep 5000,
         Ev.send [PCA9685_MODE1, (bus.rx (d.nxfer + 1) % 256) ||| 0xa1]]
    ∧ ((bus.rx (d.nxfer + 1) % 256) ||| 0xa1) &&& 0x20 = 0x20
    ∧ ((bus.rx (d.nxfer + 1) % 256) ||| 0xa1) &&& 0x80 = 0x80 := by
  have h0 := hok 0 (by omega)
  have h1 := hok 1 (by omega)
  have h2 := hok 2 (by omega)
  have h3 := hok 3 (by omega)
  have h4 := hok 4 (by omega)
  have h5 := hok 5 (by omega)
  have hb := mode1_bits (bus.rx (d.nxfer + 1) % 256) (Nat.mod_lt _ (by norm_num))
  have hp := prescale_lt freq
  simp only [Nat.add_zero] at h0
  refine ⟨?_, ?_, hb.1, hb.2.1⟩
  · unfold setPWMFreq read8 write8 transfer_send transfer_recv
    simp [h0, h1, h2, h3, h4, h5, Nat.add_assoc]
  · unfold setPWMFreq read8 write8 transfer_send transfer_recv
    simp [h0, h1, h2, h3, h4, h5, Nat.add_assoc, hb.2.2.1, hb.2.2.2, Nat.mod_eq_of_lt hp,
      PCA9685_MODE1, PCA9685_PRESCALE]

/-- Instance of C7 on a fresh driver at 60 Hz, MODE1 reading back 0. -/
theorem setPWMFreq_sequence_witness :
    (∀ k < 6, busOK.ret ((new 1).nxfer + k) = OK)
      ∧ (setPWMFreq busOK (new 1) 60).1 = OK
      ∧ (setPWMFreq busOK (new 1) 60).2.log =
          [Ev.send [0x00], Ev.recv 1, Ev.send [0x00, 0x10], Ev.send [0xFE, prescale 60],
           Ev.send [0x00, 0x00], Ev.usleep 5000, Ev.send [0x00, 0xa1]] :=
  ⟨fun _ _ => rfl,
    (setPWMFreq_sequence busOK (new 1) 60 (fun _ _ => rfl)).1,
    (setPWMFreq_sequence busOK (new 1) 60 (fun _ _ => rfl)).2.1⟩

/-- C8: for every position `k` among the six bus transactions of
`setPWMFreq`, if the `k`-th is the first to fail then `setPWMFreq` returns
the code of that transfer and its bus transactions are exactly the first
`k + 1` of the calibration sequence: none is made after the failing one. -/
theorem setPWMFreq_first_failure (bus : Bus) (d : Dev) (freq : ℚ) (k : Nat) (hk : k < 6)
    (hok : ∀ j < k, bus.ret (d.nxfer + j) = OK) (hfail : bus.ret (d.nxfer + k) ≠ OK) :
    (setPWMFreq bus d freq).1 = bus.ret (d.nxfer + k)
    ∧ transfers (setPWMFreq bus d freq).2.log = transfers d.log ++
        (calibration (bus.rx (d.nxfer + 1) % 256) (prescale freq)).take (k + 1)
    ∧ (setPWMFreq bus d freq).2.nxfer = d.nxfer + (k + 1) := by
  have hb := mode1_bits (bus.rx (d.nxfer + 1) % 256) (Nat.mod_lt _ (by norm_num))
  have hp := prescale_lt freq
  have e0 := hok 0
  have e1 := hok 1
  have e2 := hok 2
  have e3 := hok 3
  have e4 := hok 4
  simp only [Nat.add_zero] at e0
  unfold setPWMFreq read8 write8 transfer_send transfer_recv calibration transfers
  interval_cases k
  all_goals try simp only [Nat.add_zero] at hfail
  all_goals simp_all [Nat.add_assoc, Nat.mod_eq_of_lt hp, PCA9685_MODE1, PCA9685_PRESCALE,
    List.filter_append, Ev.isTransfer, List.filter_cons]

/-- Instance of C8: the PRESCALE write (position 3) fails after the sleep
write succeeded; the code `-5` is returned and the transactions stop there,
without any wake-up write. -/
theorem setPWMFreq_first_failure_witness :
    (3 : Nat) < 6
      ∧ (∀ j < 3, (busFailAt 3).ret ((new 1).nxfer + j) = OK)
      ∧ (busFailAt 3).ret ((new 1).nxfer + 3) ≠ OK
      ∧ (setPWMFreq (busFailAt 3) (new 1) 60).1 = -5
      ∧ transfers (setPWMFreq (busFailAt 3) (new 1) 60).2.log =
          [Ev.send [0x00], Ev.recv 1, Ev.send [0x00, 0x11], Ev.send [0xFE, prescale 60]] :=
  ⟨by decide, by decide, by decide,
    (setPWMFreq_first_failure (busFailAt 3) (new 1) 60 3 (by decide) (by decide) (by decide)).1,
    (setPWMFreq_first_failure (busFailAt 3) (new 1) 60 3 (by decide) (by decide) (by decide)).2.1⟩

/-! ### Control-group subscriptions -/

/-- For every driver state, `subscribe` leaves both masks as they were: no
iteration of its loop assigns `_groups_subscribed` or `_groups_required`. -/
theorem subscribe_keeps_masks (orb : Uorb) (d : Dev) :
    (subscribe orb d).groups_subscribed = d.groups_subscribed
      ∧ (subscribe orb d).groups_required = d.groups_required := by
  have hstep : ∀ (s u : Nat) (l : List Nat) (d : Dev),
      (l.foldl (subscribe_step orb s u) d).groups_subscribed = d.groups_subscribed
        ∧ (l.foldl (subscribe_step orb s u) d).groups_required = d.groups_required := by
    intro s u l
    induction l with
    | nil => intro d; exact ⟨rfl, rfl⟩
    | cons i l ih =>
      intro d
      have h1 : (subscribe_step orb s u d i).groups_subscribed = d.groups_subscribed
          ∧ (subscribe_step orb s u d i).groups_required = d.groups_required := by
        unfold subscribe_step
        simp only
        split_ifs <;> exact ⟨rfl, rfl⟩
      rw [List.foldl_cons]
      exact ⟨(ih _).1.trans h1.1, (ih _).2.trans h1.2⟩
  unfold subscribe
  exact hstep _ _ _ _

/-- C9 evaluated on the driver. On a fresh driver whose mixer requires groups
0 and 1 (required `0b0011`, subscribed `0b0000`) `subscribe` subscribes
groups 0 and 1 and unsubscribes nothing, as claimed, but leaves the subscribed
mask at `0b0000` instead of `0b0011`; run a second time with the required mask
unchanged it subscribes groups 0 and 1 again. On the two inputs the
specification names, the resulting subscribed mask is the old one as well:
`0b0001` instead of `0b0011`, and `0b0011` instead of `0b0001`. -/
theorem subscribe_leaves_mask_stale :
    (subscribe orbFixed needs01).log = [Ev.orb_subscribe 0, Ev.orb_subscribe 1]
    ∧ (subscribe orbFixed needs01).groups_required = 0b0011
    ∧ (subscribe orbFixed needs01).groups_subscribed = 0b0000
    ∧ (subscribe orbFixed (subscribe orbFixed needs01)).log
        = [Ev.orb_subscribe 0, Ev.orb_subscribe 1, Ev.orb_subscribe 0, Ev.orb_subscribe 1]
    ∧ (subscribe orbFixed needs01_has0).log = [Ev.orb_subscribe 1]
    ∧ (subscribe orbFixed needs01_has0).groups_subscribed = 0b0001
    ∧ (subscribe orbFixed needs0_has01).log = [Ev.close 11]
    ∧ (subscribe orbFixed needs0_has01).groups_subscribed = 0b0011 := by
  decide

/-! ### The one-time initialisation of mode ON -/

theorem SameInit.refl (d : Dev) : SameInit d d := ⟨rfl, rfl, rfl⟩

theorem SameInit.trans {a b c : Dev} (h1 : SameInit a b) (h2 : SameInit b c) : SameInit a c :=
  ⟨h2.1.trans h1.1, h2.2.1.trans h1.2.1, h2.2.2.trans h1.2.2⟩

theorem SameInit.foldl {α : Type} (f : Dev → α → Dev) (h : ∀ d a, SameInit d (f d a))
    (l : List α) (d : Dev) : SameInit d (l.foldl f d) := by
  induction l generalizing d with
  | nil => exact SameInit.refl d
  | cons a l ih => exact (h d a).trans (ih (f d a))

theorem setPWM_sameInit (bus : Bus) (d : Dev) (num a b : Nat) :
    SameInit d (setPWM bus d num a b).2 := by
  unfold setPWM transfer_send SameInit initCount
  simp only
  split_ifs <;> simp

theorem setPin_sameInit (bus : Bus) (d : Dev) (num v : Nat) (inv : Bool) :
    SameInit d (setPin bus d num v inv).2 := by
  unfold setPin
  simp only
  split_ifs <;> exact setPWM_sameInit _ _ _ _ _

theorem subscribe_step_sameInit (orb : Uorb) (s u : Nat) (d : Dev) (i : Nat) :
    SameInit d (subscribe_step orb s u d i) := by
  unfold subscribe_step SameInit initCount
  simp only
  split_ifs <;> simp

theorem subscribe_sameInit (orb : Uorb) (d : Dev) : SameInit d (subscribe orb d) := by
  unfold subscribe
  exact SameInit.trans ⟨rfl, rfl, rfl⟩ (SameInit.foldl _ (subscribe_step_sameInit orb _ _) _ _)

theorem do_poll_sameInit (p : Period) (d : Dev) : SameInit d (do_poll p d).2 := by
  unfold do_poll SameInit initCount
  simp

theorem get_controls_step_sameInit (p : Period) (d : Dev) (i : Nat) :
    SameInit d (get_controls_step p d i) := by
  unfold get_controls_step SameInit initCount
  simp only
  split_ifs <;> simp

theorem write_output_sameInit (bus : Bus) (d : Dev) (i : Nat) :
    SameInit d (write_output bus d i) := by
  unfold write_output
  simp only
  split_ifs
  · exact SameInit.trans (setPin_sameInit bus d _ _ false) ⟨rfl, rfl, rfl⟩
  · exact SameInit.refl d

theorem do_mix_sameInit (lib : MixerLib) (bus : Bus) (g : MixerGroup) (d : Dev) :
    SameInit d (do_mix lib bus g d) := by
  unfold do_mix
  refine SameInit.trans ?_ (SameInit.foldl _ (write_output_sameInit bus) _ _)
  refine SameInit.trans ?_ (SameInit.foldl _ ?_ _ _)
  · unfold SameInit initCount; simp
  · intro d i
    split_ifs
    · exact ⟨rfl, rfl, rfl⟩
    · exact SameInit.refl d

theorem update_armed_sameInit (p : Period) (d : Dev) : SameInit d (update_armed p d) := by
  unfold update_armed SameInit initCount
  simp only
  split_ifs <;> simp

theorem mode_on_init_count (orb : Uorb) (d : Dev) :
    initCount (mode_on_init orb d) = initCount d + 1
      ∧ (mode_on_init orb d).mode_on_initialized = true
      ∧ (mode_on_init orb d).mode = d.mode := by
  have key : ∀ d2 : Dev, SameInit d2
      ((List.range NUM_ACTUATOR_CONTROL_GROUPS).foldl set_interval_step (subscribe orb d2)) :=
    fun d2 => (subscribe_sameInit orb d2).trans
      (SameInit.foldl _ (by intro d i; unfold set_interval_step SameInit initCount; simp) _ _)
  unfold mode_on_init
  refine ⟨?_, rfl, (key _).2.2⟩
  have e := (key { d with
    armed_sub := orb.subscribe_armed (d.log ++ [Ev.pwm_limit_init]).length
    log := d.log ++ [Ev.pwm_limit_init] ++ [Ev.orb_subscribe_armed] }).1
  unfold initCount at e ⊢
  simp only at e ⊢
  rw [e]
  simp

theorem on_body_sameInit (lib : MixerLib) (bus : Bus) (p : Period) (d : Dev) :
    SameInit d (on_body lib bus p d) := by
  have hu : ∀ d : Dev, SameInit d (on_updated lib bus p d) := by
    intro d
    unfold on_updated
    have h1 := SameInit.foldl _ (get_controls_step_sameInit p) (List.range NUM_ACTUATOR_CONTROL_GROUPS) d
    simp only
    split
    · exact h1.trans (do_mix_sameInit lib bus _ _)
    · exact h1
  unfold on_body
  simp only
  have h1 := do_poll_sameInit p d
  refine SameInit.trans (b := update_armed p _) ?_ ⟨rfl, rfl, rfl⟩
  refine SameInit.trans ?_ (update_armed_sameInit p _)
  split_ifs
  · exact h1
  · exact h1
  · exact h1.trans (hu _)

theorem i2cpwm_count (lib : MixerLib) (orb : Uorb) (bus : Bus) (p : Period) (d : Dev) :
    initCount (i2cpwm lib orb bus p d) =
        initCount d + (if d.mode ≠ IOX_MODE_TEST_OUT ∧ d.mode ≠ IOX_MODE_OFF
          ∧ d.mode_on_initialized = false then 1 else 0)
      ∧ (i2cpwm lib orb bus p d).mode_on_initialized =
        (d.mode_on_initialized || decide (d.mode ≠ IOX_MODE_TEST_OUT ∧ d.mode ≠ IOX_MODE_OFF))
      ∧ (i2cpwm lib orb bus p d).mode = d.mode := by
  have tail : ∀ d1 : Dev, SameInit d1
      (if !d1.should_run then { d1 with running := false }
       else { d1 with running := true, log := d1.log ++ [Ev.work_queue d1.i2cpwm_interval] }) := by
    intro d1
    split_ifs
    · exact ⟨rfl, rfl, rfl⟩
    · unfold SameInit initCount; simp
  unfold i2cpwm
  simp only
  by_cases ht : d.mode = IOX_MODE_TEST_OUT
  · rw [if_pos ht]
    have h := (SameInit.trans (SameInit.trans (setPin_sameInit bus d 0 PCA9685_PWMCENTER false)
      (c := { (setPin bus d 0 PCA9685_PWMCENTER false).2 with should_run := true }) ⟨rfl, rfl, rfl⟩) (tail _))
    refine ⟨?_, ?_, h.2.2⟩
    · rw [h.1]; simp [ht]
    · rw [h.2.1]; simp [ht]
  · rw [if_neg ht]
    by_cases ho : d.mode = IOX_MODE_OFF
    · rw [if_pos ho]
      have h := (SameInit.trans (a := d) (b := { d with should_run := false }) ⟨rfl, rfl, rfl⟩ (tail _))
      refine ⟨?_, ?_, h.2.2⟩
      · rw [h.1]; simp [ho]
      · rw [h.2.1]; simp [ho]
    · rw [if_neg ho]
      by_cases hi : d.mode_on_initialized = true
      · have h := (on_body_sameInit lib bus p d).trans (tail _)
        simp only [hi, Bool.not_true, Bool.false_eq_true, if_false]
        refine ⟨?_, ?_, h.2.2⟩
        · rw [h.1]; simp
        · rw [h.2.1]; simp [hi]
      · have hi2 : d.mode_on_initialized = false := by simpa using hi
        have h := (on_body_sameInit lib bus p (mode_on_init orb d)).trans (tail _)
        have hm := mode_on_init_count orb d
        simp only [hi2, Bool.not_false, if_true]
        refine ⟨?_, ?_, h.2.2.trans hm.2.2⟩
        · rw [h.1, hm.1]; simp [ht, ho]
        · rw [h.2.1, hm.2.1]; simp [ht, ho]

theorem set_mode_count (lib : MixerLib) (d : Dev) (arg : Nat) :
    initCount (ioctl lib true d (Cmd.IOX_SET_MODE arg)).2 = initCount d
      ∧ (ioctl lib true d (Cmd.IOX_SET_MODE arg)).2.mode_on_initialized = d.mode_on_initialized
      ∧ ((d.mode = IOX_MODE_OFF ∨ d.mode = IOX_MODE_ON ∨ d.mode = IOX_MODE_TEST_OUT) →
          ((ioctl lib true d (Cmd.IOX_SET_MODE arg)).2.mode = IOX_MODE_OFF
            ∨ (ioctl lib true d (Cmd.IOX_SET_MODE arg)).2.mode = IOX_MODE_ON
            ∨ (ioctl lib true d (Cmd.IOX_SET_MODE arg)).2.mode = IOX_MODE_TEST_OUT)) := by
  refine ⟨?_, ?_, ?_⟩
  · unfold ioctl initCount
    simp only
    split_ifs <;> simp
  · unfold ioctl
    simp only
    split_ifs <;> rfl
  · intro hv
    unfold ioctl
    simp only
    split_ifs with h1 h2 h3 h4 <;> simp only <;> first | exact hv | tauto

theorem step_set_mode (lib : MixerLib) (orb : Uorb) (bus : Bus) (d : Dev) (arg : Nat) :
    step lib orb bus d (Step.set_mode arg) = (ioctl lib true d (Cmd.IOX_SET_MODE arg)).2 := rfl

theorem step_period (lib : MixerLib) (orb : Uorb) (bus : Bus) (d : Dev) (p : Period) :
    step lib orb bus d (Step.period p) = if d.running then i2cpwm lib orb bus p d else d := rfl

theorem step_inv (lib : MixerLib) (orb : Uorb) (bus : Bus) (d : Dev) (s : Step)
    (h : InitInv d) : InitInv (step lib orb bus d s) := by
  cases s with
  | set_mode arg =>
    have hs := set_mode_count lib d arg
    rw [step_set_mode]
    exact ⟨hs.2.2 h.1, by rw [hs.1, hs.2.1]; exact h.2⟩
  | period p =>
    rw [step_period]
    by_cases hr : d.running = true
    · rw [if_pos hr]
      have hc := i2cpwm_count lib orb bus p d
      refine ⟨by rw [hc.2.2]; exact h.1, ?_⟩
      rw [hc.1, hc.2.1, h.2]
      cases hf : d.mode_on_initialized <;> by_cases h1 : d.mode = IOX_MODE_TEST_OUT <;>
        by_cases h2 : d.mode = IOX_MODE_OFF <;> simp [h1, h2]
    · rw [if_neg hr]; exact h

theorem run_inv (lib : MixerLib) (orb : Uorb) (bus : Bus) (steps : List Step) (d : Dev)
    (h : InitInv d) : InitInv (run lib orb bus d steps) := by
  unfold run
  induction steps generalizing d with
  | nil => exact h
  | cons s rest ih => exact ih _ (step_inv lib orb bus d s h)

theorem new_inv (interval : Nat) : InitInv (new interval) :=
  ⟨Or.inl rfl, rfl⟩

theorem run_snoc (lib : MixerLib) (orb : Uorb) (bus : Bus) (d : Dev) (steps : List Step) (s : Step) :
    run lib orb bus d (steps ++ [s]) = step lib orb bus (run lib orb bus d steps) s := by
  unfold run
  rw [List.foldl_append]
  rfl

/-- C10, as stated, fails on a run that switches the mode ON, OFF and ON
again with a loop period after each request: the mode goes from OFF to ON
twice, the first time the initialisation runs (once), the second time it does
not run, so that it has run once in total and not twice. -/
theorem init_not_once_per_transition :
    offOnTransitions libNone orbFixed busOK (new 1) stepsOnOffOn = 2
      ∧ initCount (run libNone orbFixed busOK (new 1) (stepsOnOffOn.take 2)) = 1
      ∧ (run libNone orbFixed busOK (new 1) (stepsOnOffOn.take 4)).mode = IOX_MODE_OFF
      ∧ (run libNone orbFixed busOK (new 1) (stepsOnOffOn.take 5)).mode = IOX_MODE_ON
      ∧ initCount (run libNone orbFixed busOK (new 1) stepsOnOffOn) = 1 := by
  decide

/-- C10 amended: for every sequence of mode-set requests and loop periods on
one driver instance, the one-time initialisation has run at most once; a
mode-set request never runs it; and after a loop period executed while the
driver is running in mode ON it has run exactly once, while any other loop
period leaves the number of its runs unchanged. -/
theorem init_runs_at_most_once (lib : MixerLib) (orb : Uorb) (bus : Bus)
    (interval : Nat) (steps : List Step) :
    initCount (run lib orb bus (new interval) steps) ≤ 1
    ∧ (∀ arg, initCount (run lib orb bus (new interval) (steps ++ [Step.set_mode arg]))
        = initCount (run lib orb bus (new interval) steps))
    ∧ (∀ p, initCount (run lib orb bus (new interval) (steps ++ [Step.period p]))
        = if (run lib orb bus (new interval) steps).running = true
            ∧ (run lib orb bus (new interval) steps).mode = IOX_MODE_ON then 1
          else initCount (run lib orb bus (new interval) steps)) := by
  have hinv := run_inv lib orb bus steps (new interval) (new_inv interval)
  simp only [run_snoc, step_set_mode, step_period]
  generalize run lib orb bus (new interval) steps = d at hinv ⊢
  refine ⟨?_, ?_, ?_⟩
  · rw [hinv.2]; split_ifs <;> omega
  · intro arg
    exact (set_mode_count lib _ arg).1
  · intro p
    by_cases hr : d.running = true
    · rw [if_pos hr]
      have hc := i2cpwm_count lib orb bus p d
      rw [hc.1, hinv.2]
      rcases hinv.1 with h | h | h <;> cases hf : d.mode_on_initialized <;>
        simp [h, hr, IOX_MODE_OFF, IOX_MODE_ON, IOX_MODE_TEST_OUT]
    · rw [if_neg hr]
      simp [hr]

/-! ### Rejected configuration requests -/

/-- C11, as stated, fails on a running driver with a mixer installed and
required-groups mask `0b0011`: an add-simple request with an invalid
descriptor is rejected with `-EINVAL` and resets the mask to 0, and a
load-from-buffer request with an invalid buffer is rejected with `-EINVAL`,
removes the installed mixer group and resets the mask to 0. -/
theorem ioctl_rejection_changes_state :
    (ioctl libNone true mixing (Cmd.MIXERIOCADDSIMPLE [])).1 = -EINVAL
    ∧ mixing.groups_required = 0b0011
    ∧ (ioctl libNone true mixing (Cmd.MIXERIOCADDSIMPLE [])).2.groups_required = 0
    ∧ (ioctl libNone true mixing (Cmd.MIXERIOCLOADBUF [])).1 = -EINVAL
    ∧ mixing.mixers = some [Mixer.loaded []]
    ∧ (ioctl libNone true mixing (Cmd.MIXERIOCLOADBUF [])).2.mixers = none
    ∧ (ioctl libNone true mixing (Cmd.MIXERIOCLOADBUF [])).2.groups_required = 0 := by
  decide

/-- C11 amended: a mode-set request that is rejected returns -1 and leaves the
driver state identical; an add-simple request with an invalid descriptor
returns `-EINVAL` and changes nothing but the required-groups mask, which
becomes 0; a load-from-buffer request that is rejected returns `-EINVAL` or
`-ENOMEM` and changes nothing but the installed mixer group, which is removed,
and the required-groups mask, which becomes 0. -/
theorem ioctl_rejected_state (lib : MixerLib) (heap_ok : Bool) (d : Dev) :
    (∀ arg, (ioctl lib heap_ok d (Cmd.IOX_SET_MODE arg)).1 ≠ OK →
        (ioctl lib heap_ok d (Cmd.IOX_SET_MODE arg)).1 = -1
        ∧ (ioctl lib heap_ok d (Cmd.IOX_SET_MODE arg)).2 = d)
    ∧ (∀ mixinfo, lib.check mixinfo ≠ 0 →
        (ioctl lib heap_ok d (Cmd.MIXERIOCADDSIMPLE mixinfo)).1 = -EINVAL
        ∧ (ioctl lib heap_ok d (Cmd.MIXERIOCADDSIMPLE mixinfo)).2 = { d with groups_required := 0 })
    ∧ (∀ buf, (ioctl lib heap_ok d (Cmd.MIXERIOCLOADBUF buf)).1 ≠ OK →
        ((ioctl lib heap_ok d (Cmd.MIXERIOCLOADBUF buf)).1 = -EINVAL
          ∨ (ioctl lib heap_ok d (Cmd.MIXERIOCLOADBUF buf)).1 = -ENOMEM)
        ∧ (ioctl lib heap_ok d (Cmd.MIXERIOCLOADBUF buf)).2
            = { d with mixers := none, groups_required := 0 }) := by
  refine ⟨?_, ?_, ?_⟩
  · intro arg h
    unfold ioctl at h ⊢
    simp only at h ⊢
    split_ifs at h ⊢ <;> first | exact ⟨rfl, rfl⟩ | exact absurd rfl h
  · intro mixinfo h
    unfold ioctl
    simp only [h, ne_eq, not_false_eq_true, if_true, and_self]
  · intro buf h
    cases hm : d.mixers with
    | none =>
      cases heap_ok with
      | false => simp [ioctl, hm] at h ⊢
      | true =>
        rcases hl : lib.load_from_buf [] buf (min buf.length 1024) with ⟨ret, g1⟩
        by_cases hr : ret = 0 <;> simp [ioctl, hm, hl, hr] at h ⊢
    | some g0 =>
      rcases hl : lib.load_from_buf g0 buf (min buf.length 1024) with ⟨ret, g1⟩
      by_cases hr : ret = 0 <;> simp [ioctl, hm, hl, hr] at h ⊢

/-- Instance of the amended C11 on a running driver with a mixer installed:
the mode value 7 is rejected and the state stays as it was, an invalid
descriptor leaves the mixer installed, an invalid buffer removes it. -/
theorem ioctl_rejected_state_witness :
    (ioctl libNone true mixing (Cmd.IOX_SET_MODE 7)).1 ≠ OK
    ∧ (ioctl libNone true mixing (Cmd.IOX_SET_MODE 7)).2 = mixing
    ∧ libNone.check [] ≠ 0
    ∧ (ioctl libNone true mixing (Cmd.MIXERIOCADDSIMPLE [])).2 = { mixing with groups_required := 0 }
    ∧ (ioctl libNone true mixing (Cmd.MIXERIOCLOADBUF [])).1 ≠ OK
    ∧ (ioctl libNone true mixing (Cmd.MIXERIOCLOADBUF [])).2
        = { mixing with mixers := none, groups_required := 0 } :=
  ⟨by decide, ((ioctl_rejected_state libNone true mixing).1 7 (by decide)).2,
    by decide, ((ioctl_rejected_state libNone true mixing).2.1 [] (by decide)).2,
    by decide, ((ioctl_rejected_state libNone true mixing).2.2 [] (by decide)).2⟩

/-! ### Error counting of the bus operations -/

/-- C17: `write8` and `setPWM` make exactly one transfer and return its code,
and `read8` makes its second transfer only if the first succeeded and returns
the code of the first failing transfer, or `OK` (with the byte read) when both
succeed; in each operation the communication-error counter grows by exactly
one when a transfer fails and is unchanged when all succeed, so it never
decreases. -/
theorem bus_op_error_counting (bus : Bus) (d : Dev) (addr value num on_ off_ : Nat) :
    ((write8 bus d addr value).1 = bus.ret d.nxfer
      ∧ (write8 bus d addr value).2.nxfer = d.nxfer + 1
      ∧ (write8 bus d addr value).2.comms_errors
          = d.comms_errors + (if bus.ret d.nxfer ≠ OK then 1 else 0))
    ∧ ((setPWM bus d num on_ off_).1 = bus.ret d.nxfer
      ∧ (setPWM bus d num on_ off_).2.nxfer = d.nxfer + 1
      ∧ (setPWM bus d num on_ off_).2.comms_errors
          = d.comms_errors + (if bus.ret d.nxfer ≠ OK then 1 else 0))
    ∧ (bus.ret d.nxfer ≠ OK →
        (read8 bus d addr).1 = bus.ret d.nxfer
        ∧ (read8 bus d addr).2.2.log = d.log ++ [Ev.send [addr]]
        ∧ (read8 bus d addr).2.2.nxfer = d.nxfer + 1
        ∧ (read8 bus d addr).2.2.comms_errors = d.comms_errors + 1)
    ∧ (bus.ret d.nxfer = OK → bus.ret (d.nxfer + 1) ≠ OK →
        (read8 bus d addr).1 = bus.ret (d.nxfer + 1)
        ∧ (read8 bus d addr).2.2.log = d.log ++ [Ev.send [addr], Ev.recv 1]
        ∧ (read8 bus d addr).2.2.nxfer = d.nxfer + 2
        ∧ (read8 bus d addr).2.2.comms_errors = d.comms_errors + 1)
    ∧ (bus.ret d.nxfer = OK → bus.ret (d.nxfer + 1) = OK →
        (read8 bus d addr).1 = OK
        ∧ (read8 bus d addr).2.1 = bus.rx (d.nxfer + 1) % 256
        ∧ (read8 bus d addr).2.2.log = d.log ++ [Ev.send [addr], Ev.recv 1]
        ∧ (read8 bus d addr).2.2.nxfer = d.nxfer + 2
        ∧ (read8 bus d addr).2.2.comms_errors = d.comms_errors)
    ∧ d.comms_errors ≤ (write8 bus d addr value).2.comms_errors
    ∧ d.comms_errors ≤ (setPWM bus d num on_ off_).2.comms_errors
    ∧ d.comms_errors ≤ (read8 bus d addr).2.2.comms_errors := by
  refine ⟨?_, ?_, ?_, ?_, ?_, ?_, ?_, ?_⟩
  · unfold write8 transfer_send
    by_cases h : bus.ret d.nxfer = OK <;> simp [h]
  · unfold setPWM transfer_send
    by_cases h : bus.ret d.nxfer = OK
    · simp [h]
    · have h2 : ¬ OK = bus.ret d.nxfer := fun e => h e.symm
      simp [h, h2]
  · intro h
    unfold read8 transfer_send transfer_recv
    simp [h]
  · intro h0 h1
    unfold read8 transfer_send transfer_recv
    simp [h0, h1]
  · intro h0 h1
    unfold read8 transfer_send transfer_recv
    simp [h0, h1]
  · unfold write8 transfer_send
    by_cases h : bus.ret d.nxfer = OK <;> simp [h]
  · unfold setPWM transfer_send
    by_cases h : bus.ret d.nxfer = OK
    · simp [h]
    · have h2 : ¬ OK = bus.ret d.nxfer := fun e => h e.symm
      simp [h, h2]
  · unfold read8 transfer_send transfer_recv
    by_cases h0 : bus.ret d.nxfer = OK <;> by_cases h1 : bus.ret (d.nxfer + 1) = OK <;>
      simp [h0, h1]

/-- Instance of C17: the read transfer of `read8` fails after the address
write succeeded; `read8` returns the code -5 and the counter goes from 0 to 1. -/
theorem bus_op_error_counting_witness :
    (busFailAt 1).ret (new 1).nxfer = OK ∧ (busFailAt 1).ret ((new 1).nxfer + 1) ≠ OK
    ∧ (read8 (busFailAt 1) (new 1) 0).1 = -5
    ∧ (read8 (busFailAt 1) (new 1) 0).2.2.comms_errors = 1 :=
  ⟨by decide, by decide,
    ((bus_op_error_counting (busFailAt 1) (new 1) 0 0 0 0 0).2.2.2.1 (by decide) (by decide)).1,
    ((bus_op_error_counting (busFailAt 1) (new 1) 0 0 0 0 0).2.2.2.1 (by decide) (by decide)).2.2.2⟩

/-! ### The sleep value -/

set_option maxRecDepth 100000 in
/-- Facts about the sleep value `(x & 0x7F) | 0x10`, for every byte `x`: the
sleep bit is set, the restart bit is clear, the other six bits are those of
`x`. -/
theorem sleep_bits : ∀ x < 256,
    ((x &&& 0x7F) ||| 0x10) &&& 0x10 = 0x10
      ∧ ((x &&& 0x7F) ||| 0x10) &&& 0x80 = 0
      ∧ ((x &&& 0x7F) ||| 0x10) &&& 0x6F = x &&& 0x6F := by
  decide

/-- C18, as stated, fails when MODE1 reads back `0x91`: the value written to
put the chip to sleep is `0x11`, not `0x91 | 0x10 = 0x91`; the restart bit
`0x80` of the old value is not preserved. -/
theorem sleep_write_clears_restart_bit :
    ((transfers (setPWMFreq (busFailAt 9) (new 1) 60).2.log).take 3)
        = [Ev.send [PCA9685_MODE1], Ev.recv 1, Ev.send [PCA9685_MODE1, 0x11]]
    ∧ (busFailAt 9).rx 1 % 256 = 0x91
    ∧ (0x91 ||| 0x10 : Nat) = 0x91
    ∧ (0x11 : Nat) ≠ (0x91 ||| 0x10) := by
  decide

/-- C18 amended: for every MODE1 value `old` read at the start of
`setPWMFreq`, the value written back to MODE1 to put the chip to sleep is
`(old & 0x7F) | 0x10`: the sleep bit `0x10` is set, the restart bit `0x80` is
cleared, and every other bit of `old` is preserved. -/
theorem sleep_value (bus : Bus) (d : Dev) (freq : ℚ)
    (hok : ∀ k < 2, bus.ret (d.nxfer + k) = OK) :
    ((setPWMFreq bus d freq).2.log.drop d.log.length).take 3 =
        [Ev.send [PCA9685_MODE1], Ev.recv 1,
         Ev.send [PCA9685_MODE1, ((bus.rx (d.nxfer + 1) % 256) &&& 0x7F) ||| 0x10]]
    ∧ (((bus.rx (d.nxfer + 1) % 256) &&& 0x7F) ||| 0x10) &&& 0x10 = 0x10
    ∧ (((bus.rx (d.nxfer + 1) % 256) &&& 0x7F) ||| 0x10) &&& 0x80 = 0
    ∧ (((bus.rx (d.nxfer + 1) % 256) &&& 0x7F) ||| 0x10) &&& 0x6F
        = (bus.rx (d.nxfer + 1) % 256) &&& 0x6F := by
  have hb := mode1_bits (bus.rx (d.nxfer + 1) % 256) (Nat.mod_lt _ (by norm_num))
  have hs := sleep_bits (bus.rx (d.nxfer + 1) % 256) (Nat.mod_lt _ (by norm_num))
  have e0 := hok 0 (by omega)
  have e1 := hok 1 (by omega)
  simp only [Nat.add_zero] at e0
  refine ⟨?_, hs.1, hs.2.1, hs.2.2⟩
  unfold setPWMFreq read8 write8 transfer_send transfer_recv
  by_cases e2 : bus.ret (d.nxfer + 2) = OK <;>
  by_cases e3 : bus.ret (d.nxfer + 3) = OK <;>
  by_cases e4 : bus.ret (d.nxfer + 4) = OK <;>
  by_cases e5 : bus.ret (d.nxfer + 5) = OK <;>
  simp [e0, e1, e2, e3, e4, e5, Nat.add_assoc, hb.2.2.2, PCA9685_MODE1, PCA9685_PRESCALE]

/-- Instance of the amended C18 on a fresh driver whose MODE1 reads back
`0x91`: the third transaction writes `0x11`. -/
theorem sleep_value_witness :
    (∀ k < 2, (busFailAt 9).ret ((new 1).nxfer + k) = OK)
    ∧ ((setPWMFreq (busFailAt 9) (new 1) 60).2.log.drop (new 1).log.length).take 3 =
        [Ev.send [0x00], Ev.recv 1, Ev.send [0x00, 0x11]] :=
  ⟨by decide, (sleep_value (busFailAt 9) (new 1) 60 (by decide)).1⟩

/-! ### What the parts of the loop leave unchanged -/

theorem quiet_refl (d : Dev) : Quiet d d := ⟨rfl, rfl, rfl⟩

theorem quiet_trans {a b c : Dev} (h1 : Quiet a b) (h2 : Quiet b c) : Quiet a c :=
  ⟨h2.1.trans h1.1, h2.2.1.trans h1.2.1, h2.2.2.trans h1.2.2⟩

theorem quiet_foldl {α : Type} (f : Dev → α → Dev) (h : ∀ d a, Quiet d (f d a))
    (l : List α) (d : Dev) : Quiet d (l.foldl f d) := by
  induction l generalizing d with
  | nil => exact quiet_refl d
  | cons a l ih => exact quiet_trans (h d a) (ih (f d a))

theorem foldl_view {α β : Type} (view : Dev → β) (f : Dev → α → Dev)
    (h : ∀ d a, view (f d a) = view d) (l : List α) (d : Dev) :
    view (l.foldl f d) = view d := by
  induction l generalizing d with
  | nil => rfl
  | cons a l ih => exact (ih (f d a)).trans (h d a)

theorem subscribe_step_quiet (orb : Uorb) (s u : Nat) (d : Dev) (i : Nat) :
    Quiet d (subscribe_step orb s u d i) := by
  unfold subscribe_step Quiet busView armView schedView transfers queued
  simp only
  split_ifs <;> simp [List.filter_append, Ev.isTransfer, Ev.isWorkQueue]

theorem subscribe_quiet (orb : Uorb) (d : Dev) : Quiet d (subscribe orb d) := by
  unfold subscribe
  exact quiet_trans ⟨rfl, rfl, rfl⟩ (quiet_foldl _ (subscribe_step_quiet orb _ _) _ _)

theorem set_interval_step_quiet (d : Dev) (i : Nat) : Quiet d (set_interval_step d i) := by
  unfold set_interval_step Quiet busView armView schedView transfers queued
  simp [List.filter_append, Ev.isTransfer, Ev.isWorkQueue]

theorem mode_on_init_quiet (orb : Uorb) (d : Dev) : Quiet d (mode_on_init orb d) := by
  have key : ∀ d2 : Dev, Quiet d2
      ((List.range NUM_ACTUATOR_CONTROL_GROUPS).foldl set_interval_step (subscribe orb d2)) :=
    fun d2 => quiet_trans (subscribe_quiet orb d2) (quiet_foldl _ set_interval_step_quiet _ _)
  unfold mode_on_init
  refine quiet_trans (b := { d with
    armed_sub := orb.subscribe_armed (d.log ++ [Ev.pwm_limit_init]).length
    log := d.log ++ [Ev.pwm_limit_init] ++ [Ev.orb_subscribe_armed] }) ?_ ?_
  · unfold Quiet busView armView schedView transfers queued
    simp [List.filter_append, Ev.isTransfer, Ev.isWorkQueue]
  · exact quiet_trans (key _) ⟨rfl, rfl, rfl⟩

theorem do_poll_quiet (p : Period) (d : Dev) : Quiet d (do_poll p d).2 := by
  unfold do_poll Quiet busView armView schedView transfers queued
  simp [List.filter_append, Ev.isTransfer, Ev.isWorkQueue]

theorem get_controls_step_quiet (p : Period) (d : Dev) (i : Nat) :
    Quiet d (get_controls_step p d i) := by
  unfold get_controls_step Quiet busView armView schedView transfers queued
  simp only
  split_ifs <;> simp [List.filter_append, Ev.isTransfer, Ev.isWorkQueue]

theorem pre_mix_quiet (orb : Uorb) (p : Period) (d : Dev) : Quiet d (pre_mix orb p d) := by
  unfold pre_mix
  simp only
  refine quiet_trans ?_ (quiet_foldl _ (get_controls_step_quiet p) _ _)
  refine quiet_trans ?_ (do_poll_quiet p _)
  split_ifs
  · exact mode_on_init_quiet orb d
  · exact quiet_refl d

theorem update_armed_views (p : Period) (d : Dev) :
    busView (update_armed p d) = busView d ∧ schedView (update_armed p d) = schedView d := by
  unfold update_armed busView schedView transfers queued
  simp only
  split_ifs <;> simp [List.filter_append, Ev.isTransfer, Ev.isWorkQueue]

theorem setPWM_views (bus : Bus) (d : Dev) (num a b : Nat) :
    armView (setPWM bus d num a b).2 = armView d
      ∧ schedView (setPWM bus d num a b).2 = schedView d := by
  unfold setPWM transfer_send armView schedView queued
  simp only
  split_ifs <;> simp [List.filter_append, Ev.isWorkQueue]

theorem setPin_views (bus : Bus) (d : Dev) (num v : Nat) (inv : Bool) :
    armView (setPin bus d num v inv).2 = armView d
      ∧ schedView (setPin bus d num v inv).2 = schedView d := by
  unfold setPin
  simp only
  split_ifs <;> exact setPWM_views _ _ _ _ _

theorem write_output_views (bus : Bus) (d : Dev) (i : Nat) :
    armView (write_output bus d i) = armView d
      ∧ schedView (write_output bus d i) = schedView d := by
  unfold write_output
  simp only
  split_ifs
  · exact setPin_views bus d _ _ false
  · exact ⟨rfl, rfl⟩

theorem do_mix_views (lib : MixerLib) (bus : Bus) (g : MixerGroup) (d : Dev) :
    armView (do_mix lib bus g d) = armView d
      ∧ schedView (do_mix lib bus g d) = schedView d := by
  unfold do_mix
  simp only
  constructor
  · rw [foldl_view armView _ (fun d i => (write_output_views bus d i).1),
      foldl_view armView _ (by intro d i; split_ifs <;> rfl)]
    rfl
  · rw [foldl_view schedView _ (fun d i => (write_output_views bus d i).2),
      foldl_view schedView _ (by intro d i; split_ifs <;> rfl)]
    unfold schedView queued
    simp [List.filter_append, Ev.isWorkQueue]

theorem on_updated_views (lib : MixerLib) (bus : Bus) (p : Period) (d : Dev) :
    armView (on_updated lib bus p d) = armView d
      ∧ schedView (on_updated lib bus p d) = schedView d := by
  have h1 := quiet_foldl _ (get_controls_step_quiet p) (List.range NUM_ACTUATOR_CONTROL_GROUPS) d
  unfold on_updated
  simp only
  split
  · exact ⟨(do_mix_views lib bus _ _).1.trans h1.2.1, (do_mix_views lib bus _ _).2.trans h1.2.2⟩
  · exact ⟨h1.2.1, h1.2.2⟩

theorem update_armed_flag (p : Period) (d : Dev) :
    (update_armed p d).servo_armed =
        (if p.armed_updated then (p.armed.armed || p.armed.prearmed) && !p.armed.lockdown
         else d.servo_armed)
      ∧ (update_armed p d).armed = (if p.armed_updated then p.armed else d.armed) := by
  unfold update_armed
  simp only
  split_ifs <;> simp_all

theorem on_body_eq (lib : MixerLib) (bus : Bus) (p : Period) (d : Dev) :
    on_body lib bus p d =
      { update_armed p (poll_branch lib bus p (do_poll p d).1 (do_poll p d).2) with
        should_run := true } := rfl

theorem poll_branch_views (lib : MixerLib) (bus : Bus) (p : Period) (ret : Int) (d : Dev) :
    armView (poll_branch lib bus p ret d) = armView d
      ∧ schedView (poll_branch lib bus p ret d) = schedView d := by
  unfold poll_branch
  split_ifs
  · exact ⟨rfl, rfl⟩
  · exact ⟨rfl, rfl⟩
  · exact on_updated_views lib bus p d

theorem on_body_views (lib : MixerLib) (bus : Bus) (p : Period) (d : Dev) :
    schedView (on_body lib bus p d) = schedView d
      ∧ (on_body lib bus p d).should_run = true
      ∧ (on_body lib bus p d).servo_armed =
          (if p.armed_updated then (p.armed.armed || p.armed.prearmed) && !p.armed.lockdown
           else d.servo_armed)
      ∧ (on_body lib bus p d).armed = (if p.armed_updated then p.armed else d.armed) := by
  have hp := do_poll_quiet p d
  have hmid := poll_branch_views lib bus p (do_poll p d).1 (do_poll p d).2
  have hu := update_armed_views p (poll_branch lib bus p (do_poll p d).1 (do_poll p d).2)
  have hf := update_armed_flag p (poll_branch lib bus p (do_poll p d).1 (do_poll p d).2)
  have ha := hmid.1.trans hp.2.1
  unfold armView at ha
  simp only [Prod.mk.injEq] at ha
  rw [on_body_eq]
  generalize poll_branch lib bus p (do_poll p d).1 (do_poll p d).2 = X at hmid hu hf ha
  refine ⟨?_, rfl, ?_, ?_⟩
  · exact (hu.2.trans hmid.2).trans hp.2.2
  · show (update_armed p X).servo_armed = _
    rw [hf.1, ha.1]
  · show (update_armed p X).armed = _
    rw [hf.2, ha.2]

theorem i2cpwm_eq_requeue (lib : MixerLib) (orb : Uorb) (bus : Bus) (p : Period) (d : Dev) :
    i2cpwm lib orb bus p d = requeue
      (if d.mode = IOX_MODE_TEST_OUT then
        { (setPin bus d 0 PCA9685_PWMCENTER false).2 with should_run := true }
      else if d.mode = IOX_MODE_OFF then
        { d with should_run := false }
      else
        on_body lib bus p (if !d.mode_on_initialized then mode_on_init orb d else d)) := rfl

theorem i2cpwm_on (lib : MixerLib) (orb : Uorb) (bus : Bus) (p : Period) (d : Dev)
    (hmode : d.mode = IOX_MODE_ON) :
    i2cpwm lib orb bus p d = requeue
      (on_body lib bus p (if !d.mode_on_initialized then mode_on_init orb d else d)) := by
  rw [i2cpwm_eq_requeue, hmode]
  rfl

theorem requeue_arm (d : Dev) : armView (requeue d) = armView d := by
  unfold requeue
  split_ifs <;> rfl

/-! ### The arming state -/

/-- C15: after a loop period in mode ON the stored safety flag `_servo_armed`
is `(armed || prearmed) && !lockdown` of the fresh arming sample when the
period observes one, for every combination of the three flags, and is
unchanged when no fresh sample is available; the stored sample is the fresh
one, or the old one. -/
theorem arming_flag_after_period (lib : MixerLib) (orb : Uorb) (bus : Bus) (p : Period) (d : Dev)
    (hmode : d.mode = IOX_MODE_ON) :
    (i2cpwm lib orb bus p d).servo_armed =
        (if p.armed_updated then (p.armed.armed || p.armed.prearmed) && !p.armed.lockdown
         else d.servo_armed)
      ∧ (i2cpwm lib orb bus p d).armed = (if p.armed_updated then p.armed else d.armed) := by
  rw [i2cpwm_on lib orb bus p d hmode]
  have hr := requeue_arm
    (on_body lib bus p (if !d.mode_on_initialized then mode_on_init orb d else d))
  unfold armView at hr
  simp only [Prod.mk.injEq] at hr
  have hb := on_body_views lib bus p (if !d.mode_on_initialized then mode_on_init orb d else d)
  have hi : armView (if !d.mode_on_initialized then mode_on_init orb d else d) = armView d := by
    split_ifs
    · exact (mode_on_init_quiet orb d).2.1
    · rfl
  unfold armView at hi
  simp only [Prod.mk.injEq] at hi
  rw [hr.1, hr.2, hb.2.2.1, hb.2.2.2, hi.1, hi.2]
  exact ⟨rfl, rfl⟩

/-- Instance of C15: a period that observes the sample prearmed, not armed, no
lockdown sets the safety flag. -/
theorem arming_flag_after_period_witness :
    mixing.mode = IOX_MODE_ON
    ∧ (i2cpwm (libOuts []) orbFixed busOK ready mixing).servo_armed = true :=
  ⟨rfl, (arming_flag_after_period (libOuts []) orbFixed busOK ready mixing rfl).1⟩

/-! ### Re-queueing of the loop -/

theorem requeue_run (d : Dev) (h : d.should_run = true) :
    (requeue d).running = true
      ∧ (requeue d).log = d.log ++ [Ev.work_queue d.i2cpwm_interval] := by
  unfold requeue
  simp [h]

theorem requeue_stop (d : Dev) (h : d.should_run = false) :
    (requeue d).running = false ∧ (requeue d).log = d.log := by
  unfold requeue
  simp [h]

theorem queued_snoc (l : List Ev) (n : Nat) : queued (l ++ [Ev.work_queue n]) = queued l + 1 := by
  unfold queued
  simp [List.filter_append, Ev.isWorkQueue]

theorem loop_requeue_parts (lib : MixerLib) (orb : Uorb) (bus : Bus) (p : Period) (d : Dev)
    (hmode : d.mode = IOX_MODE_OFF ∨ d.mode = IOX_MODE_ON ∨ d.mode = IOX_MODE_TEST_OUT) :
    ((i2cpwm lib orb bus p d).running = true ↔ (d.mode = IOX_MODE_ON ∨ d.mode = IOX_MODE_TEST_OUT))
    ∧ queued (i2cpwm lib orb bus p d).log
        = queued d.log + (if d.mode = IOX_MODE_ON ∨ d.mode = IOX_MODE_TEST_OUT then 1 else 0)
    ∧ ((d.mode = IOX_MODE_ON ∨ d.mode = IOX_MODE_TEST_OUT) →
        (i2cpwm lib orb bus p d).log.getLast? = some (Ev.work_queue d.i2cpwm_interval))
    ∧ (d.mode = IOX_MODE_OFF →
        (i2cpwm lib orb bus p d).running = false ∧ (i2cpwm lib orb bus p d).log = d.log) := by
  rw [i2cpwm_eq_requeue]
  rcases hmode with h | h | h
  · have hne : ¬ d.mode = IOX_MODE_TEST_OUT := by rw [h]; decide
    have hr := requeue_stop { d with should_run := false } rfl
    rw [if_neg hne, if_pos h, hr.1, hr.2]
    simp [h, IOX_MODE_OFF, IOX_MODE_ON, IOX_MODE_TEST_OUT]
  · have hne : ¬ d.mode = IOX_MODE_TEST_OUT := by rw [h]; decide
    have hno : ¬ d.mode = IOX_MODE_OFF := by rw [h]; decide
    have hb := on_body_views lib bus p (if !d.mode_on_initialized then mode_on_init orb d else d)
    have hi : schedView (if !d.mode_on_initialized then mode_on_init orb d else d) = schedView d := by
      split_ifs
      · exact (mode_on_init_quiet orb d).2.2
      · rfl
    have hs := hb.1.trans hi
    have hr := requeue_run _ hb.2.1
    unfold schedView at hs
    simp only [Prod.mk.injEq] at hs
    rw [if_neg hne, if_neg hno, hr.1, hr.2, queued_snoc, hs.1, hs.2.2.2.2]
    simp [h, IOX_MODE_OFF, IOX_MODE_ON, IOX_MODE_TEST_OUT]
  · have hv := (setPin_views bus d 0 PCA9685_PWMCENTER false).2
    have hr := requeue_run { (setPin bus d 0 PCA9685_PWMCENTER false).2 with should_run := true } rfl
    unfold schedView at hv
    simp only [Prod.mk.injEq] at hv
    rw [if_pos h, hr.1, hr.2, queued_snoc]
    simp only
    rw [hv.1, hv.2.2.2.2]
    simp [h, IOX_MODE_OFF, IOX_MODE_ON, IOX_MODE_TEST_OUT]

theorem set_mode_kicks (lib : MixerLib) (heap_ok : Bool) (d : Dev) (arg : Nat)
    (harg : arg = IOX_MODE_OFF ∨ arg = IOX_MODE_ON ∨ arg = IOX_MODE_TEST_OUT) :
    (ioctl lib heap_ok d (Cmd.IOX_SET_MODE arg)).1 = OK
    ∧ (ioctl lib heap_ok d (Cmd.IOX_SET_MODE arg)).2.mode = arg
    ∧ (ioctl lib heap_ok d (Cmd.IOX_SET_MODE arg)).2.running = true
    ∧ queued (ioctl lib heap_ok d (Cmd.IOX_SET_MODE arg)).2.log
        = queued d.log + (if d.running then 0 else 1) := by
  unfold ioctl
  simp only
  have hn : ¬ (d.mode ≠ arg ∧ ¬(arg = IOX_MODE_OFF ∨ arg = IOX_MODE_ON ∨ arg = IOX_MODE_TEST_OUT)) :=
    fun h => h.2 harg
  rw [if_neg hn]
  split_ifs <;> simp_all [queued, List.filter_append, Ev.isWorkQueue, OK]

/-- C16: after every run of `i2cpwm` the running flag is true if and only if
the mode is ON or TEST_OUT, in which case the run has queued the loop exactly
once more, as its last call, with the period interval; in mode OFF the running
flag is false and the run makes no call at all. A later request to set the
mode to OFF, ON or TEST_OUT is accepted, leaves the running flag true and
queues the loop exactly when the running flag was false. -/
theorem requeue_iff_active (lib : MixerLib) (orb : Uorb) (bus : Bus) (p : Period) (d : Dev)
    (hmode : d.mode = IOX_MODE_OFF ∨ d.mode = IOX_MODE_ON ∨ d.mode = IOX_MODE_TEST_OUT) :
    ((i2cpwm lib orb bus p d).running = true ↔ (d.mode = IOX_MODE_ON ∨ d.mode = IOX_MODE_TEST_OUT))
    ∧ queued (i2cpwm lib orb bus p d).log
        = queued d.log + (if d.mode = IOX_MODE_ON ∨ d.mode = IOX_MODE_TEST_OUT then 1 else 0)
    ∧ ((d.mode = IOX_MODE_ON ∨ d.mode = IOX_MODE_TEST_OUT) →
        (i2cpwm lib orb bus p d).log.getLast? = some (Ev.work_queue d.i2cpwm_interval))
    ∧ (d.mode = IOX_MODE_OFF →
        (i2cpwm lib orb bus p d).running = false ∧ (i2cpwm lib orb bus p d).log = d.log)
    ∧ (∀ heap_ok arg, arg = IOX_MODE_OFF ∨ arg = IOX_MODE_ON ∨ arg = IOX_MODE_TEST_OUT →
        (ioctl lib heap_ok (i2cpwm lib orb bus p d) (Cmd.IOX_SET_MODE arg)).1 = OK
        ∧ (ioctl lib heap_ok (i2cpwm lib orb bus p d) (Cmd.IOX_SET_MODE arg)).2.running = true
        ∧ queued (ioctl lib heap_ok (i2cpwm lib orb bus p d) (Cmd.IOX_SET_MODE arg)).2.log
            = queued (i2cpwm lib orb bus p d).log
              + (if (i2cpwm lib orb bus p d).running then 0 else 1)) := by
  obtain ⟨h1, h2, h3, h4⟩ := loop_requeue_parts lib orb bus p d hmode
  refine ⟨h1, h2, h3, h4, ?_⟩
  intro heap_ok arg harg
  obtain ⟨a, _, b, c⟩ := set_mode_kicks lib heap_ok (i2cpwm lib orb bus p d) arg harg
  exact ⟨a, b, c⟩

/-- Instances of C16: a period of a running driver in mode ON queues the loop
once more, as its last call, and a request for mode OFF after it queues
nothing; a period of a fresh driver, whose mode is OFF, leaves the running flag
false and makes no call, and a request for mode ON after it queues the loop
once. -/
theorem requeue_iff_active_witness :
    (mixing.mode = IOX_MODE_OFF ∨ mixing.mode = IOX_MODE_ON ∨ mixing.mode = IOX_MODE_TEST_OUT)
    ∧ (i2cpwm libNone orbFixed busOK quiet mixing).running = true
    ∧ queued (i2cpwm libNone orbFixed busOK quiet mixing).log = queued mixing.log + 1
    ∧ (i2cpwm libNone orbFixed busOK quiet mixing).log.getLast? = some (Ev.work_queue 1)
    ∧ queued (ioctl libNone true (i2cpwm libNone orbFixed busOK quiet mixing)
        (Cmd.IOX_SET_MODE IOX_MODE_OFF)).2.log
        = queued (i2cpwm libNone orbFixed busOK quiet mixing).log
    ∧ (i2cpwm libNone orbFixed busOK quiet (new 1)).running = false
    ∧ (i2cpwm libNone orbFixed busOK quiet (new 1)).log = (new 1).log
    ∧ queued (ioctl libNone true (i2cpwm libNone orbFixed busOK quiet (new 1))
        (Cmd.IOX_SET_MODE IOX_MODE_ON)).2.log
        = queued (i2cpwm libNone orbFixed busOK quiet (new 1)).log + 1 := by
  have hm := requeue_iff_active libNone orbFixed busOK quiet mixing (Or.inr (Or.inl rfl))
  have hn := requeue_iff_active libNone orbFixed busOK quiet (new 1) (Or.inl rfl)
  have r1 : (i2cpwm libNone orbFixed busOK quiet mixing).running = true :=
    hm.1.mpr (Or.inl rfl)
  have r2 := hn.2.2.2.1 rfl
  have q1 := (hm.2.2.2.2 true IOX_MODE_OFF (Or.inl rfl)).2.2
  have q2 := (hn.2.2.2.2 true IOX_MODE_ON (Or.inr (Or.inl rfl))).2.2
  rw [r1] at q1
  rw [r2.1] at q2
  refine ⟨Or.inr (Or.inl rfl), r1, ?_, hm.2.2.1 (Or.inl rfl), ?_, r2.1, r2.2, ?_⟩
  · have h := hm.2.1
    have hc : mixing.mode = IOX_MODE_ON ∨ mixing.mode = IOX_MODE_TEST_OUT := Or.inl rfl
    rw [if_pos hc] at h
    exact h
  · simpa using q1
  · simpa using q2

/-! ### The mixing block -/

theorem write_output_effect (bus : Bus) (d : Dev) (i : Nat) (hi : i ≤ 62) :
    (write_output bus d i).log = d.log ++ outputWrite d.outputs i
    ∧ (write_output bus d i).outputs = d.outputs
    ∧ (write_output bus d i).rates =
        (if PCA9685_PWMMIN ≤ mappedTick (d.outputs.getD i none)
            ∧ mappedTick (d.outputs.getD i none) ≤ PCA9685_PWMMAX
         then d.rates.set i (mappedTick (d.outputs.getD i none)) else d.rates) := by
  have ht : toUInt16 (fadd (ofInt PCA9685_PWMCENTER)
      (fmul (fmul (d.outputs.getD i none) M_PI_F) PCA9685_SCALE))
      = mappedTick (d.outputs.getD i none) := rfl
  unfold write_output outputWrite
  simp only [ht, ge_iff_le]
  generalize mappedTick (d.outputs.getD i none) = t
  by_cases h : PCA9685_PWMMIN ≤ t ∧ t ≤ PCA9685_PWMMAX
  · rw [if_pos h, if_pos h, if_pos h]
    have h1 : 150 ≤ t := h.1
    have h2 : t ≤ 600 := h.2
    have e1 : (LED0_ON_L + 4 * (i % 256)) % 256 = LED0_ON_L + 4 * i := by
      unfold LED0_ON_L; omega
    have e2 : (t >>> 8) % 256 = t / 256 := by
      rw [Nat.shiftRight_eq_div_pow]; omega
    have e3 : t % 256 % 256 = t % 256 := by omega
    have hn1 : ¬ t > 4095 := by omega
    have hn2 : ¬ t = 4095 := by omega
    have hn3 : ¬ t = 0 := by omega
    unfold setPin setPWM transfer_send channelMsg
    simp only [hn1, hn2, hn3, if_false, Bool.false_eq_true, e1, e2]
    split_ifs <;> simp
  · rw [if_neg h, if_neg h, if_neg h]
    simp

theorem write_loop_effect (bus : Bus) (d : Dev) (n : Nat) (hn : n ≤ 63) :
    ((List.range n).foldl (write_output bus) d).outputs = d.outputs
    ∧ ((List.range n).foldl (write_output bus) d).log
        = d.log ++ (List.range n).flatMap (outputWrite d.outputs)
    ∧ ((List.range n).foldl (write_output bus) d).rates.length = d.rates.length
    ∧ ∀ j, ((List.range n).foldl (write_output bus) d).rates[j]? =
        if j < n ∧ j < d.rates.length ∧ PCA9685_PWMMIN ≤ mappedTick (d.outputs.getD j none)
            ∧ mappedTick (d.outputs.getD j none) ≤ PCA9685_PWMMAX
        then some (mappedTick (d.outputs.getD j none)) else d.rates[j]? := by
  induction n with
  | zero => simp
  | succ n ih =>
    obtain ⟨ho, hl, hlen, hr⟩ := ih (by omega)
    have hw := write_output_effect bus ((List.range n).foldl (write_output bus) d) n (by omega)
    rw [List.range_succ, List.foldl_append, List.foldl_cons, List.foldl_nil]
    rw [ho] at hw
    refine ⟨hw.2.1, ?_, ?_, ?_⟩
    · rw [hw.1, hl, List.flatMap_append, List.flatMap_singleton, List.append_assoc]
    · rw [hw.2.2]
      split_ifs
      · rw [List.length_set, hlen]
      · exact hlen
    · intro j
      rw [hw.2.2]
      by_cases hin : PCA9685_PWMMIN ≤ mappedTick (d.outputs.getD n none)
          ∧ mappedTick (d.outputs.getD n none) ≤ PCA9685_PWMMAX
      · rw [if_pos hin, List.getElem?_set, hr j, hlen]
        by_cases hjn : n = j
        · subst hjn
          by_cases hlt : n < d.rates.length
          · rw [if_pos rfl, if_pos hlt, if_pos ⟨Nat.lt_succ_self n, hlt, hin⟩]
          · rw [if_pos rfl, if_neg hlt, if_neg (fun h => hlt h.2.1)]
            exact (List.getElem?_eq_none (by omega)).symm
        · have h1 : j < n + 1 ↔ j < n := by omega
          rw [if_neg hjn]
          simp only [h1]
      · rw [if_neg hin, hr j]
        by_cases hjn : n = j
        · subst hjn
          rw [if_neg (fun h => Nat.lt_irrefl n h.1), if_neg (fun h => hin h.2.2)]
        · have h1 : j < n + 1 ↔ j < n := by omega
          simp only [h1]

theorem nan_fill_effect (n m : Nat) (d : Dev) :
    (nan_fill n m d).log = d.log
    ∧ (nan_fill n m d).rates = d.rates
    ∧ (nan_fill n m d).outputs.length = d.outputs.length
    ∧ ∀ j, (nan_fill n m d).outputs[j]?
        = if n ≤ j ∧ j < m ∧ j < d.outputs.length then some NAN_VALUE else d.outputs[j]? := by
  unfold nan_fill
  induction m with
  | zero => simp
  | succ m ih =>
    obtain ⟨hl, hr, hlen, ho⟩ := ih
    rw [List.range_succ, List.foldl_append, List.foldl_cons, List.foldl_nil]
    by_cases hm : m ≥ n
    · rw [if_pos hm]
      refine ⟨hl, hr, ?_, ?_⟩
      · simp only [List.length_set]; exact hlen
      · intro j
        simp only [List.getElem?_set, hlen, ho j]
        by_cases hjm : m = j
        · subst hjm
          by_cases hlt : m < d.outputs.length
          · rw [if_pos rfl, if_pos hlt, if_pos ⟨hm, Nat.lt_succ_self m, hlt⟩]
          · rw [if_pos rfl, if_neg hlt, if_neg (fun h => hlt h.2.2)]
            exact (List.getElem?_eq_none (by omega)).symm
        · have h1 : j < m + 1 ↔ j < m := by omega
          rw [if_neg hjm]
          simp only [h1]
    · rw [if_neg hm]
      refine ⟨hl, hr, hlen, ?_⟩
      intro j
      rw [ho j]
      have h1 : (n ≤ j ∧ j < m + 1 ∧ j < d.outputs.length) ↔ (n ≤ j ∧ j < m ∧ j < d.outputs.length) := by
        omega
      simp only [h1]

theorem do_mix_eq (lib : MixerLib) (bus : Bus) (g : MixerGroup) (d : Dev) :
    do_mix lib bus g d =
      (List.range ((lib.mix g (control_callback d.controls) NUM_ACTUATOR_OUTPUTS).take
          NUM_ACTUATOR_OUTPUTS).length).foldl (write_output bus)
        (nan_fill ((lib.mix g (control_callback d.controls) NUM_ACTUATOR_OUTPUTS).take
            NUM_ACTUATOR_OUTPUTS).length NUM_ACTUATOR_OUTPUTS
          (store_mixed ((lib.mix g (control_callback d.controls) NUM_ACTUATOR_OUTPUTS).take
            NUM_ACTUATOR_OUTPUTS) d)) := rfl

theorem mix_effect (bus : Bus) (mixed : List Flt) (hlen : mixed.length ≤ 16) (d : Dev) :
    ((List.range mixed.length).foldl (write_output bus)
        (nan_fill mixed.length NUM_ACTUATOR_OUTPUTS (store_mixed mixed d))).log
      = d.log ++ [Ev.mix NUM_ACTUATOR_OUTPUTS]
          ++ (List.range mixed.length).flatMap (outputWrite mixed)
    ∧ (∀ j, ((List.range mixed.length).foldl (write_output bus)
        (nan_fill mixed.length NUM_ACTUATOR_OUTPUTS (store_mixed mixed d))).rates[j]? =
        if j < mixed.length ∧ j < d.rates.length
            ∧ PCA9685_PWMMIN ≤ mappedTick (mixed.getD j none)
            ∧ mappedTick (mixed.getD j none) ≤ PCA9685_PWMMAX
        then some (mappedTick (mixed.getD j none))
        else d.rates[j]?)
    ∧ (∀ j, ((List.range mixed.length).foldl (write_output bus)
        (nan_fill mixed.length NUM_ACTUATOR_OUTPUTS (store_mixed mixed d))).outputs[j]? =
        if j < mixed.length then mixed[j]?
        else if j < NUM_ACTUATOR_OUTPUTS ∧ j < d.outputs.length then some NAN_VALUE
        else d.outputs[j]?) := by
  obtain ⟨nl, nr, nlen, nout⟩ := nan_fill_effect mixed.length NUM_ACTUATOR_OUTPUTS (store_mixed mixed d)
  obtain ⟨wo, wl, wlen, wr⟩ := write_loop_effect bus
    (nan_fill mixed.length NUM_ACTUATOR_OUTPUTS (store_mixed mixed d)) mixed.length (by omega)
  have s1 : (store_mixed mixed d).log = d.log ++ [Ev.mix NUM_ACTUATOR_OUTPUTS] := rfl
  have s2 : (store_mixed mixed d).rates = d.rates := rfl
  have s3 : (store_mixed mixed d).outputs = mixed ++ d.outputs.drop mixed.length := rfl
  generalize store_mixed mixed d = d1 at nl nr nlen nout wo wl wlen wr s1 s2 s3 ⊢
  have hsame : ∀ i, i < mixed.length →
      (nan_fill mixed.length NUM_ACTUATOR_OUTPUTS d1).outputs.getD i none = mixed.getD i none := by
    intro i hi
    rw [List.getD_eq_getElem?_getD, List.getD_eq_getElem?_getD, nout i,
      if_neg (fun h => Nat.lt_irrefl i (Nat.lt_of_lt_of_le hi h.1)), s3,
      List.getElem?_append_left hi]
  generalize nan_fill mixed.length NUM_ACTUATOR_OUTPUTS d1 = d2 at nl nr nlen nout wo wl wlen wr hsame ⊢
  refine ⟨?_, ?_, ?_⟩
  · rw [wl, nl, s1]
    congr 1
    apply List.flatMap_congr
    intro i hi
    unfold outputWrite
    rw [hsame i (List.mem_range.mp hi)]
  · intro j
    rw [wr j, nr, s2]
    by_cases hj : j < mixed.length
    · rw [hsame j hj]
    · rw [if_neg (fun h => hj h.1), if_neg (fun h => hj h.1)]
  · intro j
    rw [wo, nout j, s3]
    simp only [List.length_append, List.length_drop]
    by_cases hj : j < mixed.length
    · rw [if_neg (fun h => Nat.lt_irrefl j (Nat.lt_of_lt_of_le hj h.1)), if_pos hj,
        List.getElem?_append_left hj]
    · have hle : mixed.length ≤ j := Nat.le_of_not_lt hj
      have e : (mixed ++ d.outputs.drop mixed.length)[j]? = d.outputs[j]? := by
        rw [List.getElem?_append_right hle, List.getElem?_drop]
        congr 1
        omega
      have h1 : (mixed.length ≤ j ∧ j < NUM_ACTUATOR_OUTPUTS
            ∧ j < mixed.length + (d.outputs.length - mixed.length))
          ↔ (j < NUM_ACTUATOR_OUTPUTS ∧ j < d.outputs.length) := by
        omega
      rw [if_neg hj, e]
      simp only [h1]

theorem channelWrites_append (c : Nat) (a b : List Ev) :
    channelWrites c (a ++ b) = channelWrites c a ++ channelWrites c b := by
  unfold channelWrites
  exact List.filter_append a b

theorem channelWrites_transfers (c : Nat) (log : List Ev) :
    channelWrites c (transfers log) = channelWrites c log := by
  unfold channelWrites transfers
  rw [List.filter_filter]
  congr 1
  funext e
  cases e <;> simp [Ev.isChannelWrite, Ev.isTransfer]

theorem channelWrites_outputWrite (c : Nat) (o : List Flt) (n : Nat) :
    channelWrites c (outputWrite o n) = if n = c then outputWrite o n else [] := by
  unfold outputWrite channelWrites channelMsg
  by_cases h : n = c
  · subst h
    rw [if_pos rfl]
    split_ifs <;> simp [Ev.isChannelWrite]
  · rw [if_neg h]
    split_ifs
    · simp [Ev.isChannelWrite, h]
    · rfl

theorem channelWrites_loop (c : Nat) (o : List Flt) (n : Nat) :
    channelWrites c ((List.range n).flatMap (outputWrite o))
      = if c < n then outputWrite o c else [] := by
  induction n with
  | zero => simp [channelWrites]
  | succ n ih =>
    rw [List.range_succ, List.flatMap_append, List.flatMap_singleton, channelWrites_append, ih,
      channelWrites_outputWrite]
    by_cases h1 : c < n
    · have h2 : ¬ n = c := by omega
      have h3 : c < n + 1 := by omega
      rw [if_pos h1, if_neg h2, if_pos h3, List.append_nil]
    · by_cases h2 : n = c
      · subst h2
        rw [if_neg h1, if_pos rfl, if_pos (Nat.lt_succ_self n), List.nil_append]
      · have h3 : ¬ c < n + 1 := by omega
        rw [if_neg h1, if_neg h2, if_neg h3, List.append_nil]

theorem pre_mix_eq (orb : Uorb) (p : Period) (d : Dev) :
    pre_mix orb p d = (List.range NUM_ACTUATOR_CONTROL_GROUPS).foldl (get_controls_step p)
      (do_poll p (if !d.mode_on_initialized then mode_on_init orb d else d)).2 := rfl

theorem i2cpwm_mixing (lib : MixerLib) (orb : Uorb) (bus : Bus) (p : Period) (d : Dev)
    (g : MixerGroup) (hmode : d.mode = IOX_MODE_ON) (hpoll : 0 < p.poll_ret)
    (hmix : d.mixers = some g) :
    i2cpwm lib orb bus p d = requeue
      { update_armed p (do_mix lib bus g (pre_mix orb p d)) with should_run := true } := by
  have hq := (pre_mix_quiet orb p d).2.2
  unfold schedView at hq
  simp only [Prod.mk.injEq] at hq
  have hm : (pre_mix orb p d).mixers = some g := hq.2.1.trans hmix
  have hret : (do_poll p (if !d.mode_on_initialized then mode_on_init orb d else d)).1
      = p.poll_ret := rfl
  have hbr : poll_branch lib bus p
      (do_poll p (if !d.mode_on_initialized then mode_on_init orb d else d)).1
      (do_poll p (if !d.mode_on_initialized then mode_on_init orb d else d)).2
      = do_mix lib bus g (pre_mix orb p d) := by
    unfold poll_branch
    rw [hret, if_neg (by omega), if_neg (by omega)]
    unfold on_updated
    simp only
    rw [← pre_mix_eq, hm]
  rw [i2cpwm_on lib orb bus p d hmode, on_body_eq, hbr]

theorem mixing_period_effect (lib : MixerLib) (orb : Uorb) (bus : Bus) (p : Period) (d : Dev)
    (g : MixerGroup) (hmode : d.mode = IOX_MODE_ON) (hpoll : 0 < p.poll_ret)
    (hmix : d.mixers = some g) :
    (mixedOutputs lib orb p d g).length ≤ NUM_ACTUATOR_OUTPUTS
    ∧ (∀ c, channelWrites c (i2cpwm lib orb bus p d).log = channelWrites c d.log
        ++ (if c < (mixedOutputs lib orb p d g).length
            then outputWrite (mixedOutputs lib orb p d g) c else []))
    ∧ (∀ j, (i2cpwm lib orb bus p d).rates[j]? =
        if j < (mixedOutputs lib orb p d g).length ∧ j < d.rates.length
            ∧ PCA9685_PWMMIN ≤ mappedTick ((mixedOutputs lib orb p d g).getD j none)
            ∧ mappedTick ((mixedOutputs lib orb p d g).getD j none) ≤ PCA9685_PWMMAX
        then some (mappedTick ((mixedOutputs lib orb p d g).getD j none))
        else d.rates[j]?)
    ∧ (∀ j, (i2cpwm lib orb bus p d).outputs[j]? =
        if j < (mixedOutputs lib orb p d g).length then (mixedOutputs lib orb p d g)[j]?
        else if j < NUM_ACTUATOR_OUTPUTS ∧ j < d.outputs.length then some NAN_VALUE
        else d.outputs[j]?) := by
  have hlen : (mixedOutputs lib orb p d g).length ≤ 16 := by
    unfold mixedOutputs
    rw [List.length_take]
    exact Nat.min_le_left _ _
  have hpm := (pre_mix_quiet orb p d).1
  unfold busView at hpm
  simp only [Prod.mk.injEq] at hpm
  have hme := mix_effect bus (mixedOutputs lib orb p d g) hlen (pre_mix orb p d)
  have hdm : do_mix lib bus g (pre_mix orb p d) =
      (List.range (mixedOutputs lib orb p d g).length).foldl (write_output bus)
        (nan_fill (mixedOutputs lib orb p d g).length NUM_ACTUATOR_OUTPUTS
          (store_mixed (mixedOutputs lib orb p d g) (pre_mix orb p d))) := do_mix_eq lib bus g _
  rw [← hdm] at hme
  have hua := (update_armed_views p (do_mix lib bus g (pre_mix orb p d))).1
  unfold busView at hua
  simp only [Prod.mk.injEq] at hua
  have hrq := requeue_run
    { update_armed p (do_mix lib bus g (pre_mix orb p d)) with should_run := true } rfl
  have hrr : (requeue { update_armed p (do_mix lib bus g (pre_mix orb p d)) with
      should_run := true }).rates = (update_armed p (do_mix lib bus g (pre_mix orb p d))).rates := by
    unfold requeue; rfl
  have hro : (requeue { update_armed p (do_mix lib bus g (pre_mix orb p d)) with
      should_run := true }).outputs = (update_armed p (do_mix lib bus g (pre_mix orb p d))).outputs := by
    unfold requeue; rfl
  rw [i2cpwm_mixing lib orb bus p d g hmode hpoll hmix]
  refine ⟨hlen, ?_, ?_, ?_⟩
  · intro c
    rw [hrq.2, channelWrites_append]
    have e1 : channelWrites c [Ev.work_queue
        ({ update_armed p (do_mix lib bus g (pre_mix orb p d)) with
            should_run := true } : Dev).i2cpwm_interval] = [] := rfl
    have e2 : channelWrites c [Ev.mix NUM_ACTUATOR_OUTPUTS] = [] := rfl
    rw [e1, List.append_nil]
    show channelWrites c (update_armed p (do_mix lib bus g (pre_mix orb p d))).log = _
    rw [← channelWrites_transfers, hua.1, channelWrites_transfers, hme.1, channelWrites_append,
      channelWrites_append, e2, List.append_nil, channelWrites_loop, ← channelWrites_transfers c (pre_mix orb p d).log, hpm.1,
      channelWrites_transfers]
  · intro j
    rw [hrr, hua.2.1, hme.2.1 j, hpm.2.1]
  · intro j
    rw [hro, hua.2.2.1, hme.2.2 j, hpm.2.2.1]

theorem mappedTick_eval (v w y z : ℚ) (h1 : f32 (v * (13176795 / 4194304)) = some w)
    (h2 : f32 (w * (2346835 / 32768)) = some y) (h3 : f32 (375 + y) = some z) :
    mappedTick (some v) = (truncQ z % 65536).toNat := by
  unfold mappedTick
  rw [ofInt_center, M_PI_F_eq, PCA9685_SCALE_eq]
  simp only [fmul, h1, h2, fadd, h3, toUInt16]

theorem mappedTick_third : mappedTick (some (11184811 / 33554432)) = 450 := by
  rw [mappedTick_eval _ (4392265 / 4194304) 75 450]
  · unfold truncQ; norm_num; rfl
  · apply f32_eq _ _ 0 8784530 <;> norm_num [abs_lt, le_abs]
  · apply f32_eq _ _ 6 9830400 <;> norm_num [abs_lt, le_abs]
  · apply f32_eq _ _ 8 14745600 <;> norm_num [abs_lt, le_abs]

theorem mappedTick_over : mappedTick (some (4212945 / 4194304)) = 601 := by
  rw [mappedTick_eval _ (13235357 / 4194304) (7405567 / 32768) 601]
  · unfold truncQ; norm_num; rfl
  · apply f32_eq _ _ 1 13235357 <;> norm_num [abs_lt, le_abs]
  · apply f32_eq _ _ 7 14811134 <;> norm_num [abs_lt, le_abs]
  · apply f32_eq_tie _ _ 9 9846784 <;> norm_num [abs_lt, le_abs]

theorem mappedTick_minus_four_fifths : mappedTick (some (-(13421773 / 16777216))) = 195 := by
  rw [mappedTick_eval _ (-(2635359 / 1048576)) (-180) 195]
  · unfold truncQ; norm_num; rfl
  · apply f32_eq _ _ 1 (-10541436) <;> norm_num [abs_lt, le_abs]
  · apply f32_eq _ _ 7 (-11796480) <;> norm_num [abs_lt, le_abs]
  · apply f32_eq _ _ 7 12779520 <;> norm_num [abs_lt, le_abs]

/-- The float converted to the tick of a normalized output: it lies in
`[150, 600]` and within `1/10000` of the exact value `375 + 225 v`. -/
theorem tick_value (v : ℚ) (hlo : -1 ≤ v) (hhi : v ≤ 1) :
    ∃ z : ℚ, mappedTick (some v) = ⌊z⌋.toNat ∧ 150 ≤ z ∧ z ≤ 600
      ∧ |z - (375 + 225 * v)| ≤ 1 / 10000 := by
  have hpi : isF32 (13176795 / 4194304) :=
    ⟨13176795, -22, by norm_num, by norm_num, by norm_num⟩
  have hpin : isF32 (-(13176795 / 4194304)) :=
    ⟨-13176795, -22, by norm_num, by norm_num, by norm_num⟩
  have h225 : isF32 225 := by
    have := isF32_intCast 225 (by norm_num); simpa using this
  have h225n : isF32 (-225) := by
    have := isF32_intCast (-225) (by norm_num); simpa using this
  have h150 : isF32 150 := by
    have := isF32_intCast 150 (by norm_num); simpa using this
  have h600 : isF32 600 := by
    have := isF32_intCast 600 (by norm_num); simpa using this
  obtain ⟨e1, l1, u1⟩ := f32_between (v * (13176795 / 4194304)) _ _ hpin hpi
    (by linarith) (by linarith) (by norm_num) (by norm_num)
  obtain ⟨_, a1⟩ := f32_step (v * (13176795 / 4194304)) 4
    (by rw [abs_le]; constructor <;> linarith) (by norm_num)
  rw [abs_le] at a1
  generalize f32round (v * (13176795 / 4194304)) = w at e1 l1 u1 a1
  obtain ⟨e2, l2, u2⟩ := f32_between (w * (2346835 / 32768))
    _ _ h225n h225 (by linarith) (by linarith) (by norm_num) (by norm_num)
  obtain ⟨_, a2⟩ := f32_step (w * (2346835 / 32768)) 226
    (by rw [abs_le]; constructor <;> linarith) (by norm_num)
  rw [abs_le] at a2
  generalize f32round (w * (2346835 / 32768)) = y at e2 l2 u2 a2
  obtain ⟨e3, l3, u3⟩ := f32_between (375 + y)
    _ _ h150 h600 (by linarith) (by linarith) (by norm_num) (by norm_num)
  obtain ⟨_, a3⟩ := f32_step (375 + y) 601
    (by rw [abs_le]; constructor <;> linarith) (by norm_num)
  rw [abs_le] at a3
  generalize f32round (375 + y) = z at e3 l3 u3 a3
  refine ⟨z, ?_, l3, u3, ?_⟩
  · rw [mappedTick_eval v w y z e1 e2 e3]
    have hz : truncQ z = ⌊z⌋ := by
      unfold truncQ; rw [if_pos (by linarith)]
    have f1 : (150 : Int) ≤ ⌊z⌋ := Int.le_floor.mpr (by exact_mod_cast l3)
    have f2 : ⌊z⌋ ≤ (600 : Int) := by
      have h := (Int.floor_le z).trans u3
      exact_mod_cast h
    rw [hz]
    omega
  · rw [abs_le]; constructor <;> linarith

theorem tick_range (v : ℚ) (hlo : -1 ≤ v) (hhi : v ≤ 1) :
    150 ≤ mappedTick (some v) ∧ mappedTick (some v) ≤ 600
      ∧ |(mappedTick (some v) : Int) - truncQ (375 + 225 * v)| ≤ 1 := by
  obtain ⟨z, hz, l, u, he⟩ := tick_value v hlo hhi
  have f1 : (150 : Int) ≤ ⌊z⌋ := Int.le_floor.mpr (by exact_mod_cast l)
  have f2 : ⌊z⌋ ≤ (600 : Int) := by
    have h := (Int.floor_le z).trans u
    exact_mod_cast h
  have ht : truncQ (375 + 225 * v) = ⌊375 + 225 * v⌋ := by
    unfold truncQ; rw [if_pos (by linarith)]
  rw [abs_le] at he
  have g1 : ⌊z⌋ - 1 ≤ ⌊375 + 225 * v⌋ := by
    rw [Int.le_floor]; push_cast
    have := Int.floor_le z
    linarith
  have g2 : ⌊375 + 225 * v⌋ - 1 ≤ ⌊z⌋ := by
    rw [Int.le_floor]; push_cast
    have := Int.floor_le (375 + 225 * v)
    linarith
  rw [hz, ht, abs_le]
  omega

/-- C12: in a loop period in mode ON in which `poll` reports data and a mixer
group is installed, for every output index `i` below the count the mixer
returns whose mapped tick (the 16-bit `new_value`) lies in
`[PCA9685_PWMMIN, PCA9685_PWMMAX] = [150, 600]`, the period adds exactly one
write to the registers of channel `i` to the log, the five bytes of
`(on, off) = (0, tick)`, and stores the tick as `_rates[i]`. -/
theorem in_range_output_written (lib : MixerLib) (orb : Uorb) (bus : Bus) (p : Period) (d : Dev)
    (g : MixerGroup) (i : Nat) (hmode : d.mode = IOX_MODE_ON) (hpoll : 0 < p.poll_ret)
    (hmix : d.mixers = some g) (hrates : d.rates.length = NUM_ACTUATOR_OUTPUTS)
    (hi : i < (mixedOutputs lib orb p d g).length)
    (hlo : PCA9685_PWMMIN ≤ mappedTick ((mixedOutputs lib orb p d g).getD i none))
    (hhi : mappedTick ((mixedOutputs lib orb p d g).getD i none) ≤ PCA9685_PWMMAX) :
    channelWrites i (i2cpwm lib orb bus p d).log = channelWrites i d.log
        ++ [channelMsg i (mappedTick ((mixedOutputs lib orb p d g).getD i none))]
    ∧ (i2cpwm lib orb bus p d).rates[i]?
        = some (mappedTick ((mixedOutputs lib orb p d g).getD i none)) := by
  obtain ⟨hlen, hw, hr, _⟩ := mixing_period_effect lib orb bus p d g hmode hpoll hmix
  have hir : i < d.rates.length := by rw [hrates]; exact Nat.lt_of_lt_of_le hi hlen
  refine ⟨?_, ?_⟩
  · rw [hw i, if_pos hi]
    unfold outputWrite
    rw [if_pos ⟨hlo, hhi⟩]
  · rw [hr i, if_pos ⟨hi, hir, hlo, hhi⟩]

/-- Instance of C12: the mixer returns the single value `0.33333334f`, the
float nearest 1/3, which maps to the tick 450; the period makes the one channel-0 write `[0x06, 0, 0, 0xC2, 0x01]`,
that is `(on, off) = (0, 450)`, and records 450. -/
theorem in_range_output_written_witness :
    mixing.mode = IOX_MODE_ON ∧ 0 < ready.poll_ret ∧ mixing.mixers = some [Mixer.loaded []]
    ∧ mixing.rates.length = NUM_ACTUATOR_OUTPUTS
    ∧ 0 < (mixedOutputs (libOuts [some (11184811 / 33554432)]) orbFixed ready mixing [Mixer.loaded []]).length
    ∧ mappedTick ((mixedOutputs (libOuts [some (11184811 / 33554432)]) orbFixed ready mixing
        [Mixer.loaded []]).getD 0 none) = 450
    ∧ channelWrites 0 (i2cpwm (libOuts [some (11184811 / 33554432)]) orbFixed busOK ready mixing).log
        = [Ev.send [0x06, 0x00, 0x00, 0xC2, 0x01]]
    ∧ (i2cpwm (libOuts [some (11184811 / 33554432)]) orbFixed busOK ready mixing).rates[0]? = some 450 := by
  have ht : mappedTick ((mixedOutputs (libOuts [some (11184811 / 33554432)]) orbFixed ready mixing
      [Mixer.loaded []]).getD 0 none) = 450 := mappedTick_third
  have h := in_range_output_written (libOuts [some (11184811 / 33554432)]) orbFixed busOK ready mixing [Mixer.loaded []] 0
    rfl (by decide) rfl rfl (by decide) (by rw [ht]; decide) (by rw [ht]; decide)
  rw [ht] at h
  exact ⟨rfl, by decide, rfl, rfl, by decide, ht, h.1, h.2⟩

/-- C13: in a loop period in mode ON in which `poll` reports data and a mixer
group is installed, for every output index `i` whose mapped tick (the 16-bit
`new_value`) lies outside `[PCA9685_PWMMIN, PCA9685_PWMMAX] = [150, 600]`, the
period adds no write to the registers of channel `i` to the log (`setPin`
always sends one, so it was not called) and `_rates[i]` is unchanged. -/
theorem out_of_range_output_dropped (lib : MixerLib) (orb : Uorb) (bus : Bus) (p : Period) (d : Dev)
    (g : MixerGroup) (i : Nat) (hmode : d.mode = IOX_MODE_ON) (hpoll : 0 < p.poll_ret)
    (hmix : d.mixers = some g)
    (hout : ¬ (PCA9685_PWMMIN ≤ mappedTick ((mixedOutputs lib orb p d g).getD i none)
      ∧ mappedTick ((mixedOutputs lib orb p d g).getD i none) ≤ PCA9685_PWMMAX)) :
    channelWrites i (i2cpwm lib orb bus p d).log = channelWrites i d.log
    ∧ (i2cpwm lib orb bus p d).rates[i]? = d.rates[i]? := by
  obtain ⟨_, hw, hr, _⟩ := mixing_period_effect lib orb bus p d g hmode hpoll hmix
  refine ⟨?_, ?_⟩
  · rw [hw i]
    unfold outputWrite
    rw [if_neg hout]
    split_ifs <;> exact List.append_nil _
  · rw [hr i, if_neg (fun h => hout h.2.2)]

/-- Instance of C13: the mixer returns the single value `1.00444436f`, which
the float arithmetic of the loop maps to the tick 601 (the exact value
`375 + 225 v` is just below 601); no channel-0 write is made and the stored value stays 0. -/
theorem out_of_range_output_dropped_witness :
    mixing.mode = IOX_MODE_ON ∧ 0 < ready.poll_ret ∧ mixing.mixers = some [Mixer.loaded []]
    ∧ mappedTick ((mixedOutputs (libOuts [some (4212945 / 4194304)]) orbFixed ready mixing
        [Mixer.loaded []]).getD 0 none) = 601
    ∧ channelWrites 0 (i2cpwm (libOuts [some (4212945 / 4194304)]) orbFixed busOK ready mixing).log = []
    ∧ (i2cpwm (libOuts [some (4212945 / 4194304)]) orbFixed busOK ready mixing).rates[0]? = some 0 := by
  have ht : mappedTick ((mixedOutputs (libOuts [some (4212945 / 4194304)]) orbFixed ready mixing
      [Mixer.loaded []]).getD 0 none) = 601 := mappedTick_over
  have h := out_of_range_output_dropped (libOuts [some (4212945 / 4194304)]) orbFixed busOK ready mixing [Mixer.loaded []] 0
    rfl (by decide) rfl (by rw [ht]; decide)
  exact ⟨rfl, by decide, rfl, ht, h.1, h.2⟩

/-- C14: in a loop period in mode ON in which `poll` reports data and the
installed mixer group returns `n` outputs, `n` is at most the requested count,
and for every index `j ≥ n` no write to the registers of channel `j` is added
to the log and, if `j` is an index of the output vector, the entry `_outputs[j]`
is `NAN_VALUE` afterwards. -/
theorem outputs_beyond_count_disabled (lib : MixerLib) (orb : Uorb) (bus : Bus) (p : Period) (d : Dev)
    (g : MixerGroup) (j : Nat) (hmode : d.mode = IOX_MODE_ON) (hpoll : 0 < p.poll_ret)
    (hmix : d.mixers = some g) (houts : d.outputs.length = NUM_ACTUATOR_OUTPUTS)
    (hj : (mixedOutputs lib orb p d g).length ≤ j) :
    (mixedOutputs lib orb p d g).length ≤ NUM_ACTUATOR_OUTPUTS
    ∧ channelWrites j (i2cpwm lib orb bus p d).log = channelWrites j d.log
    ∧ (j < NUM_ACTUATOR_OUTPUTS → (i2cpwm lib orb bus p d).outputs[j]? = some NAN_VALUE) := by
  obtain ⟨hlen, hw, _, ho⟩ := mixing_period_effect lib orb bus p d g hmode hpoll hmix
  have hnj : ¬ j < (mixedOutputs lib orb p d g).length := Nat.not_lt.mpr hj
  refine ⟨hlen, ?_, ?_⟩
  · rw [hw j, if_neg hnj, List.append_nil]
  · intro hj16
    rw [ho j, if_neg hnj, if_pos ⟨hj16, by rw [houts]; exact hj16⟩]

/-- Instance of C14: the mixer returns 2 outputs; the entries 2 and 3 of the
output vector are `NAN_VALUE` and no write to channel 2 or 3 is made. -/
theorem outputs_beyond_count_disabled_witness :
    mixing.mode = IOX_MODE_ON ∧ 0 < ready.poll_ret ∧ mixing.mixers = some [Mixer.loaded []]
    ∧ mixing.outputs.length = NUM_ACTUATOR_OUTPUTS
    ∧ (mixedOutputs (libOuts [some (1 / 2), some 0]) orbFixed ready mixing [Mixer.loaded []]).length = 2
    ∧ channelWrites 2 (i2cpwm (libOuts [some (1 / 2), some 0]) orbFixed busOK ready mixing).log = []
    ∧ (i2cpwm (libOuts [some (1 / 2), some 0]) orbFixed busOK ready mixing).outputs[2]?
        = some NAN_VALUE
    ∧ channelWrites 3 (i2cpwm (libOuts [some (1 / 2), some 0]) orbFixed busOK ready mixing).log = []
    ∧ (i2cpwm (libOuts [some (1 / 2), some 0]) orbFixed busOK ready mixing).outputs[3]?
        = some NAN_VALUE :=
  ⟨rfl, by decide, rfl, rfl, rfl,
    (outputs_beyond_count_disabled (libOuts [some (1 / 2), some 0]) orbFixed busOK ready mixing [Mixer.loaded []] 2
      rfl (by decide) rfl rfl (by decide)).2.1,
    (outputs_beyond_count_disabled (libOuts [some (1 / 2), some 0]) orbFixed busOK ready mixing [Mixer.loaded []] 2
      rfl (by decide) rfl rfl (by decide)).2.2 (by decide),
    (outputs_beyond_count_disabled (libOuts [some (1 / 2), some 0]) orbFixed busOK ready mixing [Mixer.loaded []] 3
      rfl (by decide) rfl rfl (by decide)).2.1,
    (outputs_beyond_count_disabled (libOuts [some (1 / 2), some 0]) orbFixed busOK ready mixing [Mixer.loaded []] 3
      rfl (by decide) rfl rfl (by decide)).2.2 (by decide)⟩

/-- C19 evaluated on the driver. A mixer that needs control group 1 only is
loaded, the mode is set ON and the loop runs once; `subscribe` puts the handle
of group 1 (11) in the first entry of the poll set, `poll` reports that entry
ready, but the loop tests the `revents` of entry 1, which `poll` never wrote:
no `orb_copy` is made and entry 1 of the control-vector table keeps its old
contents instead of the fresh vector. -/
theorem fresh_group1_not_copied :
    group1_ready.groups_required = 0b0010
    ∧ group1_ready.control_subs = [-1, 11, 0, 0]
    ∧ group1_ready.poll_fds_num = 1
    ∧ group1_ready.poll_fds.map pollfd.fd = [11, 0, 0, 0]
    ∧ group1_ready.poll_fds.map pollfd.revents = [POLLIN, 0, 0, 0]
    ∧ group1_ready.log.filter Ev.isOrbCopy = []
    ∧ group1_ready.controls.getD 1 [] = (new 1).controls.getD 1 []
    ∧ group1_ready.controls.getD 1 [] ≠ ready.fresh 1 := by
  refine ⟨by decide, by decide, by decide, by decide, by decide, by decide, rfl, ?_⟩
  have e : group1_ready.controls.getD 1 [] = List.replicate 8 (some 0) := rfl
  rw [e]
  simp [ready, NUM_ACTUATOR_CONTROLS]

/-- C20 evaluated on the driver. The driver is started (mode ON, one loop
period) and a mixer that requires groups 0 and 1 is loaded afterwards, so that
the required mask is `0b0011` and the subscribed mask `0b0000`; the next ON
period polls an empty set, checks the arming topic and re-queues itself: it
subscribes no group and the poll set stays empty. -/
theorem late_mixer_never_subscribed :
    late_mixer.mode = IOX_MODE_ON ∧ late_mixer.running = true
    ∧ late_mixer.groups_required = 0b0011 ∧ late_mixer.groups_subscribed = 0b0000
    ∧ (i2cpwm (libOuts []) orbFixed busOK quiet late_mixer).log.drop late_mixer.log.length
        = [Ev.poll [], Ev.orb_check_armed 3, Ev.work_queue 1]
    ∧ (i2cpwm (libOuts []) orbFixed busOK quiet late_mixer).log.filter Ev.isSubscription = []
    ∧ (i2cpwm (libOuts []) orbFixed busOK quiet late_mixer).poll_fds_num = 0
    ∧ (i2cpwm (libOuts []) orbFixed busOK quiet late_mixer).control_subs = [-1, 0, 0, 0] := by
  decide

/-! ## Arming, test output, scaling, polarity and the status accessors -/

/-! ### The arming state commutes with the output path -/

theorem foldl_setArm {α : Type} (a : actuator_armed_s) (s : Bool) (f : Dev → α → Dev)
    (h : ∀ d x, f (setArm a s d) x = setArm a s (f d x)) (l : List α) (d : Dev) :
    l.foldl f (setArm a s d) = setArm a s (l.foldl f d) := by
  induction l generalizing d with
  | nil => rfl
  | cons x l ih => rw [List.foldl_cons, List.foldl_cons, h, ih]

theorem setPWM_setArm (a : actuator_armed_s) (s : Bool) (bus : Bus) (d : Dev) (num x y : Nat) :
    (setPWM bus (setArm a s d) num x y).2 = setArm a s (setPWM bus d num x y).2 := by
  unfold setPWM transfer_send setArm
  simp only
  split_ifs <;> rfl

theorem setPin_setArm (a : actuator_armed_s) (s : Bool) (bus : Bus) (d : Dev) (num v : Nat)
    (inv : Bool) :
    (setPin bus (setArm a s d) num v inv).2 = setArm a s (setPin bus d num v inv).2 := by
  unfold setPin
  simp only
  split_ifs <;> exact setPWM_setArm a s bus d _ _ _

theorem write_output_setArm (a : actuator_armed_s) (s : Bool) (bus : Bus) (d : Dev) (i : Nat) :
    write_output bus (setArm a s d) i = setArm a s (write_output bus d i) := by
  unfold write_output
  have ho : (setArm a s d).outputs = d.outputs := rfl
  simp only [ho]
  split_ifs
  · rw [setPin_setArm]; rfl
  · rfl

theorem do_mix_setArm (a : actuator_armed_s) (s : Bool) (lib : MixerLib) (bus : Bus)
    (g : MixerGroup) (d : Dev) :
    do_mix lib bus g (setArm a s d) = setArm a s (do_mix lib bus g d) := by
  rw [do_mix_eq, do_mix_eq]
  have hc : (setArm a s d).controls = d.controls := rfl
  rw [hc]
  have h1 : ∀ m, store_mixed m (setArm a s d) = setArm a s (store_mixed m d) := fun _ => rfl
  have h2 : ∀ n m d, nan_fill n m (setArm a s d) = setArm a s (nan_fill n m d) := by
    intro n m d
    unfold nan_fill
    apply foldl_setArm
    intro d x
    split_ifs <;> rfl
  rw [h1, h2, foldl_setArm a s _ (write_output_setArm a s bus)]

theorem subscribe_step_setArm (a : actuator_armed_s) (s : Bool) (orb : Uorb) (su un : Nat)
    (d : Dev) (x : Nat) :
    subscribe_step orb su un (setArm a s d) x = setArm a s (subscribe_step orb su un d x) := by
  unfold subscribe_step setArm
  simp only
  split_ifs <;> rfl

theorem subscribe_setArm (a : actuator_armed_s) (s : Bool) (orb : Uorb) (d : Dev) :
    subscribe orb (setArm a s d) = setArm a s (subscribe orb d) :=
  foldl_setArm a s
    (subscribe_step orb (d.groups_required &&& not32 d.groups_subscribed)
      (d.groups_subscribed &&& not32 d.groups_required))
    (subscribe_step_setArm a s orb _ _) (List.range NUM_ACTUATOR_CONTROL_GROUPS)
    { d with poll_fds_num := 0 }

theorem mode_on_init_setArm (a : actuator_armed_s) (s : Bool) (orb : Uorb) (d : Dev) :
    mode_on_init orb (setArm a s d) = setArm a s (mode_on_init orb d) := by
  have key : ∀ D : Dev,
      ({ (List.range NUM_ACTUATOR_CONTROL_GROUPS).foldl set_interval_step
            (subscribe orb (setArm a s D)) with mode_on_initialized := true } : Dev)
      = setArm a s { (List.range NUM_ACTUATOR_CONTROL_GROUPS).foldl set_interval_step
            (subscribe orb D) with mode_on_initialized := true } := by
    intro D
    rw [subscribe_setArm, foldl_setArm a s set_interval_step (fun _ _ => rfl)]
    rfl
  exact key { d with
    armed_sub := orb.subscribe_armed (d.log ++ [Ev.pwm_limit_init]).length
    log := d.log ++ [Ev.pwm_limit_init] ++ [Ev.orb_subscribe_armed] }

theorem on_outputs_setArm (a : actuator_armed_s) (s : Bool) (lib : MixerLib) (orb : Uorb)
    (bus : Bus) (p : Period) (d : Dev) :
    on_outputs lib orb bus p (setArm a s d) = setArm a s (on_outputs lib orb bus p d) := by
  have hinit : (if !(setArm a s d).mode_on_initialized then mode_on_init orb (setArm a s d)
        else setArm a s d)
      = setArm a s (if !d.mode_on_initialized then mode_on_init orb d else d) := by
    have hf : (setArm a s d).mode_on_initialized = d.mode_on_initialized := rfl
    rw [hf]
    split_ifs
    · exact mode_on_init_setArm a s orb d
    · rfl
  have hpoll : ∀ D : Dev, (do_poll p (setArm a s D)).2 = setArm a s (do_poll p D).2 := fun _ => rfl
  have hret : ∀ D : Dev, (do_poll p (setArm a s D)).1 = (do_poll p D).1 := fun _ => rfl
  have hbr : ∀ (ret : Int) (D : Dev),
      poll_branch lib bus p ret (setArm a s D) = setArm a s (poll_branch lib bus p ret D) := by
    intro ret D
    unfold poll_branch
    split_ifs
    · rfl
    · rfl
    · unfold on_updated
      simp only
      rw [foldl_setArm a s (get_controls_step p) (by
        intro D x
        unfold get_controls_step setArm
        simp only
        split_ifs <;> rfl)]
      have hm : ∀ D : Dev, (setArm a s D).mixers = D.mixers := fun _ => rfl
      rw [hm]
      split
      · exact do_mix_setArm a s lib bus _ _
      · rfl
  unfold on_outputs
  rw [hinit, hret, hpoll, hbr]

theorem on_outputs_setSample (u : Bool) (a : actuator_armed_s) (lib : MixerLib) (orb : Uorb)
    (bus : Bus) (p : Period) (d : Dev) :
    on_outputs lib orb bus (setSample u a p) d = on_outputs lib orb bus p d := rfl

theorem requeue_bus (d : Dev) : busView (requeue d) = busView d := by
  unfold requeue busView transfers
  split_ifs <;> simp [List.filter_append, Ev.isTransfer]

theorem on_period_bus (lib : MixerLib) (orb : Uorb) (bus : Bus) (p : Period) (d : Dev)
    (hmode : d.mode = IOX_MODE_ON) :
    busView (i2cpwm lib orb bus p d) = busView (on_outputs lib orb bus p d) := by
  rw [i2cpwm_on lib orb bus p d hmode, on_body_eq, requeue_bus]
  exact (update_armed_views p _).1

/-- C21: the arming state is tracking-only. Two executions of a period in mode
ON whose start states differ only in the arming flags (armed, prearmed,
lockdown) and the stored safety flag, and whose arming samples may differ too,
with the same controls, poll results and mixer outputs, send the same sequence
of bus transfers, the same writes to every channel, and record the same raw
tick values and the same mixer outputs. -/
theorem arming_is_tracking_only (lib : MixerLib) (orb : Uorb) (bus : Bus) (p : Period) (d : Dev)
    (a : actuator_armed_s) (s : Bool) (u : Bool) (a2 : actuator_armed_s)
    (hmode : d.mode = IOX_MODE_ON) :
    transfers (i2cpwm lib orb bus (setSample u a2 p) (setArm a s d)).log
        = transfers (i2cpwm lib orb bus p d).log
    ∧ (∀ c, channelWrites c (i2cpwm lib orb bus (setSample u a2 p) (setArm a s d)).log
        = channelWrites c (i2cpwm lib orb bus p d).log)
    ∧ (i2cpwm lib orb bus (setSample u a2 p) (setArm a s d)).rates
        = (i2cpwm lib orb bus p d).rates
    ∧ (i2cpwm lib orb bus (setSample u a2 p) (setArm a s d)).outputs
        = (i2cpwm lib orb bus p d).outputs := by
  have h1 := on_period_bus lib orb bus (setSample u a2 p) (setArm a s d) hmode
  have h2 := on_period_bus lib orb bus p d hmode
  rw [on_outputs_setSample, on_outputs_setArm] at h1
  have h3 : busView (setArm a s (on_outputs lib orb bus p d))
      = busView (on_outputs lib orb bus p d) := rfl
  have h := (h1.trans h3).trans h2.symm
  unfold busView at h
  simp only [Prod.mk.injEq] at h
  refine ⟨h.1, ?_, h.2.1, h.2.2.1⟩
  intro c
  rw [← channelWrites_transfers, h.1, channelWrites_transfers]

/-- Witness of C21 on a mixing period with one output of one half: a start
state armed and in lockdown gives the same transfers and the same recorded
ticks as the disarmed one. -/
theorem arming_is_tracking_only_witness :
    mixing.mode = IOX_MODE_ON
    ∧ transfers (i2cpwm (libOuts [some (1 / 2)]) orbFixed busOK
          (setSample false ⟨true, true, true⟩ ready) (setArm ⟨true, false, true⟩ true mixing)).log
        = transfers (i2cpwm (libOuts [some (1 / 2)]) orbFixed busOK ready mixing).log
    ∧ (i2cpwm (libOuts [some (1 / 2)]) orbFixed busOK
          (setSample false ⟨true, true, true⟩ ready) (setArm ⟨true, false, true⟩ true mixing)).rates
        = (i2cpwm (libOuts [some (1 / 2)]) orbFixed busOK ready mixing).rates :=
  ⟨rfl,
    (arming_is_tracking_only (libOuts [some (1 / 2)]) orbFixed busOK ready mixing ⟨true, false, true⟩ true false
      ⟨true, true, true⟩ rfl).1,
    (arming_is_tracking_only (libOuts [some (1 / 2)]) orbFixed busOK ready mixing ⟨true, false, true⟩ true false
      ⟨true, true, true⟩ rfl).2.2.1⟩

/-- C22: a period in mode TEST_OUT appends exactly two events to the log, the
five-byte transaction 0x06, 0x00, 0x00, 0x77, 0x01 (channel 0, on 0, off 375,
where 375 is (PWMMAX + PWMMIN) / 2) and the re-queue of the loop; nothing is
polled, copied or mixed, and the controls, the mixer outputs and the recorded
ticks are untouched. -/
theorem test_out_period (lib : MixerLib) (orb : Uorb) (bus : Bus) (p : Period) (d : Dev)
    (hmode : d.mode = IOX_MODE_TEST_OUT) :
    PCA9685_PWMCENTER = (PCA9685_PWMMAX + PCA9685_PWMMIN) / 2
    ∧ PCA9685_PWMCENTER = 375
    ∧ (i2cpwm lib orb bus p d).log
        = d.log ++ [Ev.send [0x06, 0x00, 0x00, 0x77, 0x01], Ev.work_queue d.i2cpwm_interval]
    ∧ channelMsg 0 375 = Ev.send [0x06, 0x00, 0x00, 0x77, 0x01]
    ∧ (i2cpwm lib orb bus p d).running = true
    ∧ (i2cpwm lib orb bus p d).controls = d.controls
    ∧ (i2cpwm lib orb bus p d).outputs = d.outputs
    ∧ (i2cpwm lib orb bus p d).rates = d.rates := by
  have hc : PCA9685_PWMCENTER = 375 := rfl
  refine ⟨rfl, rfl, ?_, rfl, ?_, ?_, ?_, ?_⟩
  all_goals
    unfold i2cpwm setPin setPWM transfer_send
    simp only [hmode, if_true, hc]
    by_cases h : OK = bus.ret d.nxfer <;> simp [h, LED0_ON_L]

/-- Witness of C22 on a fresh driver put in mode TEST_OUT. -/
theorem test_out_period_witness :
    testing.mode = IOX_MODE_TEST_OUT
    ∧ (i2cpwm libNone orbFixed busOK quiet testing).log
        = [Ev.send [0x06, 0x00, 0x00, 0x77, 0x01], Ev.work_queue 1] :=
  ⟨rfl, (test_out_period libNone orbFixed busOK quiet testing rfl).2.2.1⟩

/-- C23, as stated, fails at the float `-0.8f`: the loop computes the products
`-2.5132742` and `-180.0` and the sum `195.0`, so the tick is 195, while
`trunc(375 + 225 v)` in exact arithmetic is 194 (`-0.8f` lies just below
`-0.8`). -/
theorem tick_off_exact_at_minus_four_fifths :
    isF32 (-(13421773 / 16777216))
    ∧ (-1 : ℚ) ≤ -(13421773 / 16777216) ∧ -(13421773 / 16777216) ≤ (1 : ℚ)
    ∧ mappedTick (some (-(13421773 / 16777216))) = 195
    ∧ truncQ (375 + 225 * (-(13421773 / 16777216))) = 194
    ∧ (mappedTick (some (-(13421773 / 16777216))) : Int)
        ≠ truncQ (375 + 225 * (-(13421773 / 16777216))) := by
  have h2 : truncQ (375 + 225 * (-(13421773 / 16777216))) = 194 := by
    unfold truncQ
    rw [if_pos (by norm_num), Int.floor_eq_iff]
    norm_num
  refine ⟨⟨-13421773, -24, by norm_num, by norm_num, by norm_num⟩, by norm_num, by norm_num,
    mappedTick_minus_four_fifths, h2, ?_⟩
  rw [mappedTick_minus_four_fifths, h2]
  decide

/-- C23 amended: for a mixer output v with -1 ≤ v ≤ 1 the mapped tick, which
the loop computes in float arithmetic, lies in 150 .. 600 and differs from
trunc(375 + 225 v) of exact arithmetic by at most one; so setPin sends the
pair (0, tick), never a sentinel 4096, and the write loop does not drop the
output: it sends the channel message for that tick and records the tick. -/
theorem normalized_output_in_range (v : ℚ) (hlo : -1 ≤ v) (hhi : v ≤ 1) :
    |(mappedTick (some v) : Int) - truncQ (375 + 225 * v)| ≤ 1
    ∧ PCA9685_PWMMIN ≤ mappedTick (some v) ∧ mappedTick (some v) ≤ PCA9685_PWMMAX
    ∧ (∀ (bus : Bus) (d : Dev) (num : Nat),
        setPin bus d num (mappedTick (some v)) false = setPWM bus d num 0 (mappedTick (some v)))
    ∧ (∀ (bus : Bus) (d : Dev) (i : Nat), i ≤ 62 → d.outputs.getD i none = some v →
        (write_output bus d i).log = d.log ++ [channelMsg i (mappedTick (some v))]
        ∧ (write_output bus d i).rates = d.rates.set i (mappedTick (some v))) := by
  obtain ⟨h3, h4, h1⟩ := tick_range v hlo hhi
  refine ⟨h1, h3, h4, ?_, ?_⟩
  · intro bus d num
    have a1 : ¬ mappedTick (some v) > 4095 := by omega
    have a2 : ¬ mappedTick (some v) = 4095 := by omega
    have a3 : ¬ mappedTick (some v) = 0 := by omega
    unfold setPin
    simp only [a1, a2, a3, if_false, Bool.false_eq_true]
  · intro bus d i hi ho
    have hw := write_output_effect bus d i hi
    rw [ho] at hw
    have hr : PCA9685_PWMMIN ≤ mappedTick (some v) ∧ mappedTick (some v) ≤ PCA9685_PWMMAX := ⟨h3, h4⟩
    refine ⟨?_, ?_⟩
    · rw [hw.1]
      unfold outputWrite
      rw [ho, if_pos hr]
    · rw [hw.2.2, if_pos hr]

/-- Instance of the amended C23 at the float `-0.8f`. -/
theorem normalized_output_in_range_witness :
    (-1 : ℚ) ≤ -(13421773 / 16777216) ∧ -(13421773 / 16777216) ≤ (1 : ℚ)
    ∧ |(mappedTick (some (-(13421773 / 16777216))) : Int)
        - truncQ (375 + 225 * (-(13421773 / 16777216)))| ≤ 1
    ∧ PCA9685_PWMMIN ≤ mappedTick (some (-(13421773 / 16777216)))
    ∧ mappedTick (some (-(13421773 / 16777216))) ≤ PCA9685_PWMMAX :=
  ⟨by norm_num, by norm_num,
    (normalized_output_in_range (-(13421773 / 16777216)) (by norm_num) (by norm_num)).1,
    (normalized_output_in_range (-(13421773 / 16777216)) (by norm_num) (by norm_num)).2.1,
    (normalized_output_in_range (-(13421773 / 16777216)) (by norm_num) (by norm_num)).2.2.1⟩

/-- C24: polarity inversion is value complement. For v ≤ 4095, setPin with
invert set gives the same result (same transfer, same bytes, same state) as
setPin of 4095 - v without invert; the complement applied twice is the
non-inverted command, and inverting the complement is the non-inverted command
as well. -/
theorem inversion_is_complement (bus : Bus) (d : Dev) (num v : Nat) (hv : v ≤ 4095) :
    setPin bus d num v true = setPin bus d num (4095 - v) false
    ∧ setPin bus d num (4095 - (4095 - v)) false = setPin bus d num v false
    ∧ setPin bus d num (4095 - v) true = setPin bus d num v false := by
  have h2 : 4095 - (4095 - v) = v := by omega
  refine ⟨?_, by rw [h2], ?_⟩
  · unfold setPin
    have h1 : ¬ v > 4095 := by omega
    have h3 : ¬ 4095 - v > 4095 := by omega
    simp only [h1, h3, if_false, if_true, Bool.false_eq_true]
    by_cases h0 : v = 0
    · subst h0; simp
    · by_cases h4 : v = 4095
      · subst h4; simp
      · have h5 : ¬ 4095 - v = 4095 := by omega
        have h6 : ¬ 4095 - v = 0 := by omega
        simp only [h0, h4, h5, h6, if_false]
  · unfold setPin
    have h1 : ¬ v > 4095 := by omega
    have h3 : ¬ 4095 - v > 4095 := by omega
    simp only [h1, h3, if_false, if_true, Bool.false_eq_true]
    by_cases h0 : v = 0
    · subst h0; simp
    · by_cases h4 : v = 4095
      · subst h4; simp
      · have h5 : ¬ 4095 - v = 4095 := by omega
        have h6 : ¬ 4095 - v = 0 := by omega
        simp only [h0, h4, h5, h6, if_false, h2]

/-- Witness of C24 at channel 2 and value 1000: both calls send 0x0E, 0, 0,
0x17, 0x0C, which is off = 3095. -/
theorem inversion_is_complement_witness :
    (1000 : Nat) ≤ 4095
    ∧ setPin busOK (new 1) 2 1000 true = setPin busOK (new 1) 2 3095 false
    ∧ (setPin busOK (new 1) 2 1000 true).2.log = [Ev.send [0x0E, 0x00, 0x00, 0x17, 0x0C]] :=
  ⟨by decide, (inversion_is_complement busOK (new 1) 2 1000 (by decide)).1, by decide⟩

theorem getActuation_outside (d : Dev) (act : actuator_controls_s) (offset : Nat)
    (hlen : d.controls.length = NUM_ACTUATOR_CONTROL_GROUPS) :
    getActuation d act offset = none
      ↔ NUM_ACTUATOR_CONTROL_GROUPS ≤ offset ∧ offset < NUM_ACTUATOR_CONTROLS := by
  unfold getActuation
  by_cases h : offset < NUM_ACTUATOR_CONTROLS
  · rw [if_pos h, List.getElem?_eq_none_iff, hlen]
    exact ⟨fun h1 => ⟨h1, h⟩, fun h1 => h1.1⟩
  · rw [if_neg h]
    exact ⟨fun h1 => (by cases h1), fun h1 => absurd h1.2 h⟩

end PCA9685
